import Mathlib

/-!
# ptr_guard: a guarded pointer and its safe invocation protocol

A shallow embedding of `src/ptr_guard.h` (the class template `ptr_guard<T>` and the
helpers of its `__detail` namespace) together with the theorems that relate the
embedding to the written specification.

Layout of the development:

* an abstract store (`Heap`) with the objects pointers refer to, the control blocks
  of shared ownership and the destructor counter that the test driver observes;
* the pointer kinds the template is instantiated with in the tests: a raw pointer,
  `std::unique_ptr`, `std::shared_ptr` and `std::weak_ptr`.  Their operations follow
  the C++ standard library; they are the environment of the guard, not part of it;
* the guard itself, function by function, under the names of the source;
* the theorems, one per specification claim.

A reference to a pointee is its address: `operator*` returns `element_type&`, so
what reaches the callable is the object itself and never a copy of it.  A plain
argument, on the contrary, is taken by value by the validity check: a copy of it
is made and destroyed there, and what that does to the store comes with its type
(`PlainArg`).  Undefined behaviour (dereferencing a null pointer, reading the
result of `call_or` through a reference that dangles) is the value `none`.
-/

namespace PtrGuard

/-! ## The store -/

/-- Address of an object. A pointer is `Option Addr`; `none` is `nullptr`. -/
abbrev Addr := Nat

/-- Identity of a control block of shared ownership. -/
abbrev CtrlId := Nat

/-- The test driver's pointee (`struct Pointee` of `guard_tests.cc`). -/
structure Pointee where
  identifier : Int := 0
deriving DecidableEq, Repr

/-- The store: live objects, control blocks (use count and managed pointer), the
next unused control block and the number of pointee destructor calls so far
(`TestContext::pointeeDestructorCalls`). -/
structure Heap (α : Type) where
  objects : Addr → Option α
  useCount : CtrlId → Nat
  managed : CtrlId → Option Addr
  nextCtrl : CtrlId
  pointeeDestructorCalls : Nat

namespace Heap

variable {α : Type}

/-- A store with no object and no owner. -/
def empty : Heap α :=
  { objects := fun _ => none, useCount := fun _ => 0, managed := fun _ => none,
    nextCtrl := 0, pointeeDestructorCalls := 0 }

/-- Assignment through a reference: the object at `a` becomes `v`. -/
def write (h : Heap α) (a : Addr) (v : α) : Heap α :=
  { h with objects := fun x => if x = a then some v else h.objects x }

/-- The expression `delete p`: nothing for a null pointer, otherwise the pointee's
destructor runs (and is counted) and the object is gone. -/
def delete (h : Heap α) : Option Addr → Heap α
  | none => h
  | some a =>
    { h with objects := fun x => if x = a then none else h.objects x,
             pointeeDestructorCalls := h.pointeeDestructorCalls + 1 }

/-- The constructor `shared_ptr(Y* p)` allocates a control block that owns `p` with a
use count of one (also when `p` is null). -/
def newCtrl (h : Heap α) (p : Option Addr) : CtrlId × Heap α :=
  (h.nextCtrl,
   { h with useCount := fun c => if c = h.nextCtrl then 1 else h.useCount c,
            managed := fun c => if c = h.nextCtrl then p else h.managed c,
            nextCtrl := h.nextCtrl + 1 })

/-- One more `shared_ptr` shares the ownership of the block (copying a `shared_ptr`,
locking a `weak_ptr`). An empty pointer has no block to share. -/
def acquire (h : Heap α) : Option CtrlId → Heap α
  | none => h
  | some c => { h with useCount := fun x => if x = c then h.useCount c + 1 else h.useCount x }

/-- One `shared_ptr` gives up its share of the block; the last one deletes the
managed pointer. -/
def dropShare (h : Heap α) : Option CtrlId → Heap α
  | none => h
  | some c =>
    let h1 : Heap α :=
      { h with useCount := fun x => if x = c then h.useCount c - 1 else h.useCount x }
    if h.useCount c - 1 = 0 then h1.delete (h.managed c) else h1

end Heap

/-! ## The pointer kinds (standard library, modelled after the C++ standard) -/

/-- The four pointer kinds the guard is instantiated with. -/
inductive Kind where
  | raw
  | unique
  | shared
  | weak
deriving DecidableEq, Repr

/-- Model of `std::unique_ptr<T>`: the stored pointer. -/
structure unique_ptr where
  ptr : Option Addr := none
deriving DecidableEq, Repr

/-- Model of `std::shared_ptr<T>`: the stored pointer and the control block it
shares, if any. -/
structure shared_ptr where
  ptr : Option Addr := none
  ctrl : Option CtrlId := none
deriving DecidableEq, Repr

/-- Model of `std::weak_ptr<T>`: the stored pointer and the control block it
observes, if any. -/
structure weak_ptr where
  ptr : Option Addr := none
  ctrl : Option CtrlId := none
deriving DecidableEq, Repr

namespace unique_ptr

variable {α : Type}

/-- The conversion `explicit operator bool`: `get() != nullptr`. -/
def toBool (p : unique_ptr) : Bool := p.ptr.isSome

/-- The call `reset(q)`: stores `q`, then deletes the old pointer if it is not null. -/
def reset (h : Heap α) (p : unique_ptr) (q : Option Addr) : unique_ptr × Heap α :=
  ({ ptr := q }, h.delete p.ptr)

/-- The call `release()`: returns the stored pointer and stores null; nothing is
deleted. -/
def release (p : unique_ptr) : Option Addr × unique_ptr :=
  (p.ptr, { ptr := none })

end unique_ptr

namespace shared_ptr

variable {α : Type}

/-- The conversion `explicit operator bool`: `get() != nullptr`. -/
def toBool (p : shared_ptr) : Bool := p.ptr.isSome

/-- The observer `use_count()`: the owners of the shared block, 0 for an empty
pointer. -/
def use_count (h : Heap α) (p : shared_ptr) : Nat :=
  match p.ctrl with
  | none => 0
  | some c => h.useCount c

/-- The constructor `shared_ptr(Y* q)`. -/
def ofRaw (h : Heap α) (q : Option Addr) : shared_ptr × Heap α :=
  let r := h.newCtrl q
  ({ ptr := q, ctrl := some r.1 }, r.2)

/-- The copy constructor: the copy shares the block. -/
def copy (h : Heap α) (p : shared_ptr) : shared_ptr × Heap α :=
  (p, h.acquire p.ctrl)

/-- The call `reset()`, that is `shared_ptr().swap(*this)`: the pointer becomes empty
and its former share is given up. -/
def reset (h : Heap α) (p : shared_ptr) : shared_ptr × Heap α :=
  ({ ptr := none, ctrl := none }, h.dropShare p.ctrl)

/-- The call `reset(q)`, that is `shared_ptr(q).swap(*this)`: a new block owns `q`,
then the former share is given up. -/
def resetTo (h : Heap α) (p : shared_ptr) (q : Option Addr) : shared_ptr × Heap α :=
  let r := ofRaw h q
  (r.1, r.2.dropShare p.ctrl)

end shared_ptr

namespace weak_ptr

variable {α : Type}

/-- The observer `use_count()`: the `shared_ptr` owners of the observed block, 0 for
an empty `weak_ptr`. -/
def use_count (h : Heap α) (p : weak_ptr) : Nat :=
  match p.ctrl with
  | none => 0
  | some c => h.useCount c

/-- The observer `expired()`: `use_count() == 0`. -/
def expired (h : Heap α) (p : weak_ptr) : Bool := use_count h p == 0

/-- The constructor `weak_ptr(shared_ptr const&)`: observes the block of `s`. -/
def ofShared (s : shared_ptr) : weak_ptr := { ptr := s.ptr, ctrl := s.ctrl }

/-- The call `lock()`: `expired() ? shared_ptr() : shared_ptr(*this)`. -/
def lock (h : Heap α) (p : weak_ptr) : shared_ptr × Heap α :=
  if expired h p then ({ ptr := none, ctrl := none }, h)
  else ({ ptr := p.ptr, ctrl := p.ctrl }, h.acquire p.ctrl)

/-- The call `reset()`: the `weak_ptr` becomes empty. -/
def reset (_p : weak_ptr) : weak_ptr := { ptr := none, ctrl := none }

end weak_ptr

/-! ## The guard -/

/-- The guarded pointer type `ptr_guard<T>::pointer` for each kind. -/
def Pointer : Kind → Type
  | .raw => Option Addr
  | .unique => unique_ptr
  | .shared => shared_ptr
  | .weak => weak_ptr

/-- The value-initialised pointer of the member initialiser `pointer _ptr = {}`: a
null raw pointer, an empty smart pointer. -/
def Pointer.null : (k : Kind) → Pointer k
  | .raw => (none : Option Addr)
  | .unique => ({ ptr := none } : unique_ptr)
  | .shared => ({ ptr := none, ctrl := none } : shared_ptr)
  | .weak => ({ ptr := none, ctrl := none } : weak_ptr)

/-- The kinds with `operator*`: every kind but `weak_ptr`. A guard of another kind
cannot be the receiver or an argument of `call`: `dereference_arg` does not
compile for it. -/
def Kind.dereferenceable : Kind → Bool
  | .weak => false
  | _ => true

/-- The kinds whose pointer can be reset to a raw pointer: `reset_ptr(P*&, Arg&&)`
for the raw kind, the member `reset(p)` of `unique_ptr` and `shared_ptr`.
`weak_ptr::reset` takes no argument. -/
def Kind.resettableTo : Kind → Bool
  | .weak => false
  | _ => true

/-- The expression `*p` on the guarded pointer: a reference to the pointee, that is
its address; on a null pointer the behaviour is undefined (`none`). -/
def Pointer.deref : (k : Kind) → k.dereferenceable = true → Pointer k → Option Addr
  | .raw, _, p => (p : Option Addr)
  | .unique, _, p => (p : unique_ptr).ptr
  | .shared, _, p => (p : shared_ptr).ptr
  | .weak, hk, _ => nomatch hk

/-- The class template `ptr_guard<T>`: its only data member is `pointer _ptr`. -/
structure ptr_guard (k : Kind) where
  _ptr : Pointer k

/-- A plain value or a guard in the argument pack of `call`. A guard argument is
bound either as `ptr_guard<T> const&` (`isConst = true`) or as `ptr_guard<T>&`.
A plain argument is a value of a type `V`; the validity check takes it by value
(`A arg`), and what that copy does to the store is given with the type (see
`PlainArg`). -/
inductive Arg (V : Type) where
  | guard (isConst : Bool) (k : Kind) (hk : k.dereferenceable = true) (g : ptr_guard k)
  | plain (v : V)

/-- What the callable receives for one argument: a reference to a pointee, or the
plain argument itself. -/
inductive Val (V : Type) where
  | ref (a : Addr)
  | plain (v : V)
deriving DecidableEq, Repr

/-- The observable steps of the invocation protocol; `pos` is the position of a
guard in the argument pack (0 is the receiver). -/
inductive Event (V : Type) where
  | tested (pos : Nat) (ok : Bool)
  | dereferenced (pos : Nat)
  | invoked (vals : List (Val V))
deriving DecidableEq, Repr

/-- A callable: it receives the substituted arguments, may read and write the store
through the references, and returns a result. -/
abbrev Func (α V R : Type) := List (Val V) → Heap α → R × Heap α

namespace detail

variable {α V R S : Type}

/-- The two overloads of `test_ptr`: `static_cast<bool>(p)` in general,
`!p.expired()` for a `weak_ptr`. -/
def test_ptr (h : Heap α) : (k : Kind) → Pointer k → Bool
  | .raw, p => (p : Option Addr).isSome
  | .unique, p => (p : unique_ptr).toBool
  | .shared, p => (p : shared_ptr).toBool
  | .weak, p => !(p : weak_ptr).expired h

/-- The overloads of `reset_ptr` called without an argument: `p = nullptr` for a raw
pointer, `p.reset()` otherwise. -/
def reset_ptr (h : Heap α) : (k : Kind) → Pointer k → Pointer k × Heap α
  | .raw, _ => ((none : Option Addr), h)
  | .unique, p => unique_ptr.reset h (p : unique_ptr) none
  | .shared, p => shared_ptr.reset h (p : shared_ptr)
  | .weak, p => (weak_ptr.reset (p : weak_ptr), h)

/-- The overloads of `reset_ptr` called with one pointer argument: `p = arg` for a
raw pointer, `p.reset(arg)` otherwise. -/
def reset_ptr_to (h : Heap α) :
    (k : Kind) → k.resettableTo = true → Pointer k → Option Addr → Pointer k × Heap α
  | .raw, _, _, q => ((q : Option Addr), h)
  | .unique, _, p, q => unique_ptr.reset h (p : unique_ptr) q
  | .shared, _, p, q => shared_ptr.resetTo h (p : shared_ptr) q
  | .weak, hk, _, _ => nomatch hk

/-- The function `access_guarded_pointer`: the guarded pointer itself. -/
def access_guarded_pointer {k : Kind} (arg : ptr_guard k) : Pointer k := arg._ptr

end detail

namespace ptr_guard

variable {α V R S : Type} {k : Kind}

/-- The default constructor `constexpr ptr_guard() noexcept = default`. -/
def default (k : Kind) : ptr_guard k := { _ptr := Pointer.null k }

/-- The constructor `ptr_guard(P other)` with a raw pointer for `other`:
`_ptr(std::forward<P>(other))` initialises the guarded pointer from it. -/
def from_raw (h : Heap α) :
    (k : Kind) → k.dereferenceable = true → Option Addr → ptr_guard k × Heap α
  | .raw, _, q => ({ _ptr := (q : Option Addr) }, h)
  | .unique, _, q => ({ _ptr := ({ ptr := q } : unique_ptr) }, h)
  | .shared, _, q => ({ _ptr := (shared_ptr.ofRaw h q).1 }, (shared_ptr.ofRaw h q).2)
  | .weak, hk, _ => nomatch hk

/-- The constructor `ptr_guard(ptr_guard<P> const& other)` of a weak guard from a
shared guard: `_ptr(access_guarded_pointer(other))`. -/
def weak_from_guard (other : ptr_guard .shared) : ptr_guard .weak :=
  { _ptr := weak_ptr.ofShared (detail.access_guarded_pointer other) }

/-- The conversion `operator bool() const`: `test_ptr(_ptr)`. -/
def toBool (h : Heap α) (g : ptr_guard k) : Bool := detail.test_ptr h k g._ptr

/-- The private `operator*() noexcept`: `*_ptr`. -/
def deref (g : ptr_guard k) (hk : k.dereferenceable = true) : Option Addr :=
  Pointer.deref k hk g._ptr

/-- The private `operator*() const noexcept`: `*_ptr`. -/
def deref_const (g : ptr_guard k) (hk : k.dereferenceable = true) : Option Addr :=
  Pointer.deref k hk g._ptr

/-- The member `reset()`: `reset_ptr(_ptr)`. -/
def reset (h : Heap α) (g : ptr_guard k) : ptr_guard k × Heap α :=
  ({ _ptr := (detail.reset_ptr h k g._ptr).1 }, (detail.reset_ptr h k g._ptr).2)

/-- The member `reset(p)`: `reset_ptr(_ptr, p)`. -/
def reset_to (g : ptr_guard k) (hk : k.resettableTo = true) (h : Heap α) (p : Option Addr) :
    ptr_guard k × Heap α :=
  ({ _ptr := (detail.reset_ptr_to h k hk g._ptr p).1 }, (detail.reset_ptr_to h k hk g._ptr p).2)

/-- The constructor `ptr_guard(P other)` with an rvalue of the guarded pointer type:
`_ptr(std::forward<P>(other))` moves the pointer into the guard. -/
def from_pointer (other : Pointer k) : ptr_guard k := { _ptr := other }

/-- The member `lock()` of a weak guard: `return _ptr.lock();`, the locked pointer
being converted to the returned `ptr_guard<shared_ptr<T>>` by the constructor
above. -/
def lock (h : Heap α) (g : ptr_guard .weak) : ptr_guard .shared × Heap α :=
  (from_pointer (weak_ptr.lock h (g._ptr : weak_ptr)).1, (weak_ptr.lock h (g._ptr : weak_ptr)).2)

end ptr_guard

/-! ## The invocation protocol -/

/-- What one run of the protocol leaves behind: the value returned, the store, and
the steps taken, in order. -/
structure Run (α V R : Type) where
  value : R
  heap : Heap α
  trace : List (Event V)

/-- How a plain argument of type `V` is passed by value: what copy constructing a
parameter from it does to the store, and what destroying that parameter does. For
an `int` both do nothing; for a class type they run its copy constructor and its
destructor (for `Pointee`, the destructor is counted). A type that cannot be
copied cannot be a plain argument: the call does not compile. -/
class PlainArg (α V : Type) where
  copy : V → Heap α → Heap α
  destroy : V → Heap α → Heap α

/-- What the validity check leaves behind: its verdict, the store after the
by-value parameters it took were constructed and destroyed, and the boolean
conversions it evaluated, in order. -/
structure Checked (α V : Type) where
  ok : Bool
  heap : Heap α
  trace : List (Event V)

/-- The default argument `def` of `call_or`, bound to the forwarding reference
`Ret&& def`, from which `Ret`, the return type, is deduced. A temporary (an rvalue
such as the `0` and `0u` of the tests) makes `Ret` a value type. A named default
(a const lvalue, as in `const unsigned d = 0; g.call_or(f, d)`) makes `Ret` a
reference to const. A non-const lvalue default, with a callable that returns by
value, is not accepted by the compiler and is not represented. -/
inductive DefaultArg (R : Type) where
  | temporary (d : R)
  | named (d : R)

/-- The value of the default. -/
def DefaultArg.value {R : Type} : DefaultArg R → R
  | .temporary d => d
  | .named d => d

/-- An `int` is passed by value without any effect on the store. -/
instance intPlainArg {α : Type} : PlainArg α Int where
  copy := fun _ h => h
  destroy := fun _ h => h

/-- A `Pointee` passed by value: the defaulted copy constructor has no effect, the
destructor `~Pointee()` counts itself in `pointeeDestructorCalls`. -/
instance pointeePlainArg {α : Type} : PlainArg α Pointee where
  copy := fun _ h => h
  destroy := fun _ h => { h with pointeeDestructorCalls := h.pointeeDestructorCalls + 1 }

namespace detail

variable {α V R S : Type}

/-- The five overloads of `all_args_are_safe_to_dereference`, in the order of the
source: no argument; one plain argument; one guard; a plain argument followed by
more; a guard followed by more (`static_cast<bool>(arg) && ...`, so the rest is
not looked at once a guard is found invalid). A plain argument is taken by value
(`A arg`): the parameter is copy constructed when the overload is called and
destroyed when it returns, after the rest of the pack has been looked at. The
members put the receiver first, so a plain argument reaches its overload from
inside another one, as the lvalue `args...`: it is copied, never moved from.
`pos` is the position of the first argument. -/
def all_args_are_safe_to_dereference [PlainArg α V] :
    Heap α → Nat → List (Arg V) → Checked α V
  | h, _, [] => { ok := true, heap := h, trace := [] }
  | h, _, [.plain v] =>
    { ok := true, heap := PlainArg.destroy v (PlainArg.copy v h), trace := [] }
  | h, pos, [.guard _ _ _ g] =>
    { ok := g.toBool h, heap := h, trace := [.tested pos (g.toBool h)] }
  | h, pos, .plain v :: arg :: args =>
    { ok := (all_args_are_safe_to_dereference (PlainArg.copy v h) (pos + 1) (arg :: args)).ok,
      heap := PlainArg.destroy v
        (all_args_are_safe_to_dereference (PlainArg.copy v h) (pos + 1) (arg :: args)).heap,
      trace :=
        (all_args_are_safe_to_dereference (PlainArg.copy v h) (pos + 1) (arg :: args)).trace }
  | h, pos, .guard _ _ _ g :: arg :: args =>
    if g.toBool h then
      { ok := (all_args_are_safe_to_dereference h (pos + 1) (arg :: args)).ok,
        heap := (all_args_are_safe_to_dereference h (pos + 1) (arg :: args)).heap,
        trace := .tested pos true ::
          (all_args_are_safe_to_dereference h (pos + 1) (arg :: args)).trace }
    else { ok := false, heap := h, trace := [.tested pos false] }

/-- The three overloads of `dereference_arg`: a plain argument is forwarded as it
is; a `ptr_guard<T> const&` is dereferenced after a `const_cast`, a `ptr_guard<T>&`
directly, both through the non-const `operator*`. -/
def dereference_arg : Arg V → Option (Val V)
  | .plain v => some (.plain v)
  | .guard true _ hk g => (g.deref hk).map .ref
  | .guard false _ hk g => (g.deref hk).map .ref

/-- The pack expansion `dereference_arg(args)...`: every argument in its place;
undefined as soon as one dereference is. -/
def dereference_pack : List (Arg V) → Option (List (Val V))
  | [] => some []
  | arg :: args =>
    match dereference_arg arg, dereference_pack args with
    | some v, some vs => some (v :: vs)
    | _, _ => none

/-- The dereferences the pack expansion performs: one per guard argument. -/
def dereference_events : Nat → List (Arg V) → List (Event V)
  | _, [] => []
  | pos, .plain _ :: args => dereference_events (pos + 1) args
  | pos, .guard _ _ _ _ :: args => .dereferenced pos :: dereference_events (pos + 1) args

/-- The function `check_all_then_invoke`: when every argument is safe to dereference,
`std::invoke(func, dereference_arg(args)...)`, in the store the check has left; the
result of `func` is dropped. -/
def check_all_then_invoke [PlainArg α V] (h : Heap α) (func : Func α V S)
    (args : List (Arg V)) : Option (Run α V Unit) :=
  if (all_args_are_safe_to_dereference h 0 args).ok then
    match dereference_pack args with
    | none => none
    | some vals =>
      some { value := (),
             heap := (func vals (all_args_are_safe_to_dereference h 0 args).heap).2,
             trace := (all_args_are_safe_to_dereference h 0 args).trace
                        ++ dereference_events 0 args ++ [.invoked vals] }
  else
    some { value := (), heap := (all_args_are_safe_to_dereference h 0 args).heap,
           trace := (all_args_are_safe_to_dereference h 0 args).trace }

/-- The function `check_all_then_invoke_or_default`, of return type `Ret`: `def` when
some argument is not safe to dereference, otherwise `return std::invoke(...)`.
With a temporary default `Ret` is a value type and the result of the callable is
converted to it by the return statement (`conv`). With a named default `Ret` is a
reference type: the invalid path returns the default itself, but on the valid path
the reference returned is bound to a temporary that is gone when the function
returns, and reading the result is undefined. The callable returns by value, and
so does the function for a temporary default; a return type whose copying acts on
the store is not represented (the tests return `int` and `unsigned`). -/
def check_all_then_invoke_or_default [PlainArg α V] (conv : S → R) (h : Heap α)
    (func : Func α V S) (dflt : DefaultArg R) (args : List (Arg V)) : Option (Run α V R) :=
  if !(all_args_are_safe_to_dereference h 0 args).ok then
    some { value := dflt.value, heap := (all_args_are_safe_to_dereference h 0 args).heap,
           trace := (all_args_are_safe_to_dereference h 0 args).trace }
  else
    match dereference_pack args with
    | none => none
    | some vals =>
      match dflt with
      | .temporary _ =>
        some { value := conv (func vals (all_args_are_safe_to_dereference h 0 args).heap).1,
               heap := (func vals (all_args_are_safe_to_dereference h 0 args).heap).2,
               trace := (all_args_are_safe_to_dereference h 0 args).trace
                          ++ dereference_events 0 args ++ [.invoked vals] }
      | .named _ => none

end detail

namespace ptr_guard

variable {α V R S : Type} {k : Kind}

/-- The member `call(func, args...) const`: `check_all_then_invoke` on the receiver,
bound as `ptr_guard const&`, followed by the arguments. -/
def call_const [PlainArg α V] (g : ptr_guard k) (hk : k.dereferenceable = true) (h : Heap α)
    (func : Func α V S) (args : List (Arg V)) : Option (Run α V Unit) :=
  detail.check_all_then_invoke h func (.guard true k hk g :: args)

/-- The member `call(func, args...)`: `check_all_then_invoke` on the receiver, bound
as `ptr_guard&`, followed by the arguments. -/
def call [PlainArg α V] (g : ptr_guard k) (hk : k.dereferenceable = true) (h : Heap α)
    (func : Func α V S) (args : List (Arg V)) : Option (Run α V Unit) :=
  detail.check_all_then_invoke h func (.guard false k hk g :: args)

/-- The member `call_or(func, def, args...) const`, called with a temporary for
`def`. -/
def call_or_const [PlainArg α V] (g : ptr_guard k) (hk : k.dereferenceable = true)
    (conv : S → R) (h : Heap α) (func : Func α V S) (dflt : R) (args : List (Arg V)) :
    Option (Run α V R) :=
  detail.check_all_then_invoke_or_default conv h func (.temporary dflt)
    (.guard true k hk g :: args)

/-- The member `call_or(func, def, args...)`, called with a temporary for `def`. -/
def call_or [PlainArg α V] (g : ptr_guard k) (hk : k.dereferenceable = true) (conv : S → R)
    (h : Heap α) (func : Func α V S) (dflt : R) (args : List (Arg V)) : Option (Run α V R) :=
  detail.check_all_then_invoke_or_default conv h func (.temporary dflt)
    (.guard false k hk g :: args)

/-- The member `call_or(func, def, args...) const`, called with a named default. -/
def call_or_const_named [PlainArg α V] (g : ptr_guard k) (hk : k.dereferenceable = true)
    (conv : S → R) (h : Heap α) (func : Func α V S) (dflt : R) (args : List (Arg V)) :
    Option (Run α V R) :=
  detail.check_all_then_invoke_or_default conv h func (.named dflt)
    (.guard true k hk g :: args)

/-- The member `call_or(func, def, args...)`, called with a named default. -/
def call_or_named [PlainArg α V] (g : ptr_guard k) (hk : k.dereferenceable = true)
    (conv : S → R) (h : Heap α) (func : Func α V S) (dflt : R) (args : List (Arg V)) :
    Option (Run α V R) :=
  detail.check_all_then_invoke_or_default conv h func (.named dflt)
    (.guard false k hk g :: args)

end ptr_guard

/-! ## The invocation protocol, the guards seen as objects

`call` and `call_or` take the receiver and every guard-typed argument by reference
and hand them on by reference (`*this`, `Args&&...`, `ptr_guard<T> const&`). Above,
a guard argument is the guard referred to. Here the guards are objects of the store
and an argument is the address of one, so that a run can be asked what it did to
them: the same source functions, read once more with guards as objects. -/

/-- A guard as an object: a guard of some kind that can be dereferenced. -/
structure GuardObject where
  kind : Kind
  usable : kind.dereferenceable = true
  guard : ptr_guard kind

/-- An argument as `call` receives it: a reference to a guard object (`isConst`
telling whether the reference is to const) or a plain value. -/
inductive RefArg (V : Type) where
  | guard (isConst : Bool) (loc : Addr)
  | plain (v : V)

/-- The guard object a reference refers to, read from the store; `view` tells which
objects of the store are guards. A reference that refers to no guard has none. -/
def guardAt {β : Type} (view : β → Option GuardObject) (h : Heap β) (loc : Addr) :
    Option GuardObject :=
  (h.objects loc).bind view

namespace ByReference

variable {β V R S : Type}

/-- The five overloads of `all_args_are_safe_to_dereference`, as in `detail`, the
guard being read through the reference at the time it is converted to `bool`. -/
def all_args_are_safe_to_dereference [PlainArg β V] (view : β → Option GuardObject) :
    Heap β → Nat → List (RefArg V) → Option (Checked β V)
  | h, _, [] => some { ok := true, heap := h, trace := [] }
  | h, _, [.plain v] =>
    some { ok := true, heap := PlainArg.destroy v (PlainArg.copy v h), trace := [] }
  | h, pos, [.guard _ loc] =>
    match guardAt view h loc with
    | none => none
    | some o =>
      some { ok := o.guard.toBool h, heap := h, trace := [.tested pos (o.guard.toBool h)] }
  | h, pos, .plain v :: arg :: args =>
    match all_args_are_safe_to_dereference view (PlainArg.copy v h) (pos + 1) (arg :: args) with
    | none => none
    | some r => some { ok := r.ok, heap := PlainArg.destroy v r.heap, trace := r.trace }
  | h, pos, .guard _ loc :: arg :: args =>
    match guardAt view h loc with
    | none => none
    | some o =>
      if o.guard.toBool h then
        match all_args_are_safe_to_dereference view h (pos + 1) (arg :: args) with
        | none => none
        | some r => some { ok := r.ok, heap := r.heap, trace := .tested pos true :: r.trace }
      else some { ok := false, heap := h, trace := [.tested pos false] }

/-- The three overloads of `dereference_arg`, the guard being read through the
reference at the time it is dereferenced. -/
def dereference_arg (view : β → Option GuardObject) (h : Heap β) : RefArg V → Option (Val V)
  | .plain v => some (.plain v)
  | .guard true loc =>
    match guardAt view h loc with
    | none => none
    | some o => (o.guard.deref o.usable).map .ref
  | .guard false loc =>
    match guardAt view h loc with
    | none => none
    | some o => (o.guard.deref o.usable).map .ref

/-- The pack expansion `dereference_arg(args)...`. -/
def dereference_pack (view : β → Option GuardObject) (h : Heap β) :
    List (RefArg V) → Option (List (Val V))
  | [] => some []
  | arg :: args =>
    match dereference_arg view h arg, dereference_pack view h args with
    | some v, some vs => some (v :: vs)
    | _, _ => none

/-- The dereferences the pack expansion performs: one per guard argument. -/
def dereference_events : Nat → List (RefArg V) → List (Event V)
  | _, [] => []
  | pos, .plain _ :: args => dereference_events (pos + 1) args
  | pos, .guard _ _ :: args => .dereferenced pos :: dereference_events (pos + 1) args

/-- The function `check_all_then_invoke`, as in `detail`. -/
def check_all_then_invoke [PlainArg β V] (view : β → Option GuardObject) (h : Heap β)
    (func : Func β V S) (args : List (RefArg V)) : Option (Run β V Unit) :=
  match all_args_are_safe_to_dereference view h 0 args with
  | none => none
  | some checked =>
    if checked.ok then
      match dereference_pack view checked.heap args with
      | none => none
      | some vals =>
        some { value := (), heap := (func vals checked.heap).2,
               trace := checked.trace ++ dereference_events 0 args ++ [.invoked vals] }
    else some { value := (), heap := checked.heap, trace := checked.trace }

/-- The function `check_all_then_invoke_or_default`, as in `detail`. -/
def check_all_then_invoke_or_default [PlainArg β V] (view : β → Option GuardObject)
    (conv : S → R) (h : Heap β) (func : Func β V S) (dflt : DefaultArg R)
    (args : List (RefArg V)) : Option (Run β V R) :=
  match all_args_are_safe_to_dereference view h 0 args with
  | none => none
  | some checked =>
    if !checked.ok then
      some { value := dflt.value, heap := checked.heap, trace := checked.trace }
    else
      match dereference_pack view checked.heap args with
      | none => none
      | some vals =>
        match dflt with
        | .temporary _ =>
          some { value := conv (func vals checked.heap).1, heap := (func vals checked.heap).2,
                 trace := checked.trace ++ dereference_events 0 args ++ [.invoked vals] }
        | .named _ => none

/-- The member `call(func, args...) const` of the guard object at `self`. -/
def call_const [PlainArg β V] (view : β → Option GuardObject) (self : Addr) (h : Heap β)
    (func : Func β V S) (args : List (RefArg V)) : Option (Run β V Unit) :=
  check_all_then_invoke view h func (.guard true self :: args)

/-- The member `call(func, args...)` of the guard object at `self`. -/
def call [PlainArg β V] (view : β → Option GuardObject) (self : Addr) (h : Heap β)
    (func : Func β V S) (args : List (RefArg V)) : Option (Run β V Unit) :=
  check_all_then_invoke view h func (.guard false self :: args)

/-- The member `call_or(func, def, args...) const` of the guard object at `self`,
called with a temporary for `def`. -/
def call_or_const [PlainArg β V] (view : β → Option GuardObject) (self : Addr)
    (conv : S → R) (h : Heap β) (func : Func β V S) (dflt : R) (args : List (RefArg V)) :
    Option (Run β V R) :=
  check_all_then_invoke_or_default view conv h func (.temporary dflt)
    (.guard true self :: args)

/-- The member `call_or(func, def, args...)` of the guard object at `self`, called
with a temporary for `def`. -/
def call_or [PlainArg β V] (view : β → Option GuardObject) (self : Addr) (conv : S → R)
    (h : Heap β) (func : Func β V S) (dflt : R) (args : List (RefArg V)) :
    Option (Run β V R) :=
  check_all_then_invoke_or_default view conv h func (.temporary dflt)
    (.guard false self :: args)

end ByReference

/-! ## Special members of the pointer kinds (standard library) -/

namespace unique_ptr

variable {α : Type}

/-- The move constructor: the new pointer takes the stored pointer, the source is
left null. -/
def move (u : unique_ptr) : unique_ptr × unique_ptr :=
  ({ ptr := u.ptr }, { ptr := none })

/-- The move assignment `p = std::move(u)`: `reset(u.release())`. The result is the
assigned pointer and the source, with the store. -/
def move_assign (h : Heap α) (p u : unique_ptr) : (unique_ptr × unique_ptr) × Heap α :=
  (((reset h p (release u).1).1, (release u).2), (reset h p (release u).1).2)

/-- The assignment `p = nullptr`: as `reset()`. -/
def assign_nullptr (h : Heap α) (p : unique_ptr) : unique_ptr × Heap α :=
  reset h p none

/-- The destructor: `if (get()) get_deleter()(get())`. -/
def destroy (h : Heap α) (p : unique_ptr) : Heap α := h.delete p.ptr

/-- The call `p.swap(q)`: the two exchange their stored pointers; the result is
`p` and `q` afterwards. -/
def swap (p q : unique_ptr) : unique_ptr × unique_ptr := (q, p)

end unique_ptr

namespace shared_ptr

variable {α : Type}

/-- The move constructor: the new pointer takes pointer and block, the source is left
empty; the use count does not change. -/
def move (r : shared_ptr) : shared_ptr × shared_ptr :=
  (r, { ptr := none, ctrl := none })

/-- The destructor: gives up the share of the block. -/
def destroy (h : Heap α) (p : shared_ptr) : Heap α := h.dropShare p.ctrl

/-- The call `p.swap(q)`: the result is `p` and `q` afterwards. -/
def swap (p q : shared_ptr) : shared_ptr × shared_ptr := (q, p)

/-- The copy assignment `p = r`, that is `shared_ptr(r).swap(*this)`: a temporary
copy of `r` is swapped with `p` and then destroyed with the former content of
`p`. -/
def copy_assign (h : Heap α) (p r : shared_ptr) : shared_ptr × Heap α :=
  ((swap (copy h r).1 p).2, destroy (copy h r).2 (swap (copy h r).1 p).1)

/-- The move assignment `p = std::move(r)`, that is
`shared_ptr(std::move(r)).swap(*this)`. The result is `p` and `r` afterwards, with
the store. -/
def move_assign (h : Heap α) (p r : shared_ptr) : (shared_ptr × shared_ptr) × Heap α :=
  (((swap (move r).1 p).2, (move r).2), destroy h (swap (move r).1 p).1)

/-- The assignment `p = nullptr`: move assignment from the empty `shared_ptr(nullptr)`. -/
def assign_nullptr (h : Heap α) (p : shared_ptr) : shared_ptr × Heap α :=
  ((move_assign h p { ptr := none, ctrl := none }).1.1,
   (move_assign h p { ptr := none, ctrl := none }).2)

end shared_ptr

namespace weak_ptr

/-- The move constructor: the source is left empty. -/
def move (r : weak_ptr) : weak_ptr × weak_ptr :=
  (r, { ptr := none, ctrl := none })

/-- The call `p.swap(q)`: the result is `p` and `q` afterwards. -/
def swap (p q : weak_ptr) : weak_ptr × weak_ptr := (q, p)

end weak_ptr

/-! ## What each pointer kind and the guard over it offer -/

/-- The forwarded members of the guard the specification speaks of. -/
inductive Member where
  | to_bool
  | use_count
  | owner_before
  | release
  | lock
  | reset
  | swap
deriving DecidableEq, Repr

/-- The members of the pointer types themselves, after the C++ standard: a raw
pointer converts to `bool` and is nothing more; `unique_ptr` has `operator bool`,
`release`, `reset`, `swap`; `shared_ptr` has `operator bool`, `use_count`,
`owner_before`, `reset`, `swap`; `weak_ptr` has `use_count`, `owner_before`, `lock`,
`reset`, `swap` and no conversion to `bool`. -/
def Kind.has : Kind → Member → Bool
  | .raw, .to_bool => true
  | .raw, _ => false
  | .unique, .to_bool => true
  | .unique, .release => true
  | .unique, .reset => true
  | .unique, .swap => true
  | .unique, _ => false
  | .shared, .to_bool => true
  | .shared, .use_count => true
  | .shared, .owner_before => true
  | .shared, .reset => true
  | .shared, .swap => true
  | .shared, _ => false
  | .weak, .use_count => true
  | .weak, .owner_before => true
  | .weak, .lock => true
  | .weak, .reset => true
  | .weak, .swap => true
  | .weak, _ => false

/-- The members a guard offers for each kind, read off `ptr_guard.h`; a member
counts as offered when a call of it compiles.
`operator bool` is `test_ptr(_ptr)`, with an overload of `test_ptr` for `weak_ptr`;
`use_count`, `release` and `lock` are enabled by a default template argument that
names the same member of the pointer; `owner_before` and `swap` call that member
of `_ptr`; `reset` is `reset_ptr(_ptr, args...)`, which has overloads for a raw
pointer next to the one that calls `p.reset(args...)`. -/
def ptr_guard.offers (k : Kind) : Member → Bool
  | .to_bool =>
    match k with
    | .weak => true
    | _ => k.has .to_bool
  | .use_count => k.has .use_count
  | .owner_before => k.has .owner_before
  | .release => k.has .release
  | .lock => k.has .lock
  | .reset =>
    match k with
    | .raw => true
    | _ => k.has .reset
  | .swap => k.has .swap

namespace detail

variable {α : Type}

/-- The generic lambda `get_use_count`: `ptr.use_count()`. -/
def get_use_count (h : Heap α) : (k : Kind) → k.has .use_count = true → Pointer k → Nat
  | .shared, _, p => shared_ptr.use_count h (p : shared_ptr)
  | .weak, _, p => weak_ptr.use_count h (p : weak_ptr)
  | .raw, hk, _ => nomatch hk
  | .unique, hk, _ => nomatch hk

/-- The generic lambda `release_ptr`, and the body of `ptr_guard::release`:
`ptr.release()`. The result is the released pointer and the pointer afterwards. -/
def release_ptr : (k : Kind) → k.has .release = true → Pointer k → Option Addr × Pointer k
  | .unique, _, p => unique_ptr.release (p : unique_ptr)
  | .raw, hk, _ => nomatch hk
  | .shared, hk, _ => nomatch hk
  | .weak, hk, _ => nomatch hk

/-- The overload `ptr_guard_swap(ptr_guard<P>&, P& p1, P& p2)`: `p1.swap(p2)`. The
other overload is a `static_assert(false)`. The result is `p1` and `p2`
afterwards. -/
def ptr_guard_swap : (k : Kind) → k.has .swap = true → Pointer k → Pointer k →
    Pointer k × Pointer k
  | .unique, _, p1, p2 => unique_ptr.swap (p1 : unique_ptr) (p2 : unique_ptr)
  | .shared, _, p1, p2 => shared_ptr.swap (p1 : shared_ptr) (p2 : shared_ptr)
  | .weak, _, p1, p2 => weak_ptr.swap (p1 : weak_ptr) (p2 : weak_ptr)
  | .raw, hk, _, _ => nomatch hk

end detail

/-- The destructor of the guarded pointer: nothing for a raw pointer and for a
`weak_ptr`, the destructors above for the owning kinds. -/
def Pointer.destroy {α : Type} (h : Heap α) : (k : Kind) → Pointer k → Heap α
  | .raw, _ => h
  | .unique, p => unique_ptr.destroy h (p : unique_ptr)
  | .shared, p => shared_ptr.destroy h (p : shared_ptr)
  | .weak, _ => h

namespace ptr_guard

variable {α : Type} {k : Kind}

/-- The implicit destructor `~ptr_guard()`: destroys `_ptr`. -/
def destroy (h : Heap α) (g : ptr_guard k) : Heap α := Pointer.destroy h k g._ptr

/-- The member `use_count()`: `get_use_count(_ptr)`. -/
def use_count (g : ptr_guard k) (hk : ptr_guard.offers k .use_count = true) (h : Heap α) : Nat :=
  detail.get_use_count h k hk g._ptr

/-- The member `release()`: `return _ptr.release();`. The result is the released
pointer and the guard afterwards; the store is not involved. -/
def release (g : ptr_guard k) (hk : ptr_guard.offers k .release = true) :
    Option Addr × ptr_guard k :=
  ((detail.release_ptr k hk g._ptr).1, { _ptr := (detail.release_ptr k hk g._ptr).2 })

/-- The member `swap(pointer& other)`: `ptr_guard_swap(*this, _ptr, other)`. The
result is the guard and `other` afterwards. -/
def swap_pointer (g : ptr_guard k) (hk : ptr_guard.offers k .swap = true) (other : Pointer k) :
    ptr_guard k × Pointer k :=
  ({ _ptr := (detail.ptr_guard_swap k hk g._ptr other).1 },
   (detail.ptr_guard_swap k hk g._ptr other).2)

/-- The member `swap(ptr_guard& other)`: `ptr_guard_swap(*this, _ptr, other._ptr)`.
The result is the guard and `other` afterwards. -/
def swap (g : ptr_guard k) (hk : ptr_guard.offers k .swap = true) (other : ptr_guard k) :
    ptr_guard k × ptr_guard k :=
  ({ _ptr := (detail.ptr_guard_swap k hk g._ptr other._ptr).1 },
   { _ptr := (detail.ptr_guard_swap k hk g._ptr other._ptr).2 })

end ptr_guard

/-! ## Construction and assignment -/

/-- The kinds with a copy constructor and a copy assignment: every kind but
`unique_ptr`. -/
def Kind.copyable : Kind → Bool
  | .unique => false
  | _ => true

/-- The kinds whose pointer can be assigned `nullptr`: a raw pointer, `unique_ptr`
(`operator=(nullptr_t)`) and `shared_ptr` (through `shared_ptr(nullptr_t)`); a
`weak_ptr` cannot. -/
def Kind.assignableFromNull : Kind → Bool
  | .weak => false
  | _ => true

section PointerMembers

variable {α : Type}

/-- The move constructor of the guarded pointer: the new pointer and the source
afterwards. A raw pointer is copied, a smart pointer gives its content away. -/
def Pointer.move_construct : (k : Kind) → Pointer k → Pointer k × Pointer k
  | .raw, p => ((p : Option Addr), (p : Option Addr))
  | .unique, p => unique_ptr.move (p : unique_ptr)
  | .shared, p => shared_ptr.move (p : shared_ptr)
  | .weak, p => weak_ptr.move (p : weak_ptr)

/-- The copy constructor of the guarded pointer. -/
def Pointer.copy_construct (h : Heap α) :
    (k : Kind) → k.copyable = true → Pointer k → Pointer k × Heap α
  | .raw, _, p => ((p : Option Addr), h)
  | .shared, _, p => shared_ptr.copy h (p : shared_ptr)
  | .weak, _, p => ((p : weak_ptr), h)
  | .unique, hk, _ => nomatch hk

/-- The move assignment `p = std::move(r)` of the guarded pointer: `p` and `r`
afterwards, with the store. -/
def Pointer.move_assign (h : Heap α) :
    (k : Kind) → Pointer k → Pointer k → (Pointer k × Pointer k) × Heap α
  | .raw, _, r => (((r : Option Addr), (r : Option Addr)), h)
  | .unique, p, r => unique_ptr.move_assign h (p : unique_ptr) (r : unique_ptr)
  | .shared, p, r => shared_ptr.move_assign h (p : shared_ptr) (r : shared_ptr)
  | .weak, _, r => (weak_ptr.move (r : weak_ptr), h)

/-- The copy assignment `p = r` of the guarded pointer. -/
def Pointer.copy_assign (h : Heap α) :
    (k : Kind) → k.copyable = true → Pointer k → Pointer k → Pointer k × Heap α
  | .raw, _, _, r => ((r : Option Addr), h)
  | .shared, _, p, r => shared_ptr.copy_assign h (p : shared_ptr) (r : shared_ptr)
  | .weak, _, _, r => ((r : weak_ptr), h)
  | .unique, hk, _, _ => nomatch hk

/-- The assignment `p = nullptr` of the guarded pointer. -/
def Pointer.assign_nullptr (h : Heap α) :
    (k : Kind) → k.assignableFromNull = true → Pointer k → Pointer k × Heap α
  | .raw, _, _ => ((none : Option Addr), h)
  | .unique, _, p => unique_ptr.assign_nullptr h (p : unique_ptr)
  | .shared, _, p => shared_ptr.assign_nullptr h (p : shared_ptr)
  | .weak, hk, _ => nomatch hk

end PointerMembers

namespace ptr_guard

variable {α : Type} {k : Kind}

/-- The implicit move constructor `ptr_guard(ptr_guard&&)`: `_ptr` is move
constructed from `other._ptr`. The result is the new guard and `other` afterwards. -/
def move_construct (other : ptr_guard k) : ptr_guard k × ptr_guard k :=
  ({ _ptr := (Pointer.move_construct k other._ptr).1 },
   { _ptr := (Pointer.move_construct k other._ptr).2 })

/-- The implicit copy constructor `ptr_guard(ptr_guard const&)`: `_ptr` is copy
constructed from `other._ptr`. -/
def copy_construct (other : ptr_guard k) (hk : k.copyable = true) (h : Heap α) :
    ptr_guard k × Heap α :=
  ({ _ptr := (Pointer.copy_construct h k hk other._ptr).1 },
   (Pointer.copy_construct h k hk other._ptr).2)

/-- The implicit move assignment `g = std::move(other)`: `_ptr = std::move(other._ptr)`.
The result is `g` and `other` afterwards, with the store. -/
def move_assign (g : ptr_guard k) (h : Heap α) (other : ptr_guard k) :
    (ptr_guard k × ptr_guard k) × Heap α :=
  (({ _ptr := (Pointer.move_assign h k g._ptr other._ptr).1.1 },
    { _ptr := (Pointer.move_assign h k g._ptr other._ptr).1.2 }),
   (Pointer.move_assign h k g._ptr other._ptr).2)

/-- The implicit copy assignment `g = other`: `_ptr = other._ptr`. -/
def copy_assign (g : ptr_guard k) (hk : k.copyable = true) (h : Heap α) (other : ptr_guard k) :
    ptr_guard k × Heap α :=
  ({ _ptr := (Pointer.copy_assign h k hk g._ptr other._ptr).1 },
   (Pointer.copy_assign h k hk g._ptr other._ptr).2)

/-- The constructor `ptr_guard(P other)` called with an rvalue `src` of the guarded
pointer type: the parameter is move constructed from `src` and then moved into
`_ptr`. The result is the guard and `src` afterwards. -/
def from_pointer_rvalue (src : Pointer k) : ptr_guard k × Pointer k :=
  (from_pointer (Pointer.move_construct k src).1, (Pointer.move_construct k src).2)

/-- The constructor `ptr_guard(P other)` called with an lvalue `src` of the guarded
pointer type: the parameter is a copy of `src`, moved into `_ptr`. -/
def from_pointer_lvalue (h : Heap α) (src : Pointer k) (hk : k.copyable = true) :
    ptr_guard k × Heap α :=
  (from_pointer (Pointer.copy_construct h k hk src).1, (Pointer.copy_construct h k hk src).2)

/-- The body of `operator=(P other)` for a parameter `other` of the guarded pointer
type: `_ptr = std::forward<P>(other); return *this;`, after which the parameter,
moved from, is destroyed. -/
def assign (g : ptr_guard k) (h : Heap α) (other : Pointer k) : ptr_guard k × Heap α :=
  ({ _ptr := (Pointer.move_assign h k g._ptr other).1.1 },
   Pointer.destroy (Pointer.move_assign h k g._ptr other).2 k
     (Pointer.move_assign h k g._ptr other).1.2)

/-- The assignment `g = std::move(src)` from a bare pointer of the guarded type: the
parameter of `operator=(P other)` is move constructed from `src`. The result is `g`
and `src` afterwards, with the store. -/
def assign_pointer_rvalue (g : ptr_guard k) (h : Heap α) (src : Pointer k) :
    (ptr_guard k × Pointer k) × Heap α :=
  (((g.assign h (Pointer.move_construct k src).1).1, (Pointer.move_construct k src).2),
   (g.assign h (Pointer.move_construct k src).1).2)

/-- The assignment `g = src` from a bare pointer of the guarded type: the parameter
of `operator=(P other)` is a copy of `src`. -/
def assign_pointer_lvalue (g : ptr_guard k) (hk : k.copyable = true) (h : Heap α)
    (src : Pointer k) : ptr_guard k × Heap α :=
  g.assign (Pointer.copy_construct h k hk src).2 (Pointer.copy_construct h k hk src).1

/-- The assignment `g = nullptr`: `operator=(P other)` with `P = nullptr_t`, that is
`_ptr = nullptr`. -/
def assign_nullptr (g : ptr_guard k) (hk : k.assignableFromNull = true) (h : Heap α) :
    ptr_guard k × Heap α :=
  ({ _ptr := (Pointer.assign_nullptr h k hk g._ptr).1 }, (Pointer.assign_nullptr h k hk g._ptr).2)

/-- The constructor `ptr_guard(P other)` of a weak guard called with a bare
`shared_ptr` lvalue `src`: the parameter is a copy of `src`, `_ptr` observes it,
and the parameter is destroyed. -/
def weak_from_shared_pointer (h : Heap α) (src : shared_ptr) : ptr_guard .weak × Heap α :=
  ({ _ptr := weak_ptr.ofShared (shared_ptr.copy h src).1 },
   shared_ptr.destroy (shared_ptr.copy h src).2 (shared_ptr.copy h src).1)

/-- The assignment `g = src` of a bare `shared_ptr` lvalue to a weak guard:
`operator=(P other)` with a copy of `src` for parameter, `_ptr` observing it. -/
def weak_assign_shared_pointer (_g : ptr_guard .weak) (h : Heap α) (src : shared_ptr) :
    ptr_guard .weak × Heap α :=
  ({ _ptr := weak_ptr.ofShared (shared_ptr.copy h src).1 },
   shared_ptr.destroy (shared_ptr.copy h src).2 (shared_ptr.copy h src).1)

/-- The constructor template `ptr_guard(ptr_guard<P>&& other)`:
`_ptr(access_guarded_pointer(other))`. Inside the constructor `other` is a named
variable, hence an lvalue: the overload `access_guarded_pointer(ptr_guard<T>&)` is
the one selected, it returns `other._ptr` as an lvalue, and `_ptr` is copy
constructed from it. The result is the new guard and `other` afterwards. -/
def from_guard_rvalue (other : ptr_guard k) (hk : k.copyable = true) (h : Heap α) :
    (ptr_guard k × ptr_guard k) × Heap α :=
  (({ _ptr := (Pointer.copy_construct h k hk (detail.access_guarded_pointer other)).1 }, other),
   (Pointer.copy_construct h k hk (detail.access_guarded_pointer other)).2)

end ptr_guard

/-! ## Integer conversions -/

/-- The implicit conversion of an `int` to `unsigned` (32 bits), as in the return
statement of `call_or` when the default is unsigned and the callable returns an
`int`: the value modulo 2^32. -/
def int_to_unsigned (v : Int) : Nat := (v % 4294967296).toNat

/-- The implicit conversion of an `unsigned` (32 bits) to `int`, as in
`int ret = guard.call_or(f, 0u)`: the value itself below 2^31, the value minus 2^32
from there on. -/
def unsigned_to_int (u : Nat) : Int :=
  if u % 4294967296 < 2147483648 then ((u % 4294967296 : Nat) : Int)
  else ((u % 4294967296 : Nat) : Int) - 4294967296

/-! ## Vocabulary of the specification -/

section Vocabulary

variable {α V R S : Type}

/-- The stored address of a guard of any kind (`get()`), `none` when it is null. -/
def ptr_guard.stored : {k : Kind} → ptr_guard k → Option Addr
  | .raw, g => (g._ptr : Option Addr)
  | .unique, g => (g._ptr : unique_ptr).ptr
  | .shared, g => (g._ptr : shared_ptr).ptr
  | .weak, g => (g._ptr : weak_ptr).ptr

/-- Every guard-typed argument of the pack is valid; plain arguments are not
mentioned. -/
def AllGuardsValid (h : Heap α) (args : List (Arg V)) : Prop :=
  ∀ c k hk g, Arg.guard c k hk g ∈ args → ptr_guard.toBool h g = true

/-- Whether an argument is guard-typed. -/
def Arg.isGuard : Arg V → Bool
  | .guard _ _ _ _ => true
  | .plain _ => false

/-- Number of times the callable was invoked in a trace. -/
def invocations : List (Event V) → Nat
  | [] => 0
  | .invoked _ :: t => invocations t + 1
  | _ :: t => invocations t

/-- Number of dereferences in a trace. -/
def dereferences : List (Event V) → Nat
  | [] => 0
  | .dereferenced _ :: t => dereferences t + 1
  | _ :: t => dereferences t

/-- The substitution the specification asks for: a guard argument becomes a
reference to the pointee whose address it stores, a plain argument stays. -/
inductive Substituted : Arg V → Val V → Prop where
  | plain (v : V) : Substituted (.plain v) (.plain v)
  | guard (c : Bool) (k : Kind) (hk : k.dereferenceable = true) (g : ptr_guard k) (a : Addr) :
      g.stored = some a → Substituted (.guard c k hk g) (.ref a)

/-- Positions, from `pos` on, of the guard-typed arguments of a pack. -/
def guardPositions : Nat → List (Arg V) → List Nat
  | _, [] => []
  | pos, .plain _ :: args => guardPositions (pos + 1) args
  | pos, .guard _ _ _ _ :: args => pos :: guardPositions (pos + 1) args

/-- All-or-nothing access, read off a trace of the protocol run on `pack`: when
some guard of the pack is invalid nothing at all is dereferenced, and whenever a
dereference takes place every guard of the pack has been tested, and found valid,
before it. -/
def AllOrNothing (h : Heap α) (pack : List (Arg V)) (t : List (Event V)) : Prop :=
  (¬ AllGuardsValid h pack → dereferences t = 0) ∧
  (∀ pre post p, t = pre ++ Event.dereferenced p :: post →
    ∀ q ∈ guardPositions 0 pack, Event.tested q true ∈ pre)

/-- The store the validity check leaves when it is run on `pack` in the store `h`:
every plain argument that stands before the first invalid guard was passed by
value once, the parameters being destroyed in the reverse order of their
construction; the guards themselves and whatever follows the first invalid guard
cost nothing. -/
def storeAfterCheck [PlainArg α V] : Heap α → List (Arg V) → Heap α
  | h, [] => h
  | h, .plain v :: pack => PlainArg.destroy v (storeAfterCheck (PlainArg.copy v h) pack)
  | h, .guard _ _ _ g :: pack => if g.toBool h then storeAfterCheck h pack else h

/-- Passing a `V` by value does nothing to the store: an `int`, or any type whose
copy constructor and destructor have no effect. -/
def TriviallyCopied (α V : Type) [PlainArg α V] : Prop :=
  ∀ (v : V) (h : Heap α), PlainArg.copy v h = h ∧ PlainArg.destroy v h = h

/-- The addresses of the guard objects a pack refers to, in order. -/
def guardRefs : List (RefArg V) → List Addr
  | [] => []
  | .plain _ :: args => guardRefs args
  | .guard _ loc :: args => loc :: guardRefs args

/-- The argument a reference stands for in the store `h`: the guard it refers to. -/
def RefArg.resolve (view : α → Option GuardObject) (h : Heap α) : RefArg V → Option (Arg V)
  | .plain v => some (.plain v)
  | .guard c loc =>
    match guardAt view h loc with
    | none => none
    | some o => some (.guard c o.kind o.usable o.guard)

/-- The pack a pack of references stands for in the store `h`; there is none when
some reference refers to no guard. -/
def resolvePack (view : α → Option GuardObject) (h : Heap α) :
    List (RefArg V) → Option (List (Arg V))
  | [] => some []
  | arg :: args =>
    match arg.resolve view h, resolvePack view h args with
    | some x, some xs => some (x :: xs)
    | _, _ => none

/-- Passing a `V` by value never changes the object at `loc`. -/
def KeptByCopies (α V : Type) [PlainArg α V] (loc : Addr) : Prop :=
  ∀ (v : V) (h : Heap α),
    (PlainArg.copy v h).objects loc = h.objects loc ∧
    (PlainArg.destroy v h).objects loc = h.objects loc

/-- The guard objects at `locs` are in `h2` what they were in `h`: the same objects,
hence guards holding the same pointers, and as valid as they were. -/
def GuardsUnchanged (view : α → Option GuardObject) (locs : List Addr) (h h2 : Heap α) :
    Prop :=
  ∀ loc ∈ locs, h2.objects loc = h.objects loc ∧
    ∀ o, guardAt view h loc = some o →
      guardAt view h2 loc = some o ∧ o.guard.toBool h2 = o.guard.toBool h

/-- The member `call` on `g`, in either overload, never invokes the callable and
leaves the store as it was, whatever the store, the callable and the arguments. -/
def NeverInvokes {k : Kind} (g : ptr_guard k) (hk : k.dereferenceable = true) : Prop :=
  ∀ (α V S : Type) [PlainArg α V] (h : Heap α) (func : Func α V S) (args : List (Arg V)),
    (∃ r, g.call hk h func args = some r ∧ invocations r.trace = 0 ∧ r.heap = h) ∧
    (∃ r, g.call_const hk h func args = some r ∧ invocations r.trace = 0 ∧ r.heap = h)

/-- A move from the guard `src`, in the store `h`, into the guard `target`, leaving
the pointer `srcAfter` behind and the store `h2`: the target holds the very
pointer the source held, so it guards the source's former pointee and is valid
exactly when the source was, and what is left of the source is empty. -/
def Transfers {k : Kind} (h h2 : Heap α) (src target : ptr_guard k) (srcAfter : Pointer k) :
    Prop :=
  target._ptr = src._ptr ∧ target.stored = src.stored ∧
  target.toBool h2 = src.toBool h ∧
  srcAfter = Pointer.null k ∧ detail.test_ptr h2 k srcAfter = false

/-- The store `h2` differs from `h` by the destruction of the pointee at `a` and of
nothing else: one more destructor call, the object at `a` gone, every other object
as it was. -/
def DestroysExactly (h h2 : Heap α) (a : Addr) : Prop :=
  h2.pointeeDestructorCalls = h.pointeeDestructorCalls + 1 ∧
  h2.objects a = none ∧ ∀ x, x ≠ a → h2.objects x = h.objects x

/-- No pointee is destroyed between the stores `h` and `h2`. -/
def DestroysNothing (h h2 : Heap α) : Prop :=
  h2.pointeeDestructorCalls = h.pointeeDestructorCalls ∧ h2.objects = h.objects

/-- The guard `g` is one of the guard-typed arguments of the pack, however it is
bound. -/
def OccursIn {k : Kind} (g : ptr_guard k) (pack : List (Arg V)) : Prop :=
  ∃ c hk, Arg.guard c k hk g ∈ pack

/-- Two packs involve the same set of guards: order, repetition and plain arguments
apart. -/
def SameGuards (pack pack2 : List (Arg V)) : Prop :=
  ∀ (k : Kind) (g : ptr_guard k), OccursIn g pack ↔ OccursIn g pack2

end Vocabulary

/-! ## Sample states -/

section Samples

/-- A store with two pointees, `Pointee(1)` at address 1 and `Pointee(2)` at
address 2, and no shared owner. -/
def sampleHeap : Heap Pointee :=
  (Heap.empty.write 1 { identifier := 1 }).write 2 { identifier := 2 }

/-- A raw guard on the pointee at address 1. -/
def rawGuard : ptr_guard .raw := { _ptr := (some 1 : Option Addr) }

/-- A null raw guard. -/
def nullGuard : ptr_guard .raw := { _ptr := (none : Option Addr) }

/-- A unique guard on the pointee at address 2. -/
def uniqueGuard : ptr_guard .unique := { _ptr := ({ ptr := some 2 } : unique_ptr) }

/-- A callable that leaves the store alone and returns 1, like the lambdas of the
test driver. -/
def returnOne : Func Pointee Int Int := fun _ h => (1, h)

/-- A callable that assigns `Pointee(9)` through its first argument when that is a
reference, and returns 1. -/
def assignNine : Func Pointee Int Int := fun vals h =>
  match vals with
  | .ref a :: _ => (1, h.write a { identifier := 9 })
  | _ => (1, h)

/-- A callable that assigns `v` through its first argument when that is a reference
(a lambda taking `Pointee&`). -/
def assignThrough {α V : Type} (v : α) : Func α V Unit := fun vals h =>
  match vals with
  | .ref a :: _ => ((), h.write a v)
  | _ => ((), h)

/-- The store after `ptr_guard<shared_ptr<Pointee>> owner(p)` with a null `Pointee* p`,
starting from nothing: one control block, use count 1, managing no object. -/
def nullOwnerHeap : Heap Pointee :=
  (ptr_guard.from_raw Heap.empty .shared rfl none).2

/-- The shared guard `owner` of `nullOwnerHeap`. -/
def nullOwner : ptr_guard .shared :=
  (ptr_guard.from_raw (Heap.empty : Heap Pointee) .shared rfl none).1

/-- The weak guard `ptr_guard<weak_ptr<Pointee>> observer(owner)` on `nullOwner`. -/
def nullObserver : ptr_guard .weak := ptr_guard.weak_from_guard nullOwner

/-- An empty unique guard. -/
def emptyUniqueGuard : ptr_guard .unique := { _ptr := ({ ptr := none } : unique_ptr) }

/-- The store after `ptr_guard<shared_ptr<Pointee>> owner(p)` with `p` the address
1 of `sampleHeap`: one control block, use count 1, managing the pointee at 1. -/
def sharedOwnerHeap : Heap Pointee :=
  (ptr_guard.from_raw sampleHeap .shared rfl (some 1)).2

/-- The shared guard `owner` of `sharedOwnerHeap`. -/
def sharedOwner : ptr_guard .shared :=
  (ptr_guard.from_raw sampleHeap .shared rfl (some 1)).1

/-- The store after a second guard `other(owner)` was copy constructed from
`sharedOwner`: use count 2. -/
def sharedCopyHeap : Heap Pointee :=
  (sharedOwner.copy_construct rfl sharedOwnerHeap).2

/-- The copy `other` of `sharedOwner` in `sharedCopyHeap`. -/
def sharedCopy : ptr_guard .shared :=
  (sharedOwner.copy_construct rfl sharedOwnerHeap).1

/-- An empty shared guard. -/
def emptySharedGuard : ptr_guard .shared := ptr_guard.default .shared

/-- The pack `1, uniqueGuard, 2`: two plain arguments around a valid guard. -/
def validPack : List (Arg Int) :=
  [.plain 1, .guard true .unique rfl uniqueGuard, .plain 2]

/-- The pack `1, uniqueGuard, 2, nullGuard, 3`: a valid guard and a null one. -/
def mixedPack : List (Arg Int) :=
  [.plain 1, .guard true .unique rfl uniqueGuard, .plain 2,
   .guard false .raw rfl nullGuard, .plain 3]

/-- What a store holds when the guards are objects of it: a pointee or a guard. -/
inductive Cell where
  | pointee (p : Pointee)
  | guard (o : GuardObject)

/-- Which cells are guards. -/
def Cell.view : Cell → Option GuardObject
  | .guard o => some o
  | .pointee _ => none

/-- A store with `Pointee(1)` at address 1, `Pointee(2)` at address 2, a raw guard on
the first at address 10, a unique guard on the second at address 11 and a null raw
guard at address 12. -/
def cellHeap : Heap Cell :=
  ((((Heap.empty.write 1 (.pointee { identifier := 1 })).write 2
      (.pointee { identifier := 2 })).write 10
      (.guard { kind := .raw, usable := rfl, guard := rawGuard })).write 11
      (.guard { kind := .unique, usable := rfl, guard := uniqueGuard })).write 12
      (.guard { kind := .raw, usable := rfl, guard := nullGuard })

/-- The pack `1, *11, 2`: two plain arguments around a reference to the guard object
at address 11. -/
def cellPack : List (RefArg Int) := [.plain 1, .guard true 11, .plain 2]

end Samples

/-! ## Auxiliary lemmas -/

section Lemmas

variable {α V R S : Type}

open detail

theorem allGuardsValid_nil (h : Heap α) : AllGuardsValid h ([] : List (Arg V)) := by
  intro c k hk g hmem
  simp at hmem

theorem allGuardsValid_plain_cons (h : Heap α) (v : V) (args : List (Arg V)) :
    AllGuardsValid h (.plain v :: args) ↔ AllGuardsValid h args := by
  constructor
  · intro hall c k hk g hmem
    exact hall c k hk g (List.mem_cons_of_mem _ hmem)
  · intro hall c k hk g hmem
    rcases List.mem_cons.mp hmem with heq | hin
    · cases heq
    · exact hall c k hk g hin

theorem allGuardsValid_guard_cons (h : Heap α) (c : Bool) (k : Kind)
    (hk : k.dereferenceable = true) (g : ptr_guard k) (args : List (Arg V)) :
    AllGuardsValid h (.guard c k hk g :: args)
      ↔ (g.toBool h = true ∧ AllGuardsValid h args) := by
  constructor
  · intro hall
    exact ⟨hall c k hk g (List.mem_cons_self _ _),
      fun c1 k1 hk1 g1 hmem => hall c1 k1 hk1 g1 (List.mem_cons_of_mem _ hmem)⟩
  · rintro ⟨hg, hall⟩ c1 k1 hk1 g1 hmem
    rcases List.mem_cons.mp hmem with heq | hin
    · cases heq
      exact hg
    · exact hall c1 k1 hk1 g1 hin

/-- Validity of the guards of a pack is that of the pack without its plain
arguments. -/
theorem allGuardsValid_filter (h : Heap α) (args : List (Arg V)) :
    AllGuardsValid h (args.filter Arg.isGuard) ↔ AllGuardsValid h args := by
  constructor
  · intro hall c k hk g hmem
    exact hall c k hk g (List.mem_filter.mpr ⟨hmem, rfl⟩)
  · intro hall c k hk g hmem
    exact hall c k hk g (List.mem_filter.mp hmem).1

/-- Validity of all guards is a property of the set of guards of a pack. -/
theorem allGuardsValid_of_sameGuards (h : Heap α) (pack pack2 : List (Arg V))
    (hsame : SameGuards pack pack2) :
    AllGuardsValid h pack ↔ AllGuardsValid h pack2 := by
  constructor
  · intro hall c k hk g hmem
    obtain ⟨c1, hk1, hmem1⟩ := (hsame k g).mpr ⟨c, hk, hmem⟩
    exact hall c1 k hk1 g hmem1
  · intro hall c k hk g hmem
    obtain ⟨c1, hk1, hmem1⟩ := (hsame k g).mp ⟨c, hk, hmem⟩
    exact hall c1 k hk1 g hmem1

/-- The boolean conversion of a guard of a dereferenceable kind tells whether the
stored address is non-null; the store plays no part in it. -/
theorem toBool_eq_stored {k : Kind} (hk : k.dereferenceable = true) (g : ptr_guard k)
    (h : Heap α) : g.toBool h = g.stored.isSome := by
  cases k with
  | raw => rfl
  | unique => rfl
  | shared => rfl
  | weak => simp [Kind.dereferenceable] at hk

theorem toBool_store {k : Kind} (hk : k.dereferenceable = true) (g : ptr_guard k)
    (h h2 : Heap α) : g.toBool h = g.toBool h2 := by
  rw [toBool_eq_stored hk g h, toBool_eq_stored hk g h2]

/-- Validity of the guards of a pack does not depend on the store. -/
theorem allGuardsValid_store (h h2 : Heap α) (args : List (Arg V))
    (hall : AllGuardsValid h args) : AllGuardsValid h2 args := by
  intro c k hk g hmem
  rw [toBool_store hk g h2 h]
  exact hall c k hk g hmem

/-- A guard object is read alike in two stores that hold the same object at its
address. -/
theorem guardAt_congr (view : α → Option GuardObject) (h h2 : Heap α) (loc : Addr)
    (heq : h2.objects loc = h.objects loc) : guardAt view h2 loc = guardAt view h loc := by
  simp [guardAt, heq]

theorem guardRefs_cons_guard (c : Bool) (loc : Addr) (args : List (RefArg V)) :
    guardRefs (RefArg.guard c loc :: args) = loc :: guardRefs args := rfl

theorem guardRefs_cons_plain (v : V) (args : List (RefArg V)) :
    guardRefs (RefArg.plain v :: args) = guardRefs args := rfl

/-- A pack of references stands for the same pack in two stores that hold the same
guard objects. -/
theorem resolvePack_congr (view : α → Option GuardObject) (h h2 : Heap α)
    (args : List (RefArg V))
    (heq : ∀ loc ∈ guardRefs args, h2.objects loc = h.objects loc) :
    resolvePack view h2 args = resolvePack view h args := by
  induction args with
  | nil => rfl
  | cons a t ih =>
    cases a with
    | plain v =>
      simp only [resolvePack, RefArg.resolve]
      rw [ih (fun loc hloc => heq loc hloc)]
    | guard c loc =>
      have ht := ih (fun x hx => heq x (List.mem_cons_of_mem _ hx))
      have hl := guardAt_congr view h h2 loc (heq loc (List.mem_cons_self _ _))
      simp only [resolvePack, RefArg.resolve, hl, ht]

theorem resolvePack_plain_cons (view : α → Option GuardObject) (h : Heap α) (v : V)
    (args : List (RefArg V)) (pack : List (Arg V))
    (hres : resolvePack view h (.plain v :: args) = some pack) :
    ∃ rest, pack = .plain v :: rest ∧ resolvePack view h args = some rest := by
  simp only [resolvePack, RefArg.resolve] at hres
  cases ht : resolvePack view h args with
  | none => simp [ht] at hres
  | some rest =>
    simp only [ht, Option.some.injEq] at hres
    exact ⟨rest, hres.symm, rfl⟩

theorem resolvePack_guard_cons (view : α → Option GuardObject) (h : Heap α) (c : Bool)
    (loc : Addr) (args : List (RefArg V)) (pack : List (Arg V))
    (hres : resolvePack view h (.guard c loc :: args) = some pack) :
    ∃ o rest, guardAt view h loc = some o ∧ pack = .guard c o.kind o.usable o.guard :: rest ∧
      resolvePack view h args = some rest := by
  simp only [resolvePack, RefArg.resolve] at hres
  cases ho : guardAt view h loc with
  | none => simp [ho] at hres
  | some o =>
    cases ht : resolvePack view h args with
    | none => simp [ho, ht] at hres
    | some rest =>
      simp only [ho, ht, Option.some.injEq] at hres
      exact ⟨o, rest, rfl, hres.symm, rfl⟩

/-- A pack of references that all refer to guards stands for a pack. -/
theorem resolvePack_defined (view : α → Option GuardObject) (h : Heap α)
    (args : List (RefArg V))
    (hrefs : ∀ loc ∈ guardRefs args, (guardAt view h loc).isSome = true) :
    ∃ pack, resolvePack view h args = some pack := by
  induction args with
  | nil => exact ⟨[], rfl⟩
  | cons a t ih =>
    cases a with
    | plain v =>
      obtain ⟨rest, hrest⟩ := ih (fun loc hloc => hrefs loc hloc)
      exact ⟨.plain v :: rest, by simp [resolvePack, RefArg.resolve, hrest]⟩
    | guard c loc =>
      obtain ⟨rest, hrest⟩ := ih (fun x hx => hrefs x (List.mem_cons_of_mem _ hx))
      obtain ⟨o, ho⟩ := Option.isSome_iff_exists.mp (hrefs loc (List.mem_cons_self _ _))
      exact ⟨.guard c o.kind o.usable o.guard :: rest,
        by simp [resolvePack, RefArg.resolve, ho, hrest]⟩

/-- Dereferencing through the references is dereferencing the guards they refer
to. -/
theorem byref_dereference_pack (view : α → Option GuardObject) (h : Heap α)
    (args : List (RefArg V)) :
    ∀ pack : List (Arg V), resolvePack view h args = some pack →
      ByReference.dereference_pack view h args = dereference_pack pack := by
  induction args with
  | nil =>
    intro pack hres
    simp only [resolvePack, Option.some.injEq] at hres
    subst hres
    rfl
  | cons a t ih =>
    intro pack hres
    cases a with
    | plain v =>
      obtain ⟨rest, hpack, hrest⟩ := resolvePack_plain_cons view h v t pack hres
      subst hpack
      simp only [ByReference.dereference_pack, dereference_pack, ih rest hrest,
        ByReference.dereference_arg, dereference_arg]
    | guard c loc =>
      obtain ⟨o, rest, ho, hpack, hrest⟩ := resolvePack_guard_cons view h c loc t pack hres
      subst hpack
      cases c <;>
        simp only [ByReference.dereference_pack, dereference_pack, ih rest hrest,
          ByReference.dereference_arg, dereference_arg, ho]

theorem byref_dereference_events (view : α → Option GuardObject) (h : Heap α)
    (args : List (RefArg V)) :
    ∀ (pos : Nat) (pack : List (Arg V)), resolvePack view h args = some pack →
      ByReference.dereference_events pos args = dereference_events pos pack := by
  induction args with
  | nil =>
    intro pos pack hres
    simp only [resolvePack, Option.some.injEq] at hres
    subst hres
    rfl
  | cons a t ih =>
    intro pos pack hres
    cases a with
    | plain v =>
      obtain ⟨rest, hpack, hrest⟩ := resolvePack_plain_cons view h v t pack hres
      subst hpack
      simp only [ByReference.dereference_events, dereference_events, ih (pos + 1) rest hrest]
    | guard c loc =>
      obtain ⟨o, rest, ho, hpack, hrest⟩ := resolvePack_guard_cons view h c loc t pack hres
      subst hpack
      simp only [ByReference.dereference_events, dereference_events, ih (pos + 1) rest hrest]

/-- A valid guard of a dereferenceable kind stores a non-null address, and
dereferencing it yields a reference to that address. -/
theorem deref_of_valid (h : Heap α) {k : Kind} (hk : k.dereferenceable = true)
    (g : ptr_guard k) (hg : g.toBool h = true) :
    ∃ a, g.deref hk = some a ∧ g.stored = some a := by
  cases k with
  | raw =>
    obtain ⟨p⟩ := g
    cases hp : (p : Option Addr) with
    | none => simp [ptr_guard.toBool, test_ptr, hp] at hg
    | some a => exact ⟨a, by simp [ptr_guard.deref, Pointer.deref, hp], by simp [ptr_guard.stored, hp]⟩
  | unique =>
    obtain ⟨⟨p⟩⟩ := g
    cases p with
    | none => simp [ptr_guard.toBool, test_ptr, unique_ptr.toBool] at hg
    | some a => exact ⟨a, rfl, rfl⟩
  | shared =>
    obtain ⟨⟨p, c⟩⟩ := g
    cases p with
    | none => simp [ptr_guard.toBool, test_ptr, shared_ptr.toBool] at hg
    | some a => exact ⟨a, rfl, rfl⟩
  | weak => simp [Kind.dereferenceable] at hk

theorem dereference_arg_guard (c : Bool) {k : Kind} (hk : k.dereferenceable = true)
    (g : ptr_guard k) :
    dereference_arg (Arg.guard c k hk g : Arg V) = (g.deref hk).map .ref := by
  cases c <;> rfl

/-- When every guard is valid the pack expansion is defined and performs the
substitution argument by argument. -/
theorem dereference_pack_of_valid (h : Heap α) (args : List (Arg V))
    (hall : AllGuardsValid h args) :
    ∃ vals, dereference_pack args = some vals ∧ List.Forall₂ Substituted args vals := by
  induction args with
  | nil => exact ⟨[], rfl, List.Forall₂.nil⟩
  | cons a t ih =>
    cases a with
    | plain v =>
      obtain ⟨vs, hvs, hsub⟩ := ih ((allGuardsValid_plain_cons h v t).mp hall)
      exact ⟨.plain v :: vs, by simp [dereference_pack, dereference_arg, hvs],
        List.Forall₂.cons (Substituted.plain v) hsub⟩
    | guard c k hk g =>
      obtain ⟨hg, hrest⟩ := (allGuardsValid_guard_cons h c k hk g t).mp hall
      obtain ⟨vs, hvs, hsub⟩ := ih hrest
      obtain ⟨a, hd, hst⟩ := deref_of_valid h hk g hg
      exact ⟨.ref a :: vs, by simp [dereference_pack, dereference_arg_guard, hd, hvs],
        List.Forall₂.cons (Substituted.guard c k hk g a hst) hsub⟩

variable [PlainArg α V]

theorem all_safe_plain_cons (h : Heap α) (pos : Nat) (v : V) (args : List (Arg V)) :
    all_args_are_safe_to_dereference h pos (.plain v :: args)
      = { ok := (all_args_are_safe_to_dereference (PlainArg.copy v h) (pos + 1) args).ok,
          heap := PlainArg.destroy v
            (all_args_are_safe_to_dereference (PlainArg.copy v h) (pos + 1) args).heap,
          trace :=
            (all_args_are_safe_to_dereference (PlainArg.copy v h) (pos + 1) args).trace } := by
  cases args with
  | nil => simp [all_args_are_safe_to_dereference]
  | cons a t => simp [all_args_are_safe_to_dereference]

theorem all_safe_guard_cons (h : Heap α) (pos : Nat) (c : Bool) (k : Kind)
    (hk : k.dereferenceable = true) (g : ptr_guard k) (args : List (Arg V)) :
    all_args_are_safe_to_dereference h pos (.guard c k hk g :: args)
      = if g.toBool h then
          { ok := (all_args_are_safe_to_dereference h (pos + 1) args).ok,
            heap := (all_args_are_safe_to_dereference h (pos + 1) args).heap,
            trace := .tested pos true ::
              (all_args_are_safe_to_dereference h (pos + 1) args).trace }
        else { ok := false, heap := h, trace := [.tested pos false] } := by
  cases args with
  | nil =>
    cases hg : g.toBool h <;> simp [all_args_are_safe_to_dereference, hg]
  | cons a t => simp [all_args_are_safe_to_dereference]

/-- The verdict of the check and the conversions it evaluates do not depend on the
store the check starts in. -/
theorem all_safe_store (h h2 : Heap α) (args : List (Arg V)) (pos : Nat) :
    (all_args_are_safe_to_dereference h pos args).ok
        = (all_args_are_safe_to_dereference h2 pos args).ok ∧
    (all_args_are_safe_to_dereference h pos args).trace
        = (all_args_are_safe_to_dereference h2 pos args).trace := by
  induction args generalizing pos h h2 with
  | nil => simp [all_args_are_safe_to_dereference]
  | cons a t ih =>
    cases a with
    | plain v =>
      rw [all_safe_plain_cons, all_safe_plain_cons]
      exact ih (PlainArg.copy v h) (PlainArg.copy v h2) (pos + 1)
    | guard c k hk g =>
      rw [all_safe_guard_cons, all_safe_guard_cons, toBool_store hk g h h2]
      cases hg : g.toBool h2
      · simp
      · simpa using ih h h2 (pos + 1)

theorem all_safe_ok_plain_cons (h : Heap α) (pos : Nat) (v : V) (args : List (Arg V)) :
    (all_args_are_safe_to_dereference h pos (.plain v :: args)).ok
      = (all_args_are_safe_to_dereference h (pos + 1) args).ok := by
  rw [all_safe_plain_cons]
  exact (all_safe_store _ _ args (pos + 1)).1

theorem all_safe_trace_plain_cons (h : Heap α) (pos : Nat) (v : V) (args : List (Arg V)) :
    (all_args_are_safe_to_dereference h pos (.plain v :: args)).trace
      = (all_args_are_safe_to_dereference h (pos + 1) args).trace := by
  rw [all_safe_plain_cons]
  exact (all_safe_store _ _ args (pos + 1)).2

/-- The store the check leaves is the one the specification describes. -/
theorem all_safe_heap (h : Heap α) (args : List (Arg V)) (pos : Nat) :
    (all_args_are_safe_to_dereference h pos args).heap = storeAfterCheck h args := by
  induction args generalizing pos h with
  | nil => simp [all_args_are_safe_to_dereference, storeAfterCheck]
  | cons a t ih =>
    cases a with
    | plain v =>
      rw [all_safe_plain_cons]
      simp [storeAfterCheck, ih]
    | guard c k hk g =>
      rw [all_safe_guard_cons]
      cases hg : g.toBool h
      · simp [storeAfterCheck, hg]
      · simp [storeAfterCheck, hg, ih]

/-- The recursive predicate decides exactly that every guard-typed argument is
valid. -/
theorem all_safe_iff (h : Heap α) (args : List (Arg V)) (pos : Nat) :
    (all_args_are_safe_to_dereference h pos args).ok = true ↔ AllGuardsValid h args := by
  induction args generalizing pos with
  | nil => simp [all_args_are_safe_to_dereference, allGuardsValid_nil]
  | cons a t ih =>
    cases a with
    | plain v => rw [all_safe_ok_plain_cons, allGuardsValid_plain_cons]; exact ih (pos + 1)
    | guard c k hk g =>
      rw [all_safe_guard_cons, allGuardsValid_guard_cons]
      cases hg : g.toBool h
      · simp
      · simpa using ih (pos + 1)

theorem invocations_append (s t : List (Event V)) :
    invocations (s ++ t) = invocations s + invocations t := by
  induction s with
  | nil => simp [invocations]
  | cons e s ih =>
    cases e <;> simp [invocations, ih]
    omega

theorem dereferences_append (s t : List (Event V)) :
    dereferences (s ++ t) = dereferences s + dereferences t := by
  induction s with
  | nil => simp [dereferences]
  | cons e s ih =>
    cases e <;> simp [dereferences, ih]
    omega

/-- The validity check only evaluates boolean conversions. -/
theorem all_safe_trace_tested (h : Heap α) (args : List (Arg V)) (pos : Nat) :
    ∀ e ∈ (all_args_are_safe_to_dereference h pos args).trace, ∃ p b, e = Event.tested p b := by
  induction args generalizing pos with
  | nil => simp [all_args_are_safe_to_dereference]
  | cons a t ih =>
    cases a with
    | plain v => rw [all_safe_trace_plain_cons]; exact ih (pos + 1)
    | guard c k hk g =>
      rw [all_safe_guard_cons]
      cases hg : g.toBool h
      · simp
      · intro e he
        simp at he
        rcases he with rfl | he
        · exact ⟨pos, true, rfl⟩
        · exact ih (pos + 1) e he

theorem invocations_of_tested (t : List (Event V))
    (ht : ∀ e ∈ t, ∃ p b, e = Event.tested p b) : invocations t = 0 := by
  induction t with
  | nil => rfl
  | cons e t ih =>
    obtain ⟨p, b, rfl⟩ := ht e (List.mem_cons_self _ _)
    simpa [invocations] using ih (fun e he => ht e (List.mem_cons_of_mem _ he))

theorem dereferences_of_tested (t : List (Event V))
    (ht : ∀ e ∈ t, ∃ p b, e = Event.tested p b) : dereferences t = 0 := by
  induction t with
  | nil => rfl
  | cons e t ih =>
    obtain ⟨p, b, rfl⟩ := ht e (List.mem_cons_self _ _)
    simpa [dereferences] using ih (fun e he => ht e (List.mem_cons_of_mem _ he))

theorem invocations_dereference_events (args : List (Arg V)) (pos : Nat) :
    invocations (dereference_events pos args) = 0 := by
  induction args generalizing pos with
  | nil => rfl
  | cons a t ih =>
    cases a with
    | plain v => simpa [dereference_events] using ih (pos + 1)
    | guard c k hk g => simpa [dereference_events, invocations] using ih (pos + 1)

/-- Exact behaviour of `check_all_then_invoke`. -/
theorem check_all_then_invoke_valid (h : Heap α) (func : Func α V S) (args : List (Arg V))
    (hall : AllGuardsValid h args) :
    ∃ vals, dereference_pack args = some vals ∧ List.Forall₂ Substituted args vals ∧
      check_all_then_invoke h func args =
        some { value := (), heap := (func vals (storeAfterCheck h args)).2,
               trace := (all_args_are_safe_to_dereference h 0 args).trace
                          ++ dereference_events 0 args ++ [.invoked vals] } := by
  obtain ⟨vals, hv, hsub⟩ := dereference_pack_of_valid h args hall
  refine ⟨vals, hv, hsub, ?_⟩
  simp [check_all_then_invoke, (all_safe_iff h args 0).mpr hall, hv, all_safe_heap]

theorem check_all_then_invoke_invalid (h : Heap α) (func : Func α V S) (args : List (Arg V))
    (hall : ¬ AllGuardsValid h args) :
    check_all_then_invoke h func args =
      some { value := (), heap := storeAfterCheck h args,
             trace := (all_args_are_safe_to_dereference h 0 args).trace } := by
  have hf : (all_args_are_safe_to_dereference h 0 args).ok = false := by
    cases hb : (all_args_are_safe_to_dereference h 0 args).ok
    · rfl
    · exact absurd ((all_safe_iff h args 0).mp hb) hall
  simp [check_all_then_invoke, hf, all_safe_heap]

/-- Exact behaviour of `check_all_then_invoke_or_default`. -/
theorem check_all_then_invoke_or_default_valid (conv : S → R) (h : Heap α)
    (func : Func α V S) (dflt : R) (args : List (Arg V)) (hall : AllGuardsValid h args) :
    ∃ vals, dereference_pack args = some vals ∧ List.Forall₂ Substituted args vals ∧
      check_all_then_invoke_or_default conv h func (.temporary dflt) args =
        some { value := conv (func vals (storeAfterCheck h args)).1,
               heap := (func vals (storeAfterCheck h args)).2,
               trace := (all_args_are_safe_to_dereference h 0 args).trace
                          ++ dereference_events 0 args ++ [.invoked vals] } := by
  obtain ⟨vals, hv, hsub⟩ := dereference_pack_of_valid h args hall
  refine ⟨vals, hv, hsub, ?_⟩
  simp [check_all_then_invoke_or_default, (all_safe_iff h args 0).mpr hall, hv, all_safe_heap]

theorem check_all_then_invoke_or_default_invalid (conv : S → R) (h : Heap α)
    (func : Func α V S) (dflt : R) (args : List (Arg V)) (hall : ¬ AllGuardsValid h args) :
    check_all_then_invoke_or_default conv h func (.temporary dflt) args =
      some { value := dflt, heap := storeAfterCheck h args,
             trace := (all_args_are_safe_to_dereference h 0 args).trace } := by
  have hf : (all_args_are_safe_to_dereference h 0 args).ok = false := by
    cases hb : (all_args_are_safe_to_dereference h 0 args).ok
    · rfl
    · exact absurd ((all_safe_iff h args 0).mp hb) hall
  simp [check_all_then_invoke_or_default, hf, all_safe_heap, DefaultArg.value]

/-- With a named default the valid path has no defined result; the invalid path
returns the default. -/
theorem check_all_then_invoke_or_default_named (conv : S → R) (h : Heap α)
    (func : Func α V S) (dflt : R) (args : List (Arg V)) :
    (AllGuardsValid h args →
      check_all_then_invoke_or_default conv h func (.named dflt) args = none) ∧
    (¬ AllGuardsValid h args →
      check_all_then_invoke_or_default conv h func (.named dflt) args =
        some { value := dflt, heap := storeAfterCheck h args,
               trace := (all_args_are_safe_to_dereference h 0 args).trace }) := by
  constructor
  · intro hall
    obtain ⟨vals, hv, _⟩ := dereference_pack_of_valid h args hall
    simp [check_all_then_invoke_or_default, (all_safe_iff h args 0).mpr hall, hv]
  · intro hall
    have hf : (all_args_are_safe_to_dereference h 0 args).ok = false := by
      cases hb : (all_args_are_safe_to_dereference h 0 args).ok
      · rfl
      · exact absurd ((all_safe_iff h args 0).mp hb) hall
    simp [check_all_then_invoke_or_default, hf, all_safe_heap, DefaultArg.value]

theorem invocations_valid_trace (h : Heap α) (args : List (Arg V)) (vals : List (Val V)) :
    invocations ((all_args_are_safe_to_dereference h 0 args).trace
      ++ dereference_events 0 args ++ [.invoked vals]) = 1 := by
  rw [invocations_append, invocations_append,
    invocations_of_tested _ (all_safe_trace_tested h args 0),
    invocations_dereference_events]
  rfl

theorem invocations_invalid_trace (h : Heap α) (args : List (Arg V)) :
    invocations (all_args_are_safe_to_dereference h 0 args).trace = 0 :=
  invocations_of_tested _ (all_safe_trace_tested h args 0)

/-- Number of invocations of `check_all_then_invoke`: one when every guard of the
pack is valid, none otherwise; the run is always defined. -/
theorem check_all_then_invoke_count (h : Heap α) (func : Func α V S) (args : List (Arg V)) :
    ∃ r, check_all_then_invoke h func args = some r ∧
      (AllGuardsValid h args → invocations r.trace = 1) ∧
      (¬ AllGuardsValid h args → invocations r.trace = 0) := by
  by_cases hall : AllGuardsValid h args
  · obtain ⟨vals, _, _, hrun⟩ := check_all_then_invoke_valid h func args hall
    exact ⟨_, hrun, fun _ => invocations_valid_trace h args vals, fun hn => absurd hall hn⟩
  · exact ⟨_, check_all_then_invoke_invalid h func args hall, fun hv => absurd hv hall,
      fun _ => invocations_invalid_trace h args⟩

theorem dereference_events_shape (args : List (Arg V)) (pos : Nat) :
    ∀ e ∈ dereference_events pos args, ∃ p, e = Event.dereferenced p := by
  induction args generalizing pos with
  | nil => simp [dereference_events]
  | cons a t ih =>
    cases a with
    | plain v => simpa [dereference_events] using ih (pos + 1)
    | guard c k hk g =>
      intro e he
      simp [dereference_events] at he
      rcases he with rfl | he
      · exact ⟨pos, rfl⟩
      · exact ih (pos + 1) e he

/-- In the trace of a run that invokes, the only invocation is the last step. -/
theorem invoked_mem_valid_trace (h : Heap α) (args : List (Arg V)) (vals vals0 : List (Val V))
    (hmem : Event.invoked vals ∈ (all_args_are_safe_to_dereference h 0 args).trace
      ++ dereference_events 0 args ++ [.invoked vals0]) : vals = vals0 := by
  simp only [List.mem_append, List.mem_singleton] at hmem
  rcases hmem with (hc | hd) | he
  · obtain ⟨p, b, hpb⟩ := all_safe_trace_tested h args 0 _ hc
    cases hpb
  · obtain ⟨p, hp⟩ := dereference_events_shape args 0 _ hd
    cases hp
  · cases he
    rfl

theorem invoked_not_mem_invalid_trace (h : Heap α) (args : List (Arg V)) (vals : List (Val V)) :
    Event.invoked vals ∉ (all_args_are_safe_to_dereference h 0 args).trace := by
  intro hc
  obtain ⟨p, b, hpb⟩ := all_safe_trace_tested h args 0 _ hc
  cases hpb

/-- When every guard is valid, the check tests each guard of the pack, in order,
and finds it valid. -/
theorem all_safe_trace_of_valid (h : Heap α) (args : List (Arg V)) (pos : Nat)
    (hall : AllGuardsValid h args) :
    (all_args_are_safe_to_dereference h pos args).trace
      = (guardPositions pos args).map (fun q => Event.tested q true) := by
  induction args generalizing pos with
  | nil => simp [all_args_are_safe_to_dereference, guardPositions]
  | cons a t ih =>
    cases a with
    | plain v =>
      rw [all_safe_trace_plain_cons]
      simpa [guardPositions] using ih (pos + 1) ((allGuardsValid_plain_cons h v t).mp hall)
    | guard c k hk g =>
      obtain ⟨hg, hrest⟩ := (allGuardsValid_guard_cons h c k hk g t).mp hall
      rw [all_safe_guard_cons]
      simp [hg, guardPositions, ih (pos + 1) hrest]

/-- Tests that come first in a trace come before its first dereference. -/
theorem tested_before_dereference (cs rest : List (Event V))
    (hcs : ∀ e ∈ cs, ∃ p b, e = Event.tested p b) :
    ∀ (pre post : List (Event V)) (p : Nat),
      cs ++ rest = pre ++ Event.dereferenced p :: post → ∀ e ∈ cs, e ∈ pre := by
  induction cs with
  | nil => intro pre post p _ e he; simp at he
  | cons c cs ih =>
    intro pre post p heq e he
    cases pre with
    | nil =>
      simp at heq
      obtain ⟨q, b, hqb⟩ := hcs c (List.mem_cons_self _ _)
      rw [hqb] at heq
      exact absurd heq.1 (by simp)
    | cons x pre =>
      simp only [List.cons_append, List.cons.injEq] at heq
      obtain ⟨hx, htl⟩ := heq
      rcases List.mem_cons.mp he with rfl | he
      · rw [hx]; exact List.mem_cons_self _ _
      · exact List.mem_cons_of_mem _
          (ih (fun e he => hcs e (List.mem_cons_of_mem _ he)) pre post p htl e he)

/-- The trace of a run that invokes is all-or-nothing. -/
theorem allOrNothing_valid_trace (h : Heap α) (args : List (Arg V)) (vals : List (Val V))
    (hall : AllGuardsValid h args) :
    AllOrNothing h args ((all_args_are_safe_to_dereference h 0 args).trace
      ++ dereference_events 0 args ++ [.invoked vals]) := by
  refine ⟨fun hn => absurd hall hn, ?_⟩
  intro pre post p heq q hq
  rw [List.append_assoc] at heq
  apply tested_before_dereference _ _ (all_safe_trace_tested h args 0) pre post p heq
  rw [all_safe_trace_of_valid h args 0 hall]
  exact List.mem_map.mpr ⟨q, hq, rfl⟩

/-- The trace of a run that does not invoke is all-or-nothing. -/
theorem allOrNothing_invalid_trace (h : Heap α) (args : List (Arg V)) :
    AllOrNothing h args (all_args_are_safe_to_dereference h 0 args).trace := by
  refine ⟨fun _ => dereferences_of_tested _ (all_safe_trace_tested h args 0), ?_⟩
  intro pre post p heq
  have hmem : Event.dereferenced p ∈ (all_args_are_safe_to_dereference h 0 args).trace := by
    rw [heq]; simp
  obtain ⟨q, b, hqb⟩ := all_safe_trace_tested h args 0 _ hmem
  cases hqb

/-- The check stops at an invalid guard that comes first: nothing was passed by
value, and the store is as it was. -/
theorem storeAfterCheck_invalid_head (h : Heap α) (c : Bool) {k : Kind}
    (hk : k.dereferenceable = true) (g : ptr_guard k) (hg : g.toBool h = false)
    (args : List (Arg V)) : storeAfterCheck h (Arg.guard c k hk g :: args) = h := by
  simp [storeAfterCheck, hg]

/-- A valid guard costs the check nothing. -/
theorem storeAfterCheck_valid_head (h : Heap α) (c : Bool) {k : Kind}
    (hk : k.dereferenceable = true) (g : ptr_guard k) (hg : g.toBool h = true)
    (args : List (Arg V)) :
    storeAfterCheck h (Arg.guard c k hk g :: args) = storeAfterCheck h args := by
  simp [storeAfterCheck, hg]

/-- When passing a `V` by value has no effect, the check leaves the store as it
was. -/
theorem storeAfterCheck_trivial (htriv : TriviallyCopied α V) (h : Heap α)
    (args : List (Arg V)) : storeAfterCheck h args = h := by
  induction args generalizing h with
  | nil => rfl
  | cons a t ih =>
    cases a with
    | plain v => simp [storeAfterCheck, ih, (htriv v h).1, (htriv v h).2]
    | guard c k hk g =>
      cases hg : g.toBool h
      · simp [storeAfterCheck, hg]
      · simp [storeAfterCheck, hg, ih]

/-- A pack of guards only costs the check nothing. -/
theorem storeAfterCheck_guards (h : Heap α) (args : List (Arg V))
    (hguards : ∀ x ∈ args, Arg.isGuard x = true) : storeAfterCheck h args = h := by
  induction args with
  | nil => rfl
  | cons a t ih =>
    cases a with
    | plain v => exact absurd (hguards _ (List.mem_cons_self _ _)) (by simp [Arg.isGuard])
    | guard c k hk g =>
      have ht := ih (fun x hx => hguards x (List.mem_cons_of_mem _ hx))
      cases hg : g.toBool h
      · simp [storeAfterCheck, hg]
      · simp [storeAfterCheck, hg, ht]

/-- Valid guards cost the check nothing: the store it leaves is the one it leaves
on the plain arguments alone. -/
theorem storeAfterCheck_filter (h : Heap α) (args : List (Arg V))
    (hall : AllGuardsValid h args) :
    storeAfterCheck h args = storeAfterCheck h (args.filter (fun x => !x.isGuard)) := by
  induction args generalizing h with
  | nil => rfl
  | cons a t ih =>
    cases a with
    | plain v =>
      have ht := allGuardsValid_store h (PlainArg.copy v h) t
        ((allGuardsValid_plain_cons h v t).mp hall)
      simp [storeAfterCheck, Arg.isGuard, ih _ ht]
    | guard c k hk g =>
      obtain ⟨hg, hrest⟩ := (allGuardsValid_guard_cons h c k hk g t).mp hall
      simp [storeAfterCheck, Arg.isGuard, hg, ih h hrest]

/-- A guard whose boolean conversion is false in every store is never called. -/
theorem neverInvokes_of_invalid {k : Kind} (g : ptr_guard k) (hk : k.dereferenceable = true)
    (hg : ∀ (β : Type) (h : Heap β), g.toBool h = false) : NeverInvokes g hk := by
  intro β W T _ h func args
  have bad : ∀ c : Bool, ¬ AllGuardsValid h (Arg.guard c k hk g :: args) := by
    intro c hall
    have := ((allGuardsValid_guard_cons h c k hk g args).mp hall).1
    rw [hg β h] at this
    cases this
  exact ⟨⟨_, check_all_then_invoke_invalid h func _ (bad false),
            invocations_invalid_trace h _,
            storeAfterCheck_invalid_head h false hk g (hg β h) args⟩,
         ⟨_, check_all_then_invoke_invalid h func _ (bad true),
            invocations_invalid_trace h _,
            storeAfterCheck_invalid_head h true hk g (hg β h) args⟩⟩

/-- After `reset()` the boolean conversion is false, in every store. -/
theorem toBool_reset {k : Kind} (g : ptr_guard k) (h : Heap α) {β : Type} (h2 : Heap β) :
    (g.reset h).1.toBool h2 = false := by
  cases k <;>
    simp [ptr_guard.reset, reset_ptr, unique_ptr.reset, shared_ptr.reset, weak_ptr.reset,
      ptr_guard.toBool, test_ptr, unique_ptr.toBool, shared_ptr.toBool, weak_ptr.expired,
      weak_ptr.use_count]

/-- After `reset(p)` the guard stores `p`. -/
theorem stored_reset_to {k : Kind} (g : ptr_guard k) (hr : k.resettableTo = true)
    (h : Heap α) (p : Option Addr) : (g.reset_to hr h p).1.stored = p := by
  cases k with
  | raw => rfl
  | unique => rfl
  | shared => rfl
  | weak => simp [Kind.resettableTo] at hr

/-- Locking a weak guard that observes nothing gives the empty shared guard. -/
theorem lock_of_empty (g : ptr_guard .weak) (hctrl : (g._ptr : weak_ptr).ctrl = none)
    (h : Heap α) : (g.lock h).1 = ptr_guard.default .shared ∧ (g.lock h).2 = h := by
  obtain ⟨⟨p, c⟩⟩ := g
  simp only at hctrl
  subst hctrl
  simp [ptr_guard.lock, ptr_guard.from_pointer, ptr_guard.default, Pointer.null,
    weak_ptr.lock, weak_ptr.expired, weak_ptr.use_count]

/-- A call on a valid guard without further arguments: the exact run. -/
theorem call_of_stored {k : Kind} (g : ptr_guard k) (hk : k.dereferenceable = true)
    (a : Addr) (hst : g.stored = some a) (h : Heap α) (func : Func α V S) (c : Bool) :
    check_all_then_invoke h func [Arg.guard c k hk g] =
      some { value := (), heap := (func [.ref a] h).2,
             trace := [.tested 0 true, .dereferenced 0, .invoked [.ref a]] } := by
  have hg : g.toBool h = true := by rw [toBool_eq_stored hk g h, hst]; rfl
  have hall : AllGuardsValid h ([Arg.guard c k hk g] : List (Arg V)) :=
    (allGuardsValid_guard_cons h c k hk g []).mpr ⟨hg, allGuardsValid_nil h⟩
  obtain ⟨vals, _, hsub, hrun⟩ := check_all_then_invoke_valid h func _ hall
  cases hsub with
  | cons hhead htail =>
    cases hhead with
    | guard _ _ _ _ b hb =>
      cases htail
      have hab : b = a := Option.some.inj (hb.symm.trans hst)
      subst hab
      rw [hrun]
      simp [all_args_are_safe_to_dereference, dereference_events, hg, storeAfterCheck]

theorem useCount_delete (h : Heap α) (p : Option Addr) :
    (h.delete p).useCount = h.useCount := by
  cases p <;> rfl

theorem managed_delete (h : Heap α) (p : Option Addr) :
    (h.delete p).managed = h.managed := by
  cases p <;> rfl

theorem dropShare_none (h : Heap α) : h.dropShare none = h := rfl

theorem useCount_acquire (h : Heap α) (c x : CtrlId) :
    (h.acquire (some c)).useCount x = if x = c then h.useCount c + 1 else h.useCount x := rfl

theorem useCount_dropShare (h : Heap α) (c x : CtrlId) :
    (h.dropShare (some c)).useCount x = if x = c then h.useCount c - 1 else h.useCount x := by
  simp only [Heap.dropShare]
  split <;> simp [useCount_delete]

/-- Giving up a share that is not the last destroys nothing. -/
theorem dropShare_not_last (h : Heap α) (c : CtrlId) (hc : h.useCount c - 1 ≠ 0) :
    DestroysNothing h (h.dropShare (some c)) := by
  simp [Heap.dropShare, hc, DestroysNothing]

/-- Giving up the last share deletes the managed pointer. -/
theorem dropShare_last (h : Heap α) (c : CtrlId) (hc : h.useCount c = 1) :
    (h.dropShare (some c)).objects = (h.delete (h.managed c)).objects ∧
    (h.dropShare (some c)).pointeeDestructorCalls
      = (h.delete (h.managed c)).pointeeDestructorCalls := by
  simp only [Heap.dropShare, hc]
  cases h.managed c <;> simp [Heap.delete]

/-- A share taken and given up again leaves the store as it was. -/
theorem dropShare_acquire (h : Heap α) (c : CtrlId) (hc : 0 < h.useCount c) :
    (h.acquire (some c)).dropShare (some c) = h := by
  obtain ⟨objs, uc, mg, nx, dc⟩ := h
  have hne : ¬ uc c = 0 := by
    simp only at hc
    omega
  simp only [Heap.acquire, Heap.dropShare]
  simp [hne]
  funext x
  by_cases hx : x = c
  · simp [hx]
  · simp [hx]

/-- Deleting the pointee at `a` destroys exactly that pointee. -/
theorem destroysExactly_delete (h : Heap α) (a : Addr) :
    DestroysExactly h (h.delete (some a)) a := by
  refine ⟨rfl, by simp [Heap.delete], ?_⟩
  intro x hx
  simp [Heap.delete, hx]

theorem destroysExactly_of_eq (h h1 h2 : Heap α) (a : Addr) (hd : DestroysExactly h h1 a)
    (hobj : h2.objects = h1.objects)
    (hcnt : h2.pointeeDestructorCalls = h1.pointeeDestructorCalls) :
    DestroysExactly h h2 a := by
  obtain ⟨d1, d2, d3⟩ := hd
  exact ⟨hcnt.trans d1, by rw [hobj]; exact d2, fun x hx => by rw [hobj]; exact d3 x hx⟩

/-- The sole owner of a block gives up its share, in a store `h1` that has the
objects and the destructor count of `h`: the managed pointee is destroyed, and
nothing else. -/
theorem dropShare_sole (h h1 : Heap α) (c : CtrlId) (a : Addr)
    (hcount : h1.useCount c = 1) (hman : h1.managed c = some a)
    (hobj : h1.objects = h.objects)
    (hcnt : h1.pointeeDestructorCalls = h.pointeeDestructorCalls) :
    DestroysExactly h (h1.dropShare (some c)) a := by
  obtain ⟨e1, e2⟩ := dropShare_last h1 c hcount
  rw [hman] at e1 e2
  obtain ⟨d1, d2, d3⟩ := destroysExactly_delete h1 a
  refine ⟨?_, ?_, ?_⟩
  · rw [e2, d1, hcnt]
  · rw [e1]; exact d2
  · intro x hx
    rw [e1, d3 x hx, hobj]

/-- An `int` survives the conversion to `unsigned` and back. -/
theorem unsigned_to_int_int_to_unsigned (v : Int) (hlo : -2147483648 ≤ v)
    (hhi : v < 2147483648) : unsigned_to_int (int_to_unsigned v) = v := by
  unfold unsigned_to_int int_to_unsigned
  have h0 : 0 ≤ v % 4294967296 := Int.emod_nonneg v (by decide)
  have h1 : ((v % 4294967296).toNat : Int) = v % 4294967296 := Int.toNat_of_nonneg h0
  split <;> omega

/-- How an `unsigned` reads as an `int`. -/
theorem unsigned_to_int_of_lt (d : Nat) (hd : d < 4294967296) :
    unsigned_to_int d = if d < 2147483648 then (d : Int) else (d : Int) - 4294967296 := by
  unfold unsigned_to_int
  rw [Nat.mod_eq_of_lt hd]

/-- The binding of the receiver, const or not, does not show in a run. -/
theorem check_all_then_invoke_binding (h : Heap α) (func : Func α V S) {k : Kind}
    (hk : k.dereferenceable = true) (g : ptr_guard k) (args : List (Arg V)) :
    check_all_then_invoke h func (.guard false k hk g :: args)
      = check_all_then_invoke h func (.guard true k hk g :: args) := by
  simp only [check_all_then_invoke, all_safe_guard_cons, dereference_pack,
    dereference_arg_guard, dereference_events]

theorem check_all_then_invoke_or_default_binding (conv : S → R) (h : Heap α)
    (func : Func α V S) (dflt : R) {k : Kind} (hk : k.dereferenceable = true)
    (g : ptr_guard k) (args : List (Arg V)) :
    check_all_then_invoke_or_default conv h func (.temporary dflt) (.guard false k hk g :: args)
      = check_all_then_invoke_or_default conv h func (.temporary dflt) (.guard true k hk g :: args) := by
  simp only [check_all_then_invoke_or_default, all_safe_guard_cons, dereference_pack,
    dereference_arg_guard, dereference_events]

/-- Packs with the same members involve the same guards. -/
theorem sameGuards_of_mem_iff (pack pack2 : List (Arg V))
    (hmem : ∀ x : Arg V, x.isGuard = true → (x ∈ pack ↔ x ∈ pack2)) :
    SameGuards pack pack2 := by
  intro k g
  constructor
  · rintro ⟨c, hk, hin⟩
    exact ⟨c, hk, (hmem (Arg.guard c k hk g) rfl).mp hin⟩
  · rintro ⟨c, hk, hin⟩
    exact ⟨c, hk, (hmem (Arg.guard c k hk g) rfl).mpr hin⟩

/-- Number of invocations of `check_all_then_invoke_or_default`: one when every guard
of the pack is valid, none otherwise; the run is always defined. -/
theorem check_all_then_invoke_or_default_count (conv : S → R) (h : Heap α)
    (func : Func α V S) (dflt : R) (args : List (Arg V)) :
    ∃ r, check_all_then_invoke_or_default conv h func (.temporary dflt) args = some r ∧
      (AllGuardsValid h args → invocations r.trace = 1) ∧
      (¬ AllGuardsValid h args → invocations r.trace = 0) := by
  by_cases hall : AllGuardsValid h args
  · obtain ⟨vals, _, _, hrun⟩ := check_all_then_invoke_or_default_valid conv h func dflt args hall
    exact ⟨_, hrun, fun _ => invocations_valid_trace h args vals, fun hn => absurd hall hn⟩
  · exact ⟨_, check_all_then_invoke_or_default_invalid conv h func dflt args hall,
      fun hv => absurd hv hall, fun _ => invocations_invalid_trace h args⟩

/-- With the substitution done, the value at the place of a guard is a reference to
the pointee that guard stores. -/
theorem substituted_getElem (pack : List (Arg V)) (vals : List (Val V))
    (hsub : List.Forall₂ Substituted pack vals) :
    ∀ (i : Nat) (c : Bool) (k : Kind) (hk : k.dereferenceable = true) (g : ptr_guard k),
      pack[i]? = some (Arg.guard c k hk g) →
      ∃ a, g.stored = some a ∧ vals[i]? = some (Val.ref a) := by
  induction hsub with
  | nil => intro i c k hk g hi; simp at hi
  | cons hhead htail ih =>
    intro i c k hk g hi
    cases i with
    | zero =>
      simp only [List.getElem?_cons_zero, Option.some.injEq] at hi
      subst hi
      cases hhead with
      | guard _ _ _ _ a hst => exact ⟨a, hst, by simp⟩
    | succ j =>
      simp only [List.getElem?_cons_succ] at hi
      obtain ⟨a, hst, hv⟩ := ih j c k hk g hi
      exact ⟨a, hst, by simpa using hv⟩

/-- In a run of `check_all_then_invoke` that invokes, each guard of the pack has
been replaced by a reference to the pointee it stores. -/
theorem check_all_then_invoke_occurrences (h : Heap α) (func : Func α V S)
    (pack : List (Arg V)) (r : Run α V Unit) (vals : List (Val V))
    (hr : check_all_then_invoke h func pack = some r) (hmem : Event.invoked vals ∈ r.trace) :
    ∀ (i : Nat) (c : Bool) (k : Kind) (hk : k.dereferenceable = true) (g : ptr_guard k),
      pack[i]? = some (Arg.guard c k hk g) →
      ∃ a, g.stored = some a ∧ vals[i]? = some (Val.ref a) := by
  by_cases hall : AllGuardsValid h pack
  · obtain ⟨vals0, _, hsub, hrun⟩ := check_all_then_invoke_valid h func pack hall
    have hr0 := Option.some.inj (hr.symm.trans hrun)
    subst hr0
    have hv := invoked_mem_valid_trace h pack vals vals0 hmem
    subst hv
    exact substituted_getElem pack vals hsub
  · have hr0 := Option.some.inj (hr.symm.trans (check_all_then_invoke_invalid h func pack hall))
    subst hr0
    exact absurd hmem (invoked_not_mem_invalid_trace h pack vals)

theorem check_all_then_invoke_or_default_occurrences (conv : S → R) (h : Heap α)
    (func : Func α V S) (dflt : R) (pack : List (Arg V)) (r : Run α V R)
    (vals : List (Val V))
    (hr : check_all_then_invoke_or_default conv h func (.temporary dflt) pack = some r)
    (hmem : Event.invoked vals ∈ r.trace) :
    ∀ (i : Nat) (c : Bool) (k : Kind) (hk : k.dereferenceable = true) (g : ptr_guard k),
      pack[i]? = some (Arg.guard c k hk g) →
      ∃ a, g.stored = some a ∧ vals[i]? = some (Val.ref a) := by
  by_cases hall : AllGuardsValid h pack
  · obtain ⟨vals0, _, hsub, hrun⟩ :=
      check_all_then_invoke_or_default_valid conv h func dflt pack hall
    have hr0 := Option.some.inj (hr.symm.trans hrun)
    subst hr0
    have hv := invoked_mem_valid_trace h pack vals vals0 hmem
    subst hv
    exact substituted_getElem pack vals hsub
  · have hr0 := Option.some.inj
      (hr.symm.trans (check_all_then_invoke_or_default_invalid conv h func dflt pack hall))
    subst hr0
    exact absurd hmem (invoked_not_mem_invalid_trace h pack vals)

/-- A run of `check_all_then_invoke` on a valid receiver followed by valid arguments:
the callable is applied, in the store the check has left, to a reference to the
receiver's pointee followed by the substituted arguments. -/
theorem check_all_then_invoke_receiver_valid (h : Heap α) (func : Func α V S) (c : Bool)
    {k : Kind} (hk : k.dereferenceable = true) (g : ptr_guard k) (args : List (Arg V))
    (hv : g.toBool h = true ∧ AllGuardsValid h args) :
    ∃ a rest, g.stored = some a ∧ List.Forall₂ Substituted args rest ∧
      check_all_then_invoke h func (.guard c k hk g :: args) =
        some { value := (), heap := (func (.ref a :: rest) (storeAfterCheck h args)).2,
               trace := (all_args_are_safe_to_dereference h 0 (.guard c k hk g :: args)).trace
                          ++ dereference_events 0 (.guard c k hk g :: args)
                          ++ [.invoked (.ref a :: rest)] } := by
  have hall := (allGuardsValid_guard_cons h c k hk g args).mpr hv
  obtain ⟨vals, _, hsub, hrun⟩ := check_all_then_invoke_valid h func _ hall
  cases hsub with
  | cons hhead htail =>
    cases hhead with
    | guard _ _ _ _ a hst =>
      rw [storeAfterCheck_valid_head h c hk g hv.1 args] at hrun
      exact ⟨a, _, hst, htail, hrun⟩

/-- A run of `check_all_then_invoke_or_default`, with a temporary default, on a valid
receiver followed by valid arguments. -/
theorem check_all_then_invoke_or_default_receiver_valid (conv : S → R) (h : Heap α)
    (func : Func α V S) (dflt : R) (c : Bool) {k : Kind} (hk : k.dereferenceable = true)
    (g : ptr_guard k) (args : List (Arg V))
    (hv : g.toBool h = true ∧ AllGuardsValid h args) :
    ∃ a rest, g.stored = some a ∧ List.Forall₂ Substituted args rest ∧
      check_all_then_invoke_or_default conv h func (.temporary dflt) (.guard c k hk g :: args) =
        some { value := conv (func (.ref a :: rest) (storeAfterCheck h args)).1,
               heap := (func (.ref a :: rest) (storeAfterCheck h args)).2,
               trace := (all_args_are_safe_to_dereference h 0 (.guard c k hk g :: args)).trace
                          ++ dereference_events 0 (.guard c k hk g :: args)
                          ++ [.invoked (.ref a :: rest)] } := by
  have hall := (allGuardsValid_guard_cons h c k hk g args).mpr hv
  obtain ⟨vals, _, hsub, hrun⟩ := check_all_then_invoke_or_default_valid conv h func dflt _ hall
  cases hsub with
  | cons hhead htail =>
    cases hhead with
    | guard _ _ _ _ a hst =>
      rw [storeAfterCheck_valid_head h c hk g hv.1 args] at hrun
      exact ⟨a, _, hst, htail, hrun⟩

theorem byref_all_safe_plain_cons (view : α → Option GuardObject) (h : Heap α) (pos : Nat)
    (v : V) (args : List (RefArg V)) :
    ByReference.all_args_are_safe_to_dereference view h pos (.plain v :: args)
      = (ByReference.all_args_are_safe_to_dereference view (PlainArg.copy v h) (pos + 1)
          args).map
          (fun r => { ok := r.ok, heap := PlainArg.destroy v r.heap, trace := r.trace }) := by
  cases args with
  | nil => simp [ByReference.all_args_are_safe_to_dereference]
  | cons a t =>
    simp only [ByReference.all_args_are_safe_to_dereference]
    cases ByReference.all_args_are_safe_to_dereference view (PlainArg.copy v h) (pos + 1)
      (a :: t) with
    | none => rfl
    | some r => rfl

theorem byref_all_safe_guard_cons (view : α → Option GuardObject) (h : Heap α) (pos : Nat)
    (c : Bool) (loc : Addr) (o : GuardObject) (ho : guardAt view h loc = some o)
    (args : List (RefArg V)) :
    ByReference.all_args_are_safe_to_dereference view h pos (.guard c loc :: args)
      = if o.guard.toBool h then
          (ByReference.all_args_are_safe_to_dereference view h (pos + 1) args).map
            (fun r => { ok := r.ok, heap := r.heap, trace := .tested pos true :: r.trace })
        else some { ok := false, heap := h, trace := [.tested pos false] } := by
  cases args with
  | nil =>
    cases hg : o.guard.toBool h <;>
      simp [ByReference.all_args_are_safe_to_dereference, ho, hg]
  | cons a t =>
    simp only [ByReference.all_args_are_safe_to_dereference, ho]
    cases hg : o.guard.toBool h
    · simp
    · simp only [if_true]
      cases ByReference.all_args_are_safe_to_dereference view h (pos + 1) (a :: t) with
      | none => rfl
      | some r => rfl

/-- With guards that passing by value leaves alone, the validity check on the
references is the validity check on the guards they refer to. -/
theorem byref_all_safe (view : α → Option GuardObject) (args : List (RefArg V))
    (hkept : ∀ loc ∈ guardRefs args, KeptByCopies α V loc) :
    ∀ (h : Heap α) (pos : Nat) (pack : List (Arg V)), resolvePack view h args = some pack →
      ByReference.all_args_are_safe_to_dereference view h pos args
        = some (all_args_are_safe_to_dereference h pos pack) := by
  induction args with
  | nil =>
    intro h pos pack hres
    simp only [resolvePack, Option.some.injEq] at hres
    subst hres
    simp [ByReference.all_args_are_safe_to_dereference, all_args_are_safe_to_dereference]
  | cons a t ih =>
    intro h pos pack hres
    cases a with
    | plain v =>
      obtain ⟨rest, hpack, hrest⟩ := resolvePack_plain_cons view h v t pack hres
      subst hpack
      have hcopy : resolvePack view (PlainArg.copy v h) t = some rest := by
        rw [resolvePack_congr view h (PlainArg.copy v h) t
          (fun loc hloc => (hkept loc hloc v h).1)]
        exact hrest
      rw [byref_all_safe_plain_cons, ih (fun loc hloc => hkept loc hloc) _ _ _ hcopy,
        all_safe_plain_cons]
      rfl
    | guard c loc =>
      obtain ⟨o, rest, ho, hpack, hrest⟩ := resolvePack_guard_cons view h c loc t pack hres
      subst hpack
      rw [byref_all_safe_guard_cons view h pos c loc o ho,
        ih (fun x hx => hkept x (List.mem_cons_of_mem _ hx)) _ _ _ hrest,
        all_safe_guard_cons]
      cases hg : o.guard.toBool h
      · simp
      · simp

/-- The validity check changes no object that passing by value leaves alone. -/
theorem storeAfterCheck_objects (loc : Addr) (hkept : KeptByCopies α V loc) (h : Heap α)
    (pack : List (Arg V)) : (storeAfterCheck h pack).objects loc = h.objects loc := by
  induction pack generalizing h with
  | nil => rfl
  | cons a t ih =>
    cases a with
    | plain v =>
      simp only [storeAfterCheck]
      rw [(hkept v _).2, ih, (hkept v h).1]
    | guard c k hk g =>
      cases hg : g.toBool h
      · simp [storeAfterCheck, hg]
      · simp [storeAfterCheck, hg, ih]

/-- With guards that passing by value leaves alone, `check_all_then_invoke` on the
references is `check_all_then_invoke` on the guards they refer to. -/
theorem byref_check_all_then_invoke (view : α → Option GuardObject) (h : Heap α)
    (func : Func α V S) (args : List (RefArg V)) (pack : List (Arg V))
    (hres : resolvePack view h args = some pack)
    (hkept : ∀ loc ∈ guardRefs args, KeptByCopies α V loc) :
    ByReference.check_all_then_invoke view h func args = check_all_then_invoke h func pack := by
  have hafter : resolvePack view (all_args_are_safe_to_dereference h 0 pack).heap args
      = some pack := by
    rw [resolvePack_congr view h _ args
      (fun loc hloc => by rw [all_safe_heap]; exact storeAfterCheck_objects loc (hkept loc hloc) h pack)]
    exact hres
  simp only [ByReference.check_all_then_invoke, check_all_then_invoke,
    byref_all_safe view args hkept h 0 pack hres,
    byref_dereference_pack view _ args pack hafter,
    byref_dereference_events view h args 0 pack hres]

/-- The same for `check_all_then_invoke_or_default`. -/
theorem byref_check_all_then_invoke_or_default (view : α → Option GuardObject)
    (conv : S → R) (h : Heap α) (func : Func α V S) (dflt : DefaultArg R)
    (args : List (RefArg V)) (pack : List (Arg V))
    (hres : resolvePack view h args = some pack)
    (hkept : ∀ loc ∈ guardRefs args, KeptByCopies α V loc) :
    ByReference.check_all_then_invoke_or_default view conv h func dflt args
      = check_all_then_invoke_or_default conv h func dflt pack := by
  have hafter : resolvePack view (all_args_are_safe_to_dereference h 0 pack).heap args
      = some pack := by
    rw [resolvePack_congr view h _ args
      (fun loc hloc => by rw [all_safe_heap]; exact storeAfterCheck_objects loc (hkept loc hloc) h pack)]
    exact hres
  simp only [ByReference.check_all_then_invoke_or_default, check_all_then_invoke_or_default,
    byref_all_safe view args hkept h 0 pack hres,
    byref_dereference_pack view _ args pack hafter,
    byref_dereference_events view h args 0 pack hres]

/-- Guard objects that are the same objects in two stores are unchanged between
them. -/
theorem guardsUnchanged_of_objects (view : α → Option GuardObject) (locs : List Addr)
    (h h2 : Heap α) (heq : ∀ loc ∈ locs, h2.objects loc = h.objects loc) :
    GuardsUnchanged view locs h h2 := by
  intro loc hloc
  refine ⟨heq loc hloc, fun o ho => ⟨?_, toBool_store o.usable o.guard h2 h⟩⟩
  rw [guardAt_congr view h h2 loc (heq loc hloc)]
  exact ho

/-- A run of `check_all_then_invoke` changes no object that passing by value leaves
alone and that the callable, on the arguments it is invoked on, leaves alone. -/
theorem check_all_then_invoke_objects (h : Heap α) (func : Func α V S) (pack : List (Arg V))
    (r : Run α V Unit) (hr : check_all_then_invoke h func pack = some r) (loc : Addr)
    (hkept : KeptByCopies α V loc)
    (hfunc : ∀ vals, Event.invoked vals ∈ r.trace →
      ∀ h0, (func vals h0).2.objects loc = h0.objects loc) :
    r.heap.objects loc = h.objects loc := by
  by_cases hall : AllGuardsValid h pack
  · obtain ⟨vals, _, _, hrun⟩ := check_all_then_invoke_valid h func pack hall
    have hr0 := Option.some.inj (hr.symm.trans hrun)
    subst hr0
    have hstep := hfunc vals (by simp) (storeAfterCheck h pack)
    exact hstep.trans (storeAfterCheck_objects loc hkept h pack)
  · have hr0 := Option.some.inj (hr.symm.trans (check_all_then_invoke_invalid h func pack hall))
    subst hr0
    exact storeAfterCheck_objects loc hkept h pack

/-- The same for `check_all_then_invoke_or_default`. -/
theorem check_all_then_invoke_or_default_objects (conv : S → R) (h : Heap α)
    (func : Func α V S) (dflt : R) (pack : List (Arg V)) (r : Run α V R)
    (hr : check_all_then_invoke_or_default conv h func (.temporary dflt) pack = some r)
    (loc : Addr) (hkept : KeptByCopies α V loc)
    (hfunc : ∀ vals, Event.invoked vals ∈ r.trace →
      ∀ h0, (func vals h0).2.objects loc = h0.objects loc) :
    r.heap.objects loc = h.objects loc := by
  by_cases hall : AllGuardsValid h pack
  · obtain ⟨vals, _, _, hrun⟩ :=
      check_all_then_invoke_or_default_valid conv h func dflt pack hall
    have hr0 := Option.some.inj (hr.symm.trans hrun)
    subst hr0
    have hstep := hfunc vals (by simp) (storeAfterCheck h pack)
    exact hstep.trans (storeAfterCheck_objects loc hkept h pack)
  · have hr0 := Option.some.inj
      (hr.symm.trans (check_all_then_invoke_or_default_invalid conv h func dflt pack hall))
    subst hr0
    exact storeAfterCheck_objects loc hkept h pack

/-- A `Pointee` passed as a plain argument is copied by the validity check and the
copy destroyed, although the callable does nothing: one destructor call. -/
theorem call_copies_plain_pointee :
    (rawGuard.call rfl sampleHeap (fun _ h0 => ((), h0) : Func Pointee Pointee Unit)
      [.plain { identifier := 3 }]).map (fun r => r.heap.pointeeDestructorCalls) = some 1 ∧
    (nullGuard.call rfl sampleHeap (fun _ h0 => ((), h0) : Func Pointee Pointee Unit)
      [.plain { identifier := 3 }]).map (fun r => r.heap.pointeeDestructorCalls) = some 0 :=
  ⟨rfl, rfl⟩

end Lemmas

/-! ## The claims -/

section Claims

variable {α V R S : Type}

open detail

/-- C1: for a guard `g` of a dereferenceable kind, any callable and any pack mixing
guards and plain arguments, `g.call` (either overload) invokes the callable exactly
once when `g` and every guard-typed argument are valid: the run has one invocation,
on a reference to the pointee of `g` followed by the substituted arguments, and the
store it leaves is the one the callable leaves when applied to them, once, in the
store the validity check has left. Otherwise the callable is not invoked at all:
the run has no invocation and leaves the store as the validity check left it. The
decision is the same for every pack with the same guard-typed arguments, so plain
arguments have no part in it. -/
theorem call_invokes_once_iff_all_valid [PlainArg α V] {k : Kind} (g : ptr_guard k)
    (hk : k.dereferenceable = true) (h : Heap α) (func : Func α V S) (args : List (Arg V)) :
    (∃ r, g.call hk h func args = some r ∧
      ((g.toBool h = true ∧ AllGuardsValid h args) →
        invocations r.trace = 1 ∧
        ∃ a rest, g.stored = some a ∧ List.Forall₂ Substituted args rest ∧
          Event.invoked (.ref a :: rest) ∈ r.trace ∧
          r.heap = (func (.ref a :: rest) (storeAfterCheck h args)).2) ∧
      (¬ (g.toBool h = true ∧ AllGuardsValid h args) →
        invocations r.trace = 0 ∧ (∀ vals, Event.invoked vals ∉ r.trace) ∧
        r.heap = storeAfterCheck h (.guard false k hk g :: args))) ∧
    (∃ r, g.call_const hk h func args = some r ∧
      ((g.toBool h = true ∧ AllGuardsValid h args) →
        invocations r.trace = 1 ∧
        ∃ a rest, g.stored = some a ∧ List.Forall₂ Substituted args rest ∧
          Event.invoked (.ref a :: rest) ∈ r.trace ∧
          r.heap = (func (.ref a :: rest) (storeAfterCheck h args)).2) ∧
      (¬ (g.toBool h = true ∧ AllGuardsValid h args) →
        invocations r.trace = 0 ∧ (∀ vals, Event.invoked vals ∉ r.trace) ∧
        r.heap = storeAfterCheck h (.guard true k hk g :: args))) ∧
    (∀ (func2 : Func α V S) (args2 : List (Arg V)) (r r2 : Run α V Unit),
      args2.filter Arg.isGuard = args.filter Arg.isGuard →
      g.call hk h func args = some r → g.call hk h func2 args2 = some r2 →
      invocations r.trace = invocations r2.trace) := by
  have key : ∀ (c : Bool) (f : Func α V S) (as : List (Arg V)),
      ∃ r, check_all_then_invoke h f (.guard c k hk g :: as) = some r ∧
        ((g.toBool h = true ∧ AllGuardsValid h as) →
          invocations r.trace = 1 ∧
          ∃ a rest, g.stored = some a ∧ List.Forall₂ Substituted as rest ∧
            Event.invoked (.ref a :: rest) ∈ r.trace ∧
            r.heap = (f (.ref a :: rest) (storeAfterCheck h as)).2) ∧
        (¬ (g.toBool h = true ∧ AllGuardsValid h as) →
          invocations r.trace = 0 ∧ (∀ vals, Event.invoked vals ∉ r.trace) ∧
          r.heap = storeAfterCheck h (.guard c k hk g :: as)) := by
    intro c f as
    by_cases hv : g.toBool h = true ∧ AllGuardsValid h as
    · obtain ⟨a, rest, hst, hsub, hrun⟩ := check_all_then_invoke_receiver_valid h f c hk g as hv
      exact ⟨_, hrun,
        fun _ => ⟨invocations_valid_trace h _ _, a, rest, hst, hsub, by simp, rfl⟩,
        fun hn => absurd hv hn⟩
    · have hn : ¬ AllGuardsValid h (.guard c k hk g :: as) := by
        rw [allGuardsValid_guard_cons]
        exact hv
      exact ⟨_, check_all_then_invoke_invalid h f _ hn, fun hv2 => absurd hv2 hv,
        fun _ => ⟨invocations_invalid_trace h _,
          fun vals => invoked_not_mem_invalid_trace h _ vals, rfl⟩⟩
  refine ⟨key false func args, key true func args, ?_⟩
  intro func2 args2 r r2 hsame hr hr2
  obtain ⟨s, hs, s1, s0⟩ := key false func args
  obtain ⟨s2, hs2, t1, t0⟩ := key false func2 args2
  have e1 : r = s := Option.some.inj (hr.symm.trans hs)
  have e2 : r2 = s2 := Option.some.inj (hr2.symm.trans hs2)
  subst e1 e2
  have hiff : AllGuardsValid h args2 ↔ AllGuardsValid h args := by
    rw [← allGuardsValid_filter h args2, ← allGuardsValid_filter h args, hsame]
  by_cases hv : g.toBool h = true ∧ AllGuardsValid h args
  · rw [(s1 hv).1, (t1 ⟨hv.1, hiff.mpr hv.2⟩).1]
  · rw [(s0 hv).1, (t0 (fun hv2 => hv ⟨hv2.1, hiff.mp hv2.2⟩)).1]

/-- Witness of C1: a raw guard on the pointee at address 1, called with the pack
`1, uniqueGuard, 2` and a callable that assigns `Pointee(9)` through its first
argument, invokes the callable exactly once, and the store it leaves has
`Pointee(9)` at address 1. -/
theorem call_invokes_once_iff_all_valid_witness :
    Kind.raw.dereferenceable = true ∧
    ∃ r, rawGuard.call rfl sampleHeap assignNine validPack = some r ∧
      invocations r.trace = 1 ∧ r.heap.objects 1 = some { identifier := 9 } :=
  ⟨rfl,
    (call_invokes_once_iff_all_valid rawGuard rfl sampleHeap assignNine validPack).1.elim
      (fun r hr =>
        have hv : rawGuard.toBool sampleHeap = true ∧ AllGuardsValid sampleHeap validPack :=
          ⟨by decide, (all_safe_iff sampleHeap validPack 0).mp (by decide)⟩
        ⟨r, hr.1, (hr.2.1 hv).1,
          (hr.2.1 hv).2.elim (fun a ha => ha.elim (fun rest hrest => by
            have hst : rawGuard.stored = some a := hrest.1
            have ha1 : a = 1 := (Option.some.inj hst).symm
            subst ha1
            rw [hrest.2.2.2]
            simp [assignNine, Heap.write]))⟩)⟩

/-- C2: the return type `Ret` of `call_or` is deduced from the forwarding reference
`Ret&& def`. Called with a temporary for the default (either overload), `call_or`
does what the specification says: when `g` or some guard-typed argument is invalid
it returns the default without invoking the callable, leaving the store as the
validity check left it; otherwise it invokes the callable exactly once on a
reference to the pointee of `g` followed by the substituted arguments, in the
store the check has left, and returns its result (as converted to the type of the
default by the return statement). Called with a named default, `Ret` is a
reference type: `call_or` still returns the default when a guard is invalid, but
when every guard is valid the reference it returns is bound to a temporary that
is gone, and the run has no defined result. -/
theorem call_or_named_default_has_no_result [PlainArg α V] {k : Kind} (g : ptr_guard k)
    (hk : k.dereferenceable = true) (conv : S → R) (h : Heap α) (func : Func α V S) (dflt : R)
    (args : List (Arg V)) :
    (¬ (g.toBool h = true ∧ AllGuardsValid h args) →
      (∃ r, g.call_or hk conv h func dflt args = some r ∧
        r.value = dflt ∧ invocations r.trace = 0 ∧ (∀ vals, Event.invoked vals ∉ r.trace) ∧
        r.heap = storeAfterCheck h (.guard false k hk g :: args)) ∧
      (∃ r, g.call_or_const hk conv h func dflt args = some r ∧
        r.value = dflt ∧ invocations r.trace = 0 ∧ (∀ vals, Event.invoked vals ∉ r.trace) ∧
        r.heap = storeAfterCheck h (.guard true k hk g :: args)) ∧
      (∃ r, g.call_or_named hk conv h func dflt args = some r ∧
        r.value = dflt ∧ invocations r.trace = 0 ∧ (∀ vals, Event.invoked vals ∉ r.trace) ∧
        r.heap = storeAfterCheck h (.guard false k hk g :: args)) ∧
      (∃ r, g.call_or_const_named hk conv h func dflt args = some r ∧
        r.value = dflt ∧ invocations r.trace = 0 ∧ (∀ vals, Event.invoked vals ∉ r.trace) ∧
        r.heap = storeAfterCheck h (.guard true k hk g :: args))) ∧
    ((g.toBool h = true ∧ AllGuardsValid h args) →
      (∃ r a rest, g.call_or hk conv h func dflt args = some r ∧
        g.stored = some a ∧ List.Forall₂ Substituted args rest ∧
        r.value = conv (func (.ref a :: rest) (storeAfterCheck h args)).1 ∧
        r.heap = (func (.ref a :: rest) (storeAfterCheck h args)).2 ∧
        invocations r.trace = 1 ∧ Event.invoked (.ref a :: rest) ∈ r.trace) ∧
      (∃ r a rest, g.call_or_const hk conv h func dflt args = some r ∧
        g.stored = some a ∧ List.Forall₂ Substituted args rest ∧
        r.value = conv (func (.ref a :: rest) (storeAfterCheck h args)).1 ∧
        r.heap = (func (.ref a :: rest) (storeAfterCheck h args)).2 ∧
        invocations r.trace = 1 ∧ Event.invoked (.ref a :: rest) ∈ r.trace) ∧
      g.call_or_named hk conv h func dflt args = none ∧
      g.call_or_const_named hk conv h func dflt args = none) := by
  have bad : ∀ c : Bool, ¬ (g.toBool h = true ∧ AllGuardsValid h args) →
      (∃ r, check_all_then_invoke_or_default conv h func (.temporary dflt)
          (.guard c k hk g :: args) = some r ∧
        r.value = dflt ∧ invocations r.trace = 0 ∧ (∀ vals, Event.invoked vals ∉ r.trace) ∧
        r.heap = storeAfterCheck h (.guard c k hk g :: args)) ∧
      (∃ r, check_all_then_invoke_or_default conv h func (.named dflt)
          (.guard c k hk g :: args) = some r ∧
        r.value = dflt ∧ invocations r.trace = 0 ∧ (∀ vals, Event.invoked vals ∉ r.trace) ∧
        r.heap = storeAfterCheck h (.guard c k hk g :: args)) := by
    intro c hn
    rw [← allGuardsValid_guard_cons h c k hk g args] at hn
    exact ⟨⟨_, check_all_then_invoke_or_default_invalid conv h func dflt _ hn, rfl,
        invocations_invalid_trace h _, fun vals => invoked_not_mem_invalid_trace h _ vals, rfl⟩,
      ⟨_, (check_all_then_invoke_or_default_named conv h func dflt _).2 hn, rfl,
        invocations_invalid_trace h _, fun vals => invoked_not_mem_invalid_trace h _ vals, rfl⟩⟩
  have good : ∀ c : Bool, (g.toBool h = true ∧ AllGuardsValid h args) →
      (∃ r a rest,
        check_all_then_invoke_or_default conv h func (.temporary dflt)
          (.guard c k hk g :: args) = some r ∧
        g.stored = some a ∧ List.Forall₂ Substituted args rest ∧
        r.value = conv (func (.ref a :: rest) (storeAfterCheck h args)).1 ∧
        r.heap = (func (.ref a :: rest) (storeAfterCheck h args)).2 ∧
        invocations r.trace = 1 ∧ Event.invoked (.ref a :: rest) ∈ r.trace) ∧
      check_all_then_invoke_or_default conv h func (.named dflt)
          (.guard c k hk g :: args) = none := by
    intro c hv
    obtain ⟨a, rest, hst, hsub, hrun⟩ :=
      check_all_then_invoke_or_default_receiver_valid conv h func dflt c hk g args hv
    exact ⟨⟨_, a, rest, hrun, hst, hsub, rfl, rfl, invocations_valid_trace h _ _, by simp⟩,
      (check_all_then_invoke_or_default_named conv h func dflt _).1
        ((allGuardsValid_guard_cons h c k hk g args).mpr hv)⟩
  exact ⟨fun hn => ⟨(bad false hn).1, (bad true hn).1, (bad false hn).2, (bad true hn).2⟩,
    fun hv => ⟨(good false hv).1, (good true hv).1, (good false hv).2, (good true hv).2⟩⟩

/-- Witness of C2: on the raw guard on the pointee at address 1, with the pack
`1, uniqueGuard, 2` and a callable returning 1, `call_or` with the temporary
default 0 returns 1, and with a named default 0 it has no defined result. -/
theorem call_or_named_default_has_no_result_witness :
    Kind.raw.dereferenceable = true ∧
    (∃ r, rawGuard.call_or rfl int_to_unsigned sampleHeap returnOne 0 validPack = some r ∧
      r.value = 1) ∧
    rawGuard.call_or_named rfl int_to_unsigned sampleHeap returnOne 0 validPack = none :=
  have hv : rawGuard.toBool sampleHeap = true ∧ AllGuardsValid sampleHeap validPack :=
    ⟨by decide, (all_safe_iff sampleHeap validPack 0).mp (by decide)⟩
  ⟨rfl,
    ((call_or_named_default_has_no_result rawGuard rfl int_to_unsigned sampleHeap returnOne 0
        validPack).2 hv).1.elim
      (fun r hr => hr.elim (fun a hr => hr.elim (fun rest hr => ⟨r, hr.1, hr.2.2.2.1⟩))),
    ((call_or_named_default_has_no_result rawGuard rfl int_to_unsigned sampleHeap returnOne 0
        validPack).2 hv).2.2.1⟩

/-- C3: all-or-nothing access. Every run of `call` and `call_or` (either overload)
is defined, so no null or expired guard is ever dereferenced; when the receiver
or some guard-typed argument is invalid the run dereferences nothing, the valid
guards included; and every dereference in a run comes after each guard of the
pack, the receiver first, has been tested and found valid. -/
theorem call_is_all_or_nothing [PlainArg α V] {k : Kind} (g : ptr_guard k)
    (hk : k.dereferenceable = true) (conv : S → R) (h : Heap α) (func : Func α V S) (dflt : R)
    (args : List (Arg V)) :
    (∃ r, g.call hk h func args = some r ∧
      AllOrNothing h (.guard false k hk g :: args) r.trace) ∧
    (∃ r, g.call_const hk h func args = some r ∧
      AllOrNothing h (.guard true k hk g :: args) r.trace) ∧
    (∃ r, g.call_or hk conv h func dflt args = some r ∧
      AllOrNothing h (.guard false k hk g :: args) r.trace) ∧
    (∃ r, g.call_or_const hk conv h func dflt args = some r ∧
      AllOrNothing h (.guard true k hk g :: args) r.trace) := by
  have void : ∀ pack : List (Arg V),
      ∃ r, check_all_then_invoke h func pack = some r ∧ AllOrNothing h pack r.trace := by
    intro pack
    by_cases hall : AllGuardsValid h pack
    · obtain ⟨vals, _, _, hrun⟩ := check_all_then_invoke_valid h func pack hall
      exact ⟨_, hrun, allOrNothing_valid_trace h pack vals hall⟩
    · exact ⟨_, check_all_then_invoke_invalid h func pack hall, allOrNothing_invalid_trace h pack⟩
  have valued : ∀ pack : List (Arg V),
      ∃ r, check_all_then_invoke_or_default conv h func (.temporary dflt) pack = some r ∧
        AllOrNothing h pack r.trace := by
    intro pack
    by_cases hall : AllGuardsValid h pack
    · obtain ⟨vals, _, _, hrun⟩ := check_all_then_invoke_or_default_valid conv h func dflt pack hall
      exact ⟨_, hrun, allOrNothing_valid_trace h pack vals hall⟩
    · exact ⟨_, check_all_then_invoke_or_default_invalid conv h func dflt pack hall,
        allOrNothing_invalid_trace h pack⟩
  exact ⟨void _, void _, valued _, valued _⟩

/-- Witness of C3: with a valid receiver, a valid unique guard and a null raw guard
in the pack, the run of `call` is defined and dereferences nothing. -/
theorem call_is_all_or_nothing_witness :
    Kind.raw.dereferenceable = true ∧
    ∃ r, rawGuard.call rfl sampleHeap returnOne mixedPack = some r ∧ dereferences r.trace = 0 :=
  ⟨rfl,
    (call_is_all_or_nothing rawGuard rfl id sampleHeap returnOne 0 mixedPack).1.elim
      (fun r hr => ⟨r, hr.1, hr.2.1
        (fun hv => absurd ((all_safe_iff sampleHeap _ 0).mpr hv) (by decide))⟩)⟩

/-- C4: whenever `call` or `call_or` (either overload) invokes the callable, the
callable is applied to a reference to the receiver's pointee followed by the
supplied arguments, as many and in the same order, each guard-typed argument
replaced by a reference to the pointee of that guard and each plain argument
unchanged: the store the run leaves, and for `call_or` the value it returns, are
those the callable gives on these values in the store the validity check has
left. And the callable is invoked, in all four members, as soon as the receiver
and every guard-typed argument are valid. -/
theorem call_passes_pointees_in_order [PlainArg α V] {k : Kind} (g : ptr_guard k)
    (hk : k.dereferenceable = true) (conv : S → R) (h : Heap α) (func : Func α V S) (dflt : R)
    (args : List (Arg V)) :
    (∀ (r : Run α V Unit) (vals : List (Val V)),
      (g.call hk h func args = some r ∨ g.call_const hk h func args = some r) →
      Event.invoked vals ∈ r.trace →
      ∃ a rest, g.stored = some a ∧ vals = .ref a :: rest ∧
        List.Forall₂ Substituted args rest ∧
        r.heap = (func vals (storeAfterCheck h args)).2) ∧
    (∀ (r : Run α V R) (vals : List (Val V)),
      (g.call_or hk conv h func dflt args = some r ∨
        g.call_or_const hk conv h func dflt args = some r) →
      Event.invoked vals ∈ r.trace →
      ∃ a rest, g.stored = some a ∧ vals = .ref a :: rest ∧
        List.Forall₂ Substituted args rest ∧
        r.heap = (func vals (storeAfterCheck h args)).2 ∧
        r.value = conv (func vals (storeAfterCheck h args)).1) ∧
    ((g.toBool h = true ∧ AllGuardsValid h args) →
      (∃ r vals, g.call hk h func args = some r ∧ Event.invoked vals ∈ r.trace) ∧
      (∃ r vals, g.call_const hk h func args = some r ∧ Event.invoked vals ∈ r.trace) ∧
      (∃ r vals, g.call_or hk conv h func dflt args = some r ∧
        Event.invoked vals ∈ r.trace) ∧
      (∃ r vals, g.call_or_const hk conv h func dflt args = some r ∧
        Event.invoked vals ∈ r.trace)) := by
  have void : ∀ (c : Bool) (r : Run α V Unit) (vals : List (Val V)),
      check_all_then_invoke h func (.guard c k hk g :: args) = some r →
      Event.invoked vals ∈ r.trace →
      ∃ a rest, g.stored = some a ∧ vals = .ref a :: rest ∧
        List.Forall₂ Substituted args rest ∧
        r.heap = (func vals (storeAfterCheck h args)).2 := by
    intro c r vals hr hmem
    by_cases hv : g.toBool h = true ∧ AllGuardsValid h args
    · obtain ⟨a, rest, hst, hsub, hrun⟩ :=
        check_all_then_invoke_receiver_valid h func c hk g args hv
      have hr0 := Option.some.inj (hr.symm.trans hrun)
      subst hr0
      have hvals := invoked_mem_valid_trace h _ vals _ hmem
      subst hvals
      exact ⟨a, rest, hst, rfl, hsub, rfl⟩
    · have hall : ¬ AllGuardsValid h (Arg.guard c k hk g :: args) := by
        rw [allGuardsValid_guard_cons]
        exact hv
      have hr0 := Option.some.inj (hr.symm.trans (check_all_then_invoke_invalid h func _ hall))
      subst hr0
      exact absurd hmem (invoked_not_mem_invalid_trace h _ vals)
  have valued : ∀ (c : Bool) (r : Run α V R) (vals : List (Val V)),
      check_all_then_invoke_or_default conv h func (.temporary dflt)
        (.guard c k hk g :: args) = some r →
      Event.invoked vals ∈ r.trace →
      ∃ a rest, g.stored = some a ∧ vals = .ref a :: rest ∧
        List.Forall₂ Substituted args rest ∧
        r.heap = (func vals (storeAfterCheck h args)).2 ∧
        r.value = conv (func vals (storeAfterCheck h args)).1 := by
    intro c r vals hr hmem
    by_cases hv : g.toBool h = true ∧ AllGuardsValid h args
    · obtain ⟨a, rest, hst, hsub, hrun⟩ :=
        check_all_then_invoke_or_default_receiver_valid conv h func dflt c hk g args hv
      have hr0 := Option.some.inj (hr.symm.trans hrun)
      subst hr0
      have hvals := invoked_mem_valid_trace h _ vals _ hmem
      subst hvals
      exact ⟨a, rest, hst, rfl, hsub, rfl, rfl⟩
    · have hall : ¬ AllGuardsValid h (Arg.guard c k hk g :: args) := by
        rw [allGuardsValid_guard_cons]
        exact hv
      have hr0 := Option.some.inj
        (hr.symm.trans (check_all_then_invoke_or_default_invalid conv h func dflt _ hall))
      subst hr0
      exact absurd hmem (invoked_not_mem_invalid_trace h _ vals)
  have runs : ∀ c : Bool, (g.toBool h = true ∧ AllGuardsValid h args) →
      (∃ r vals, check_all_then_invoke h func (.guard c k hk g :: args) = some r ∧
        Event.invoked vals ∈ r.trace) ∧
      (∃ r vals, check_all_then_invoke_or_default conv h func (.temporary dflt)
          (.guard c k hk g :: args) = some r ∧ Event.invoked vals ∈ r.trace) := by
    intro c hv
    obtain ⟨a, rest, _, _, hrun⟩ := check_all_then_invoke_receiver_valid h func c hk g args hv
    obtain ⟨a2, rest2, _, _, hrun2⟩ :=
      check_all_then_invoke_or_default_receiver_valid conv h func dflt c hk g args hv
    exact ⟨⟨_, .ref a :: rest, hrun, by simp⟩, ⟨_, .ref a2 :: rest2, hrun2, by simp⟩⟩
  refine ⟨fun r vals hr hmem => ?_, fun r vals hr hmem => ?_, fun hv => ?_⟩
  · rcases hr with hr | hr
    · exact void false r vals hr hmem
    · exact void true r vals hr hmem
  · rcases hr with hr | hr
    · exact valued false r vals hr hmem
    · exact valued true r vals hr hmem
  · exact ⟨(runs false hv).1, (runs true hv).1, (runs false hv).2, (runs true hv).2⟩

/-- Witness of C4: the raw guard on address 1, with the pack `1, uniqueGuard, 2`.
Both `call` and `call_or` invoke the callable; `call` applies it to `*1, 1, *2, 2`,
and `call_or`, with a callable that assigns `Pointee(9)` through its first argument
and returns 1, returns 1 and leaves `Pointee(9)` at address 1. -/
theorem call_passes_pointees_in_order_witness :
    Kind.raw.dereferenceable = true ∧
    (∃ a rest, rawGuard.stored = some a ∧
      [Val.ref 1, Val.plain (1 : Int), Val.ref 2, Val.plain 2] = Val.ref a :: rest ∧
      List.Forall₂ Substituted validPack rest) ∧
    (∃ r vals, rawGuard.call rfl sampleHeap returnOne validPack = some r ∧
      Event.invoked vals ∈ r.trace) ∧
    (∃ r vals, rawGuard.call_or rfl id sampleHeap assignNine 0 validPack = some r ∧
      Event.invoked vals ∈ r.trace ∧ r.value = 1 ∧
      r.heap.objects 1 = some { identifier := 9 }) :=
  have hv : rawGuard.toBool sampleHeap = true ∧ AllGuardsValid sampleHeap validPack :=
    ⟨by decide, (all_safe_iff sampleHeap validPack 0).mp (by decide)⟩
  ⟨rfl,
    ((call_passes_pointees_in_order rawGuard rfl id sampleHeap returnOne 0 validPack).1
      { value := (), heap := sampleHeap,
        trace := [.tested 0 true, .tested 2 true, .dereferenced 0, .dereferenced 2,
                  .invoked [.ref 1, .plain 1, .ref 2, .plain 2]] }
      [.ref 1, .plain 1, .ref 2, .plain 2]
      (Or.inl rfl) (by decide)).elim
      (fun a ha => ha.elim (fun rest hr => ⟨a, rest, hr.1, hr.2.1, hr.2.2.1⟩)),
    ((call_passes_pointees_in_order rawGuard rfl id sampleHeap returnOne 0 validPack).2.2
      hv).1,
    (((call_passes_pointees_in_order rawGuard rfl id sampleHeap assignNine 0 validPack).2.2
      hv).2.2.1).elim (fun r hr => hr.elim (fun vals hrv =>
        ((call_passes_pointees_in_order rawGuard rfl id sampleHeap assignNine 0 validPack).2.1
          r vals (Or.inl hrv.1) hrv.2).elim (fun a ha => ha.elim (fun rest hrest => by
            have hst : rawGuard.stored = some a := hrest.1
            have ha1 : a = 1 := (Option.some.inj hst).symm
            subst ha1
            refine ⟨r, vals, hrv.1, hrv.2, ?_, ?_⟩
            · rw [hrest.2.2.2.2, hrest.2.1]
              rfl
            · rw [hrest.2.2.2.1, hrest.2.1]
              simp [assignNine, Heap.write]))))⟩

/-- C5: the boolean conversion of a guard is the validity of the guarded pointer,
`test_ptr(_ptr)`, and of nothing else: for the raw, unique and shared kinds it is
true exactly when the stored pointer is not null, for the weak kind exactly when
the reference has not expired, that is when the observed block still has an
owner. This holds of every guard and store, hence after every operation; a guard
is therefore either empty or non-empty, as its pointer is. -/
theorem bool_conversion_is_pointer_validity (h : Heap α) :
    (∀ (k : Kind) (g : ptr_guard k), g.toBool h = detail.test_ptr h k g._ptr) ∧
    (∀ g : ptr_guard .raw, g.toBool h = true ↔ (g._ptr : Option Addr) ≠ none) ∧
    (∀ g : ptr_guard .unique, g.toBool h = true ↔ (g._ptr : unique_ptr).ptr ≠ none) ∧
    (∀ g : ptr_guard .shared, g.toBool h = true ↔ (g._ptr : shared_ptr).ptr ≠ none) ∧
    (∀ g : ptr_guard .weak, g.toBool h = true ↔ weak_ptr.expired h (g._ptr : weak_ptr) = false) ∧
    (∀ g : ptr_guard .weak, g.toBool h = true ↔
      ∃ c, (g._ptr : weak_ptr).ctrl = some c ∧ 0 < h.useCount c) ∧
    (∀ (k : Kind) (g : ptr_guard k), g.toBool h = false ∨ g.toBool h = true) := by
  refine ⟨fun _ _ => rfl, ?_, ?_, ?_, ?_, ?_, ?_⟩
  · intro g
    obtain ⟨p⟩ := g
    cases hp : (p : Option Addr) <;> simp [ptr_guard.toBool, test_ptr, hp]
  · rintro ⟨⟨p⟩⟩
    cases p <;> simp [ptr_guard.toBool, test_ptr, unique_ptr.toBool]
  · rintro ⟨⟨p, c⟩⟩
    cases p <;> simp [ptr_guard.toBool, test_ptr, shared_ptr.toBool]
  · rintro ⟨⟨p, c⟩⟩
    simp [ptr_guard.toBool, test_ptr]
  · rintro ⟨⟨p, c⟩⟩
    cases c with
    | none => simp [ptr_guard.toBool, test_ptr, weak_ptr.expired, weak_ptr.use_count]
    | some c =>
      simp [ptr_guard.toBool, test_ptr, weak_ptr.expired, weak_ptr.use_count]
      omega
  · intro k g
    cases g.toBool h <;> simp

/-- C6: a default-constructed guard of each of the four kinds is empty: its boolean
conversion is false in every store, `call` on it never invokes the callable, and
for the weak kind `lock` leaves the store alone and returns an empty shared guard
on which `call` never invokes the callable. -/
theorem default_guard_is_empty (h : Heap α) :
    (∀ k : Kind, (ptr_guard.default k).toBool h = false) ∧
    NeverInvokes (ptr_guard.default .raw) rfl ∧
    NeverInvokes (ptr_guard.default .unique) rfl ∧
    NeverInvokes (ptr_guard.default .shared) rfl ∧
    ((ptr_guard.default .weak).lock h).2 = h ∧
    ((ptr_guard.default .weak).lock h).1 = ptr_guard.default .shared ∧
    ((ptr_guard.default .weak).lock h).1.toBool ((ptr_guard.default .weak).lock h).2 = false ∧
    NeverInvokes ((ptr_guard.default .weak).lock h).1 rfl := by
  have hweak : ((ptr_guard.default .weak).lock h).1 = ptr_guard.default .shared := by
    simp [ptr_guard.lock, ptr_guard.from_pointer, ptr_guard.default, Pointer.null,
      weak_ptr.lock, weak_ptr.expired, weak_ptr.use_count]
  refine ⟨?_, ?_, ?_, ?_, ?_, hweak, ?_, ?_⟩
  · intro k
    cases k <;>
      simp [ptr_guard.default, Pointer.null, ptr_guard.toBool, test_ptr, unique_ptr.toBool,
        shared_ptr.toBool, weak_ptr.expired, weak_ptr.use_count]
  · exact neverInvokes_of_invalid _ _ (fun _ _ => rfl)
  · exact neverInvokes_of_invalid _ _ (fun _ _ => rfl)
  · exact neverInvokes_of_invalid _ _ (fun _ _ => rfl)
  · simp [ptr_guard.lock, ptr_guard.default, Pointer.null, weak_ptr.lock, weak_ptr.expired,
      weak_ptr.use_count]
  · rw [hweak]; rfl
  · rw [hweak]; exact neverInvokes_of_invalid _ _ (fun _ _ => rfl)

/-- C7: `call` passes the pointee itself. For a valid guard `g` (called through
either overload, the const one included) the callable receives a reference to the
pointee `g` guards. Called with the pointee alone, a callable that only looks at
it leaves the whole store as it was, and one that keeps the destructor count
keeps it through `call`: no pointee is constructed, destroyed or changed. With
further arguments, all guards valid, the same holds from the store the validity
check has left: that store is the one the check leaves on the plain arguments
alone, the guards and their pointees costing nothing, and it is the store the
call started in when the further arguments are all guards or are of a type
whose passing by value has no effect. What a callable assigns through its first
reference is assigned to the pointee `g` guards. -/
theorem call_passes_pointee_by_reference [PlainArg α V] {k : Kind} (g : ptr_guard k)
    (hk : k.dereferenceable = true) (h : Heap α) (args : List (Arg V))
    (hg : g.toBool h = true) (hargs : AllGuardsValid h args) :
    ∃ a, g.stored = some a ∧
      (∀ func : Func α V S, (∀ vals h0, (func vals h0).2 = h0) →
        (∃ r, g.call hk h func [] = some r ∧ invocations r.trace = 1 ∧
          Event.invoked [.ref a] ∈ r.trace ∧ r.heap = h) ∧
        (∃ r, g.call_const hk h func [] = some r ∧ invocations r.trace = 1 ∧
          Event.invoked [.ref a] ∈ r.trace ∧ r.heap = h)) ∧
      (∀ func : Func α V S,
        (∀ vals h0, (func vals h0).2.pointeeDestructorCalls = h0.pointeeDestructorCalls) →
        (∃ r, g.call hk h func [] = some r ∧
          r.heap.pointeeDestructorCalls = h.pointeeDestructorCalls) ∧
        (∃ r, g.call_const hk h func [] = some r ∧
          r.heap.pointeeDestructorCalls = h.pointeeDestructorCalls)) ∧
      (∀ func : Func α V S, (∀ vals h0, (func vals h0).2 = h0) →
        (∃ r, g.call hk h func args = some r ∧ invocations r.trace = 1 ∧
          r.heap = storeAfterCheck h args) ∧
        (∃ r, g.call_const hk h func args = some r ∧ invocations r.trace = 1 ∧
          r.heap = storeAfterCheck h args)) ∧
      (∀ func : Func α V S,
        (∀ vals h0, (func vals h0).2.pointeeDestructorCalls = h0.pointeeDestructorCalls) →
        (∃ r, g.call hk h func args = some r ∧
          r.heap.pointeeDestructorCalls = (storeAfterCheck h args).pointeeDestructorCalls) ∧
        (∃ r, g.call_const hk h func args = some r ∧
          r.heap.pointeeDestructorCalls = (storeAfterCheck h args).pointeeDestructorCalls)) ∧
      storeAfterCheck h args = storeAfterCheck h (args.filter (fun x => !x.isGuard)) ∧
      (((∀ x ∈ args, Arg.isGuard x = true) ∨ TriviallyCopied α V) →
        storeAfterCheck h args = h) ∧
      (∀ v : α,
        (∃ r, g.call hk h (assignThrough v : Func α V Unit) args = some r ∧
          r.heap = (storeAfterCheck h args).write a v ∧ r.heap.objects a = some v) ∧
        (∃ r, g.call_const hk h (assignThrough v : Func α V Unit) args = some r ∧
          r.heap = (storeAfterCheck h args).write a v ∧ r.heap.objects a = some v)) := by
  obtain ⟨a, hst⟩ := Option.isSome_iff_exists.mp ((toBool_eq_stored hk g h).symm.trans hg)
  have pick : ∀ (T : Type) (c : Bool) (func : Func α V T) (as : List (Arg V)),
      AllGuardsValid h as →
      ∃ rest, check_all_then_invoke h func (.guard c k hk g :: as) =
          some { value := (), heap := (func (.ref a :: rest) (storeAfterCheck h as)).2,
                 trace := (all_args_are_safe_to_dereference h 0 (.guard c k hk g :: as)).trace
                   ++ dereference_events 0 (.guard c k hk g :: as)
                   ++ [.invoked (.ref a :: rest)] } := by
    intro T c func as has
    obtain ⟨b, rest, hb, _, hrun⟩ :=
      check_all_then_invoke_receiver_valid h func c hk g as ⟨hg, has⟩
    have hab : b = a := Option.some.inj (hb.symm.trans hst)
    subst hab
    exact ⟨rest, hrun⟩
  have alone : ∀ (T : Type) (c : Bool) (func : Func α V T),
      check_all_then_invoke h func ([.guard c k hk g] : List (Arg V)) =
        some { value := (), heap := (func [.ref a] h).2,
               trace := [.tested 0 true, .dereferenced 0, .invoked [.ref a]] } :=
    fun T c func => call_of_stored g hk a hst h func c
  refine ⟨a, hst, ?_, ?_, ?_, ?_, storeAfterCheck_filter h args hargs, ?_, ?_⟩
  · intro func hpure
    exact ⟨⟨_, alone S false func, rfl, by simp, hpure _ _⟩,
           ⟨_, alone S true func, rfl, by simp, hpure _ _⟩⟩
  · intro func hkeep
    exact ⟨⟨_, alone S false func, hkeep _ _⟩, ⟨_, alone S true func, hkeep _ _⟩⟩
  · intro func hpure
    obtain ⟨rest1, h1⟩ := pick S false func args hargs
    obtain ⟨rest2, h2⟩ := pick S true func args hargs
    exact ⟨⟨_, h1, invocations_valid_trace h _ _, hpure _ _⟩,
           ⟨_, h2, invocations_valid_trace h _ _, hpure _ _⟩⟩
  · intro func hkeep
    obtain ⟨rest1, h1⟩ := pick S false func args hargs
    obtain ⟨rest2, h2⟩ := pick S true func args hargs
    exact ⟨⟨_, h1, hkeep _ _⟩, ⟨_, h2, hkeep _ _⟩⟩
  · rintro (hguards | htriv)
    · exact storeAfterCheck_guards h args hguards
    · exact storeAfterCheck_trivial htriv h args
  · intro v
    obtain ⟨rest1, h1⟩ := pick Unit false (assignThrough v) args hargs
    obtain ⟨rest2, h2⟩ := pick Unit true (assignThrough v) args hargs
    exact ⟨⟨_, h1, rfl, by simp [assignThrough, Heap.write]⟩,
           ⟨_, h2, rfl, by simp [assignThrough, Heap.write]⟩⟩

/-- Witness of C7: called through the const overload with the pointee alone, the
raw guard on address 1 lets the callable overwrite the pointee at address 1, with
no destructor call. -/
theorem call_passes_pointee_by_reference_witness :
    Kind.raw.dereferenceable = true ∧ rawGuard.toBool sampleHeap = true ∧
    AllGuardsValid sampleHeap ([] : List (Arg Int)) ∧
    ∃ r, rawGuard.call_const rfl sampleHeap
        (assignThrough { identifier := 9 } : Func Pointee Int Unit) [] = some r ∧
      r.heap = sampleHeap.write 1 { identifier := 9 } ∧
      r.heap.pointeeDestructorCalls = 0 :=
  ⟨rfl, by decide, allGuardsValid_nil sampleHeap,
    (call_passes_pointee_by_reference (S := Unit) rawGuard rfl sampleHeap ([] : List (Arg Int))
      (by decide) (allGuardsValid_nil sampleHeap)).elim
      (fun a ha => ((ha.2.2.2.2.2.2.2 { identifier := 9 }).2).elim
        (fun r hr =>
          have hheap : r.heap = sampleHeap.write 1 { identifier := 9 } :=
            hr.2.1.trans (congrArg (fun x => sampleHeap.write x { identifier := 9 })
              (Option.some.inj (ha.1.symm.trans rfl)))
          ⟨r, hr.1, hheap, by rw [hheap]; rfl⟩))⟩

/-- C8: after `reset()` a guard of any of the four kinds is empty, whatever it held:
its boolean conversion is false in every store, `call` on a raw, unique or shared
guard never invokes the callable, and a weak guard locks to an empty shared guard
on which `call` never invokes the callable. -/
theorem reset_leaves_guard_empty (h : Heap α) :
    (∀ (k : Kind) (g : ptr_guard k) (β : Type) (h2 : Heap β), (g.reset h).1.toBool h2 = false) ∧
    (∀ g : ptr_guard .raw, NeverInvokes (g.reset h).1 rfl) ∧
    (∀ g : ptr_guard .unique, NeverInvokes (g.reset h).1 rfl) ∧
    (∀ g : ptr_guard .shared, NeverInvokes (g.reset h).1 rfl) ∧
    (∀ (g : ptr_guard .weak) (β : Type) (h2 : Heap β),
      ((g.reset h).1.lock h2).1.toBool ((g.reset h).1.lock h2).2 = false ∧
      NeverInvokes ((g.reset h).1.lock h2).1 rfl) := by
  refine ⟨fun k g β h2 => toBool_reset g h h2, ?_, ?_, ?_, ?_⟩
  · exact fun g => neverInvokes_of_invalid _ _ (fun _ h2 => toBool_reset g h h2)
  · exact fun g => neverInvokes_of_invalid _ _ (fun _ h2 => toBool_reset g h h2)
  · exact fun g => neverInvokes_of_invalid _ _ (fun _ h2 => toBool_reset g h h2)
  · intro g β h2
    have hl := (lock_of_empty (g.reset h).1 rfl h2).1
    rw [hl]
    exact ⟨rfl, neverInvokes_of_invalid _ _ (fun _ _ => rfl)⟩

/-- C9: after `reset(p)` a raw, unique or shared guard guards `p`, whatever it held:
it stores `p`, its boolean conversion is true exactly when `p` is not null, `call`
never invokes the callable when `p` is null, and when `p` points to an object a
subsequent `call` (either overload) invokes the callable once on a reference to
that object. -/
theorem reset_to_guards_new_pointer {k : Kind} (g : ptr_guard k)
    (hr : k.resettableTo = true) (hd : k.dereferenceable = true) (h : Heap α)
    (p : Option Addr) :
    (g.reset_to hr h p).1.stored = p ∧
    ((g.reset_to hr h p).1.toBool (g.reset_to hr h p).2 = true ↔ p ≠ none) ∧
    (∀ (β : Type) (h2 : Heap β), (g.reset_to hr h p).1.toBool h2 = p.isSome) ∧
    (p = none → NeverInvokes (g.reset_to hr h p).1 hd) ∧
    (∀ a, p = some a → ∀ (β : Type) [PlainArg β V] (h2 : Heap β) (func : Func β V S),
      (g.reset_to hr h p).1.call hd h2 func [] =
        some { value := (), heap := (func [.ref a] h2).2,
               trace := [.tested 0 true, .dereferenced 0, .invoked [.ref a]] } ∧
      (g.reset_to hr h p).1.call_const hd h2 func [] =
        some { value := (), heap := (func [.ref a] h2).2,
               trace := [.tested 0 true, .dereferenced 0, .invoked [.ref a]] }) := by
  have hst := stored_reset_to g hr h p
  have hb : ∀ (β : Type) (h2 : Heap β), (g.reset_to hr h p).1.toBool h2 = p.isSome := by
    intro β h2
    rw [toBool_eq_stored hd, hst]
  refine ⟨hst, ?_, hb, ?_, ?_⟩
  · rw [hb]
    cases p <;> simp
  · intro hp
    subst hp
    exact neverInvokes_of_invalid _ _ (fun β h2 => hb β h2)
  · intro a hp β _ h2 func
    subst hp
    exact ⟨call_of_stored _ hd a hst h2 func false, call_of_stored _ hd a hst h2 func true⟩

/-- Witness of C9: the unique guard on address 2, reset to address 1, is valid and
stores address 1. -/
theorem reset_to_guards_new_pointer_witness :
    Kind.unique.resettableTo = true ∧ Kind.unique.dereferenceable = true ∧
    (uniqueGuard.reset_to rfl sampleHeap (some 1)).1.stored = some 1 ∧
    ((uniqueGuard.reset_to rfl sampleHeap (some 1)).1.toBool
      (uniqueGuard.reset_to rfl sampleHeap (some 1)).2 = true ↔ (some 1 : Option Addr) ≠ none) :=
  ⟨rfl, rfl,
    (reset_to_guards_new_pointer (V := Int) (S := Int) uniqueGuard rfl rfl sampleHeap (some 1)).1,
    (reset_to_guards_new_pointer (V := Int) (S := Int) uniqueGuard rfl rfl sampleHeap (some 1)).2.1⟩

/-- C10, as amended: `w.lock()` is the guard constructed on the result of locking
the guarded `weak_ptr`, and `w` keeps its validity. The returned shared guard is
valid exactly when `w` has not expired and the pointer it observes is not null; so
its boolean conversion equals that of `w` whenever the observed pointer is not
null. When `w` has not expired the returned guard stores the pointer `w` observes
and is one more owner of the block; when `w` has expired it is the empty guard
and the store is as it was. -/
theorem lock_guards_locked_pointer (h : Heap α) (w : ptr_guard .weak) :
    w.lock h = (ptr_guard.from_pointer (weak_ptr.lock h (w._ptr : weak_ptr)).1,
                (weak_ptr.lock h (w._ptr : weak_ptr)).2) ∧
    (w.lock h).1.toBool (w.lock h).2 = (w.toBool h && w.stored.isSome) ∧
    (w.stored ≠ none → (w.lock h).1.toBool (w.lock h).2 = w.toBool h) ∧
    w.toBool (w.lock h).2 = w.toBool h ∧
    (w.toBool h = true →
      (w.lock h).1.stored = w.stored ∧
      shared_ptr.use_count (w.lock h).2 ((w.lock h).1._ptr : shared_ptr)
        = weak_ptr.use_count h (w._ptr : weak_ptr) + 1) ∧
    (w.toBool h = false → w.lock h = (ptr_guard.default .shared, h)) := by
  obtain ⟨⟨p, c⟩⟩ := w
  have hbool : (ptr_guard.lock h ⟨(⟨p, c⟩ : weak_ptr)⟩).1.toBool
      (ptr_guard.lock h ⟨(⟨p, c⟩ : weak_ptr)⟩).2
        = (ptr_guard.toBool h (⟨(⟨p, c⟩ : weak_ptr)⟩ : ptr_guard .weak)
            && (ptr_guard.stored (⟨(⟨p, c⟩ : weak_ptr)⟩ : ptr_guard .weak)).isSome) := by
    cases c with
    | none =>
      simp [ptr_guard.lock, ptr_guard.from_pointer, weak_ptr.lock, weak_ptr.expired,
        weak_ptr.use_count, ptr_guard.toBool, test_ptr, shared_ptr.toBool]
    | some c =>
      by_cases hc : h.useCount c = 0
      · simp [ptr_guard.lock, ptr_guard.from_pointer, weak_ptr.lock, weak_ptr.expired,
          weak_ptr.use_count, ptr_guard.toBool, test_ptr, shared_ptr.toBool, hc]
      · simp [ptr_guard.lock, ptr_guard.from_pointer, weak_ptr.lock, weak_ptr.expired,
          weak_ptr.use_count, ptr_guard.toBool, test_ptr, shared_ptr.toBool, hc,
          ptr_guard.stored]
  refine ⟨rfl, hbool, ?_, ?_, ?_, ?_⟩
  · intro hp
    rw [hbool]
    cases hs : (ptr_guard.stored (⟨(⟨p, c⟩ : weak_ptr)⟩ : ptr_guard .weak)) with
    | none => exact absurd hs hp
    | some a => simp
  · cases c with
    | none => rfl
    | some c =>
      by_cases hc : h.useCount c = 0
      · simp [ptr_guard.lock, weak_ptr.lock, weak_ptr.expired, weak_ptr.use_count, hc]
      · simp [ptr_guard.lock, weak_ptr.lock, weak_ptr.expired, weak_ptr.use_count,
          ptr_guard.toBool, test_ptr, Heap.acquire, hc]
  · intro hv
    cases c with
    | none =>
      simp [ptr_guard.toBool, test_ptr, weak_ptr.expired, weak_ptr.use_count] at hv
    | some c =>
      have hc : ¬ h.useCount c = 0 := by
        simpa [ptr_guard.toBool, test_ptr, weak_ptr.expired, weak_ptr.use_count] using hv
      simp [ptr_guard.lock, ptr_guard.from_pointer, weak_ptr.lock, weak_ptr.expired,
        weak_ptr.use_count, shared_ptr.use_count, ptr_guard.stored, Heap.acquire, hc]
  · intro hv
    cases c with
    | none =>
      simp [ptr_guard.lock, ptr_guard.from_pointer, ptr_guard.default, Pointer.null,
        weak_ptr.lock, weak_ptr.expired, weak_ptr.use_count]
    | some c =>
      have hc : h.useCount c = 0 := by
        simpa [ptr_guard.toBool, test_ptr, weak_ptr.expired, weak_ptr.use_count] using hv
      simp [ptr_guard.lock, ptr_guard.from_pointer, ptr_guard.default, Pointer.null,
        weak_ptr.lock, weak_ptr.expired, weak_ptr.use_count, hc]

/-- Counterexample to C10 as stated: a weak guard observing a shared owner that was
constructed from a null pointer has not expired and converts to true, yet the
guard it locks to converts to false. -/
theorem lock_of_null_owner_is_invalid :
    weak_ptr.expired nullOwnerHeap (nullObserver._ptr : weak_ptr) = false ∧
    nullObserver.toBool nullOwnerHeap = true ∧
    (nullObserver.lock nullOwnerHeap).1.toBool (nullObserver.lock nullOwnerHeap).2 = false ∧
    (nullObserver.lock nullOwnerHeap).1.toBool (nullObserver.lock nullOwnerHeap).2
      ≠ nullObserver.toBool nullOwnerHeap := by
  decide

/-- C11: on a unique guard `release()` returns what `release` returns on the guarded
pointer, namely the pointer the guard held, which is not null when the guard was
valid; the guard is left empty; the store is not touched by the release, and the
destruction of the guard afterwards leaves the store as it was, so the pointee is
never destroyed (whereas destroying a valid guard that was not released runs the
pointee's destructor). -/
theorem release_returns_pointer_and_keeps_pointee (g : ptr_guard .unique) (h : Heap α) :
    (g.release rfl).1 = (unique_ptr.release (g._ptr : unique_ptr)).1 ∧
    (g.release rfl).1 = g.stored ∧
    (g.toBool h = true → (g.release rfl).1 ≠ none) ∧
    (g.release rfl).2 = ptr_guard.default .unique ∧
    (∀ (β : Type) (h2 : Heap β), (g.release rfl).2.toBool h2 = false) ∧
    (g.release rfl).2.destroy h = h ∧
    (∀ a, g.stored = some a →
      (g.destroy h).pointeeDestructorCalls = h.pointeeDestructorCalls + 1 ∧
      (g.destroy h).objects a = none) := by
  obtain ⟨⟨p⟩⟩ := g
  refine ⟨rfl, rfl, ?_, rfl, fun _ _ => rfl, rfl, ?_⟩
  · intro hv
    cases p with
    | none => simp [ptr_guard.toBool, test_ptr, unique_ptr.toBool] at hv
    | some a => simp [ptr_guard.release, release_ptr, unique_ptr.release]
  · intro a ha
    have hp : p = some a := ha
    subst hp
    simp [ptr_guard.destroy, Pointer.destroy, unique_ptr.destroy, Heap.delete]

/-- C12: for the kinds with `swap` (unique, shared, weak, not raw) `g.swap(other)`
exchanges the guarded pointers, with another guard as with a bare pointer of the
guarded type: afterwards `g` guards what `other` held and `other` holds what `g`
guarded, and each has the validity the other had. -/
theorem swap_exchanges_guarded_pointers {k : Kind} (g : ptr_guard k)
    (hk : ptr_guard.offers k .swap = true) (h : Heap α) :
    k ≠ .raw ∧
    (∀ other : ptr_guard k,
      (g.swap hk other).1 = other ∧ (g.swap hk other).2 = g ∧
      (g.swap hk other).1.stored = other.stored ∧ (g.swap hk other).2.stored = g.stored ∧
      (g.swap hk other).1.toBool h = other.toBool h ∧
      (g.swap hk other).2.toBool h = g.toBool h) ∧
    (∀ other : Pointer k,
      (g.swap_pointer hk other).1._ptr = other ∧ (g.swap_pointer hk other).2 = g._ptr ∧
      (g.swap_pointer hk other).1.toBool h = test_ptr h k other ∧
      test_ptr h k (g.swap_pointer hk other).2 = g.toBool h) := by
  cases k with
  | raw => simp [ptr_guard.offers, Kind.has] at hk
  | unique =>
    exact ⟨by decide, fun _ => ⟨rfl, rfl, rfl, rfl, rfl, rfl⟩, fun _ => ⟨rfl, rfl, rfl, rfl⟩⟩
  | shared =>
    exact ⟨by decide, fun _ => ⟨rfl, rfl, rfl, rfl, rfl, rfl⟩, fun _ => ⟨rfl, rfl, rfl, rfl⟩⟩
  | weak =>
    exact ⟨by decide, fun _ => ⟨rfl, rfl, rfl, rfl, rfl, rfl⟩, fun _ => ⟨rfl, rfl, rfl, rfl⟩⟩

/-- Witness of C12: swapping the unique guard on address 2 with an empty unique
guard leaves the first empty and the second on address 2. -/
theorem swap_exchanges_guarded_pointers_witness :
    ptr_guard.offers .unique .swap = true ∧
    (uniqueGuard.swap rfl emptyUniqueGuard).1 = emptyUniqueGuard ∧
    (uniqueGuard.swap rfl emptyUniqueGuard).2 = uniqueGuard :=
  ⟨rfl,
    ((swap_exchanges_guarded_pointers uniqueGuard rfl sampleHeap).2.1 emptyUniqueGuard).1,
    ((swap_exchanges_guarded_pointers uniqueGuard rfl sampleHeap).2.1 emptyUniqueGuard).2.1⟩

/-- C13: moving a unique or shared guard transfers the guarded pointer, in each of
the four ways: move construction from a guard, construction from a moved bare
pointer, move assignment from a guard, assignment from a moved bare pointer. The
target then holds the pointer the source held, guards the source's former pointee
and is valid exactly when the source was; the source is left empty. -/
theorem move_transfers_guarded_pointer {k : Kind} (hk : k = .unique ∨ k = .shared)
    (g src : ptr_guard k) (h : Heap α) :
    Transfers h h src (ptr_guard.move_construct src).1 (ptr_guard.move_construct src).2._ptr ∧
    Transfers h h src (ptr_guard.from_pointer_rvalue src._ptr).1
      (ptr_guard.from_pointer_rvalue src._ptr).2 ∧
    Transfers h (g.move_assign h src).2 src (g.move_assign h src).1.1
      (g.move_assign h src).1.2._ptr ∧
    Transfers h (g.assign_pointer_rvalue h src._ptr).2 src (g.assign_pointer_rvalue h src._ptr).1.1
      (g.assign_pointer_rvalue h src._ptr).1.2 := by
  rcases hk with rfl | rfl
  · exact ⟨⟨rfl, rfl, rfl, rfl, rfl⟩, ⟨rfl, rfl, rfl, rfl, rfl⟩, ⟨rfl, rfl, rfl, rfl, rfl⟩,
      ⟨rfl, rfl, rfl, rfl, rfl⟩⟩
  · exact ⟨⟨rfl, rfl, rfl, rfl, rfl⟩, ⟨rfl, rfl, rfl, rfl, rfl⟩, ⟨rfl, rfl, rfl, rfl, rfl⟩,
      ⟨rfl, rfl, rfl, rfl, rfl⟩⟩

/-- Witness of C13: move assigning the unique guard on address 2 to an empty unique
guard gives a guard on address 2 and leaves the source empty. -/
theorem move_transfers_guarded_pointer_witness :
    (Kind.unique = .unique ∨ Kind.unique = .shared) ∧
    (emptyUniqueGuard.move_assign sampleHeap uniqueGuard).1.1.stored = some 2 ∧
    (emptyUniqueGuard.move_assign sampleHeap uniqueGuard).1.2._ptr = Pointer.null .unique :=
  ⟨Or.inl rfl,
    (move_transfers_guarded_pointer (Or.inl rfl) emptyUniqueGuard uniqueGuard sampleHeap).2.2.1.2.1,
    (move_transfers_guarded_pointer (Or.inl rfl) emptyUniqueGuard uniqueGuard
      sampleHeap).2.2.1.2.2.2.1⟩

/-- C14, as amended: copying from a shared guard `src` that is a live owner of its
block. A copy constructed guard (from the guard or from the bare `shared_ptr`)
holds the pointer of the source, the use count is one higher while it exists, and
destroying it restores the store. A copy assigned guard (again from either) holds
the pointer of the source; the use count is one higher, and back to its former
value once the target is destroyed, when the target did not already share the
block, and it is unchanged when the target already shared it. A weak guard copied
from a weak guard, or made from the shared guard or its bare `shared_ptr`, observes
the same pointee and leaves the store, hence the use count and every validity, as
it was. -/
theorem copy_shares_guarded_pointer (g src : ptr_guard .shared) (w wsrc : ptr_guard .weak)
    (h : Heap α) (c : CtrlId) (hc : (src._ptr : shared_ptr).ctrl = some c)
    (hlive : 0 < h.useCount c) :
    ((src.copy_construct rfl h).1 = src ∧
      src.use_count rfl (src.copy_construct rfl h).2 = src.use_count rfl h + 1 ∧
      (src.copy_construct rfl h).1.destroy (src.copy_construct rfl h).2 = h) ∧
    ptr_guard.from_pointer_lvalue h src._ptr rfl = src.copy_construct rfl h ∧
    ((g.copy_assign rfl h src).1 = src ∧
      ((g._ptr : shared_ptr).ctrl ≠ some c →
        src.use_count rfl (g.copy_assign rfl h src).2 = src.use_count rfl h + 1 ∧
        src.use_count rfl ((g.copy_assign rfl h src).1.destroy (g.copy_assign rfl h src).2)
          = src.use_count rfl h) ∧
      ((g._ptr : shared_ptr).ctrl = some c →
        src.use_count rfl (g.copy_assign rfl h src).2 = src.use_count rfl h ∧
        (g.copy_assign rfl h src).2 = h)) ∧
    g.assign_pointer_lvalue rfl h src._ptr = g.copy_assign rfl h src ∧
    wsrc.copy_construct rfl h = (wsrc, h) ∧
    w.copy_assign rfl h wsrc = (wsrc, h) ∧
    ((ptr_guard.weak_from_guard src).stored = src.stored ∧
      (ptr_guard.weak_from_guard src).toBool h = true) ∧
    ptr_guard.weak_from_shared_pointer h (src._ptr : shared_ptr)
      = (ptr_guard.weak_from_guard src, h) ∧
    w.weak_assign_shared_pointer h (src._ptr : shared_ptr)
      = (ptr_guard.weak_from_guard src, h) := by
  obtain ⟨⟨sp, sc⟩⟩ := src
  obtain ⟨⟨gp, gc⟩⟩ := g
  simp only at hc
  subst hc
  have hback := dropShare_acquire h c hlive
  refine ⟨⟨rfl, ?_, hback⟩, rfl, ⟨rfl, ?_, ?_⟩, rfl, rfl, rfl, ⟨rfl, ?_⟩, ?_, ?_⟩
  · simp [ptr_guard.use_count, get_use_count, shared_ptr.use_count, ptr_guard.copy_construct,
      Pointer.copy_construct, shared_ptr.copy, useCount_acquire]
  · intro hne
    cases gc with
    | none =>
      simp [ptr_guard.use_count, get_use_count, shared_ptr.use_count, ptr_guard.copy_assign,
        Pointer.copy_assign, shared_ptr.copy_assign, shared_ptr.copy, shared_ptr.swap,
        shared_ptr.destroy, dropShare_none, useCount_dropShare, useCount_acquire,
        ptr_guard.destroy, Pointer.destroy]
    | some c2 =>
      have hcc : c ≠ c2 := fun e => hne (by rw [e])
      simp [ptr_guard.use_count, get_use_count, shared_ptr.use_count, ptr_guard.copy_assign,
        Pointer.copy_assign, shared_ptr.copy_assign, shared_ptr.copy, shared_ptr.swap,
        shared_ptr.destroy, useCount_dropShare, useCount_acquire, ptr_guard.destroy,
        Pointer.destroy, hcc]
  · intro heq
    simp only at heq
    subst heq
    have hst : (ptr_guard.copy_assign (⟨(⟨gp, some c⟩ : shared_ptr)⟩ : ptr_guard .shared) rfl h
        (⟨(⟨sp, some c⟩ : shared_ptr)⟩ : ptr_guard .shared)).2 = h := hback
    exact ⟨by rw [hst], hst⟩
  · have hne : ¬ h.useCount c = 0 := by omega
    simp [ptr_guard.weak_from_guard, access_guarded_pointer, weak_ptr.ofShared,
      ptr_guard.toBool, test_ptr, weak_ptr.expired, weak_ptr.use_count, hne]
  · exact Prod.ext rfl hback
  · exact Prod.ext rfl hback

/-- Witness of C14: a copy constructed from the shared owner of the pointee at
address 1 raises the use count from 1 to 2. -/
theorem copy_shares_guarded_pointer_witness :
    (sharedOwner._ptr : shared_ptr).ctrl = some 0 ∧ 0 < sharedOwnerHeap.useCount 0 ∧
    sharedOwner.use_count rfl (sharedOwner.copy_construct rfl sharedOwnerHeap).2
      = sharedOwner.use_count rfl sharedOwnerHeap + 1 :=
  ⟨rfl, by decide,
    (copy_shares_guarded_pointer emptySharedGuard sharedOwner nullObserver nullObserver
      sharedOwnerHeap 0 rfl (by decide)).1.2.1⟩

/-- Counterexample to C14 as stated: copy assigning the shared owner to a guard that
is already a copy of it leaves the use count at 2; it is not one higher. -/
theorem copy_assign_to_sharer_keeps_use_count :
    sharedOwner.use_count rfl sharedCopyHeap = 2 ∧
    (sharedCopy.copy_assign rfl sharedCopyHeap sharedOwner).1 = sharedOwner ∧
    sharedOwner.use_count rfl (sharedCopy.copy_assign rfl sharedCopyHeap sharedOwner).2 = 2 ∧
    sharedOwner.use_count rfl (sharedCopy.copy_assign rfl sharedCopyHeap sharedOwner).2
      ≠ sharedOwner.use_count rfl sharedCopyHeap + 1 :=
  ⟨by decide, rfl, by decide, by decide⟩

/-- C15: ownership is that of the guarded pointer. A unique guard `u` holding the
pointee at `a`, and a shared guard `s` that is the sole owner of the block
managing the pointee at `b` it holds, destroy exactly that pointee, once, and no
other, when they are reset, reset to another pointer, assigned `nullptr`, or
assigned another guard or bare pointer (moved, and for the shared kind also
copied) that does not share the block. A raw guard `r` leaves the store as it is
under all of these and under its own destruction. -/
theorem ownership_is_inherited (u usrc : ptr_guard .unique) (s ssrc : ptr_guard .shared)
    (r rsrc : ptr_guard .raw) (h : Heap α) (p : Option Addr) (a b : Addr) (c : CtrlId)
    (hu : u.stored = some a)
    (hs : s.stored = some b) (hc : (s._ptr : shared_ptr).ctrl = some c)
    (hsole : h.useCount c = 1) (hman : h.managed c = s.stored) (halloc : c < h.nextCtrl)
    (hother : (ssrc._ptr : shared_ptr).ctrl ≠ some c) :
    (DestroysExactly h (u.reset h).2 a ∧
      DestroysExactly h (u.reset_to rfl h p).2 a ∧
      DestroysExactly h (u.assign_nullptr rfl h).2 a ∧
      DestroysExactly h (u.move_assign h usrc).2 a ∧
      DestroysExactly h (u.assign_pointer_rvalue h usrc._ptr).2 a) ∧
    (DestroysExactly h (s.reset h).2 b ∧
      DestroysExactly h (s.reset_to rfl h p).2 b ∧
      DestroysExactly h (s.assign_nullptr rfl h).2 b ∧
      DestroysExactly h (s.move_assign h ssrc).2 b ∧
      DestroysExactly h (s.copy_assign rfl h ssrc).2 b ∧
      DestroysExactly h (s.assign_pointer_rvalue h ssrc._ptr).2 b ∧
      DestroysExactly h (s.assign_pointer_lvalue rfl h ssrc._ptr).2 b) ∧
    ((r.reset h).2 = h ∧ (r.reset_to rfl h p).2 = h ∧ (r.assign_nullptr rfl h).2 = h ∧
      (r.move_assign h rsrc).2 = h ∧ (r.copy_assign rfl h rsrc).2 = h ∧
      (r.assign_pointer_rvalue h rsrc._ptr).2 = h ∧
      (r.assign_pointer_lvalue rfl h rsrc._ptr).2 = h ∧ r.destroy h = h) := by
  obtain ⟨⟨up⟩⟩ := u
  obtain ⟨⟨sp, sc⟩⟩ := s
  obtain ⟨⟨qp, qc⟩⟩ := ssrc
  have hup : up = some a := hu
  have hsc : sc = some c := hc
  subst hup hsc
  have hmb : h.managed c = some b := hman.trans hs
  have base : DestroysExactly h (h.dropShare (some c)) b :=
    dropShare_sole h h c b hsole hmb rfl rfl
  have copied : DestroysExactly h ((h.acquire qc).dropShare (some c)) b := by
    cases qc with
    | none => exact base
    | some c2 =>
      have hcc : c ≠ c2 := fun e => hother (by rw [e])
      exact dropShare_sole h _ c b (by simp [useCount_acquire, hcc, hsole]) hmb rfl rfl
  have fresh : DestroysExactly h ((h.newCtrl p).2.dropShare (some c)) b := by
    have hne : c ≠ h.nextCtrl := Nat.ne_of_lt halloc
    exact dropShare_sole h _ c b (by simp [Heap.newCtrl, hne, hsole])
      (by simp [Heap.newCtrl, hne, hmb]) rfl rfl
  have del := destroysExactly_delete h a
  exact ⟨⟨del, del, del, del, del⟩,
    ⟨base, fresh, base, base, copied, base, copied⟩,
    ⟨rfl, rfl, rfl, rfl, rfl, rfl, rfl, rfl⟩⟩

/-- Witness of C15: the unique guard on address 2 and the shared owner of the
pointee at address 1, in the store where that owner is alone, each destroy
exactly their pointee on `reset()`. -/
theorem ownership_is_inherited_witness :
    uniqueGuard.stored = some 2 ∧ sharedOwner.stored = some 1 ∧
    (sharedOwner._ptr : shared_ptr).ctrl = some 0 ∧ sharedOwnerHeap.useCount 0 = 1 ∧
    sharedOwnerHeap.managed 0 = sharedOwner.stored ∧ 0 < sharedOwnerHeap.nextCtrl ∧
    (emptySharedGuard._ptr : shared_ptr).ctrl ≠ some 0 ∧
    DestroysExactly sharedOwnerHeap (uniqueGuard.reset sharedOwnerHeap).2 2 ∧
    DestroysExactly sharedOwnerHeap (sharedOwner.reset sharedOwnerHeap).2 1 :=
  ⟨rfl, rfl, rfl, by decide, by decide, by decide, by decide,
    (ownership_is_inherited uniqueGuard emptyUniqueGuard sharedOwner emptySharedGuard
      rawGuard nullGuard sharedOwnerHeap none 2 1 0 rfl rfl rfl (by decide) (by decide)
      (by decide) (by decide)).1.1,
    (ownership_is_inherited uniqueGuard emptyUniqueGuard sharedOwner emptySharedGuard
      rawGuard nullGuard sharedOwnerHeap none 2 1 0 rfl rfl rfl (by decide) (by decide)
      (by decide) (by decide)).2.1.1⟩

/-- C16, as amended: among the four kinds the guard offers `release` exactly for the
unique kind, `lock` exactly for the weak kind, and `use_count` exactly for the
shared and the weak kind; each of the three is offered exactly when the guarded
pointer has that member, and on a weak guard `use_count()` is the `use_count()` of
the guarded `weak_ptr`. -/
theorem guard_offers_members_of_pointer (k : Kind) :
    (ptr_guard.offers k .release = true ↔ k = .unique) ∧
    (ptr_guard.offers k .lock = true ↔ k = .weak) ∧
    (ptr_guard.offers k .use_count = true ↔ (k = .shared ∨ k = .weak)) ∧
    ptr_guard.offers k .release = k.has .release ∧
    ptr_guard.offers k .lock = k.has .lock ∧
    ptr_guard.offers k .use_count = k.has .use_count ∧
    (∀ (w : ptr_guard .weak) (α : Type) (h : Heap α),
      w.use_count rfl h = weak_ptr.use_count h (w._ptr : weak_ptr)) ∧
    (∀ (s : ptr_guard .shared) (α : Type) (h : Heap α),
      s.use_count rfl h = shared_ptr.use_count h (s._ptr : shared_ptr)) := by
  refine ⟨?_, ?_, ?_, rfl, rfl, rfl, fun _ _ _ => rfl, fun _ _ _ => rfl⟩ <;>
    cases k <;> simp [ptr_guard.offers, Kind.has]

/-- Counterexample to C16 as stated: the guard over a weak reference, which is not
the shared-owning kind, offers `use_count`; on the weak guard that observes
`nullOwner` it returns 1. -/
theorem weak_guard_offers_use_count :
    ptr_guard.offers .weak .use_count = true ∧ Kind.weak ≠ Kind.shared ∧
    nullObserver.use_count rfl nullOwnerHeap = 1 := by
  decide

/-- C17, as amended: `reset` is offered by the guard for every kind, the raw pointer
included, for which the guard supplies it (`reset()` stores `nullptr`, `reset(p)`
stores `p`, the store untouched) although a raw pointer has no `reset`. Apart from
that and from the boolean conversion of a weak guard, every forwarded member the
guard offers for a kind is a member of that pointer kind. -/
theorem guard_surface_and_pointer_surface (k : Kind) (m : Member) :
    ptr_guard.offers k .reset = true ∧
    (ptr_guard.offers k m = true →
      k.has m = true ∨ (k = .raw ∧ m = .reset) ∨ (k = .weak ∧ m = .to_bool)) ∧
    (k.has m = true → ptr_guard.offers k m = true) ∧
    (∀ (g : ptr_guard .raw) (α : Type) (h : Heap α) (p : Option Addr),
      g.reset h = ({ _ptr := (none : Option Addr) }, h) ∧
      g.reset_to rfl h p = ({ _ptr := p }, h)) := by
  refine ⟨?_, ?_, ?_, fun _ _ _ _ => ⟨rfl, rfl⟩⟩
  · cases k <;> rfl
  · cases k <;> cases m <;> simp [ptr_guard.offers, Kind.has]
  · cases k <;> cases m <;> simp [ptr_guard.offers, Kind.has]

/-- Counterexample to C17 as stated: a raw pointer has no `reset`, yet the guard
over it offers `reset`: `reset()` empties the raw guard on address 1 and
`reset(p)` makes the null raw guard guard address 1. -/
theorem raw_guard_offers_reset :
    Kind.raw.has .reset = false ∧ ptr_guard.offers .raw .reset = true ∧
    (rawGuard.reset sampleHeap).1.stored = none ∧
    (nullGuard.reset_to rfl sampleHeap (some 1)).1.stored = some 1 := by
  decide

/-- C18, the code at the failing input: constructing a guard from an rvalue guard
through `ptr_guard(ptr_guard<P>&& other)` copies. From the sole shared owner of the
pointee at address 1 the new guard holds that pointee, but the source is still
valid and the use count has gone from 1 to 2; the implicit move constructor, on
the same source, leaves it empty with the use count at 1. -/
theorem converting_move_constructor_copies :
    sharedOwner.use_count rfl sharedOwnerHeap = 1 ∧
    (sharedOwner.from_guard_rvalue rfl sharedOwnerHeap).1.1.stored = some 1 ∧
    (sharedOwner.from_guard_rvalue rfl sharedOwnerHeap).1.2.toBool
      (sharedOwner.from_guard_rvalue rfl sharedOwnerHeap).2 = true ∧
    sharedOwner.use_count rfl (sharedOwner.from_guard_rvalue rfl sharedOwnerHeap).2 = 2 ∧
    (ptr_guard.move_construct sharedOwner).1.stored = some 1 ∧
    (ptr_guard.move_construct sharedOwner).2.toBool sharedOwnerHeap = false := by
  decide

/-- C19, as amended: `call_or` with an `unsigned` default `d` passed as a temporary
(as the `0u` of the tests is) and a callable that returns the `int` `v` has a
result of the type of the default. On a valid guard with valid guard arguments
the result read back as an `int` is `v`, negative or not; otherwise the result is
`d`, which reads back as an `int` as `d` itself when `d` is below 2^31 and as `d`
minus 2^32 from there on. -/
theorem call_or_with_unsigned_default [PlainArg α V] {k : Kind} (g : ptr_guard k)
    (hk : k.dereferenceable = true) (h : Heap α) (func : Func α V Int) (d : Nat)
    (args : List (Arg V)) (v : Int)
    (hlo : -2147483648 ≤ v) (hhi : v < 2147483648) (hd : d < 4294967296)
    (hf : ∀ vals h0, (func vals h0).1 = v) :
    ((g.toBool h = true ∧ AllGuardsValid h args) →
      (∃ r, g.call_or hk int_to_unsigned h func d args = some r ∧
        unsigned_to_int r.value = v) ∧
      (∃ r, g.call_or_const hk int_to_unsigned h func d args = some r ∧
        unsigned_to_int r.value = v)) ∧
    (¬ (g.toBool h = true ∧ AllGuardsValid h args) →
      (∃ r, g.call_or hk int_to_unsigned h func d args = some r ∧ r.value = d ∧
        unsigned_to_int r.value = if d < 2147483648 then (d : Int) else (d : Int) - 4294967296) ∧
      (∃ r, g.call_or_const hk int_to_unsigned h func d args = some r ∧ r.value = d ∧
        unsigned_to_int r.value
          = if d < 2147483648 then (d : Int) else (d : Int) - 4294967296)) := by
  have good : ∀ c : Bool, (g.toBool h = true ∧ AllGuardsValid h args) →
      ∃ r, check_all_then_invoke_or_default int_to_unsigned h func (.temporary d)
          (.guard c k hk g :: args) = some r ∧ unsigned_to_int r.value = v := by
    intro c hv
    rw [← allGuardsValid_guard_cons h c k hk g args] at hv
    obtain ⟨vals, _, _, hrun⟩ :=
      check_all_then_invoke_or_default_valid int_to_unsigned h func d _ hv
    refine ⟨_, hrun, ?_⟩
    simp only [hf]
    exact unsigned_to_int_int_to_unsigned v hlo hhi
  have bad : ∀ c : Bool, ¬ (g.toBool h = true ∧ AllGuardsValid h args) →
      ∃ r, check_all_then_invoke_or_default int_to_unsigned h func (.temporary d)
          (.guard c k hk g :: args) = some r ∧ r.value = d ∧
        unsigned_to_int r.value
          = if d < 2147483648 then (d : Int) else (d : Int) - 4294967296 := by
    intro c hn
    rw [← allGuardsValid_guard_cons h c k hk g args] at hn
    exact ⟨_, check_all_then_invoke_or_default_invalid int_to_unsigned h func d _ hn, rfl,
      unsigned_to_int_of_lt d hd⟩
  exact ⟨fun hv => ⟨good false hv, good true hv⟩, fun hn => ⟨bad false hn, bad true hn⟩⟩

/-- Witness of C19: a callable returning -1 on the valid raw guard, with the
default `0u`, gives back -1. -/
theorem call_or_with_unsigned_default_witness :
    Kind.raw.dereferenceable = true ∧ (-2147483648 : Int) ≤ -1 ∧ (-1 : Int) < 2147483648 ∧
    (0 : Nat) < 4294967296 ∧
    (∃ r, rawGuard.call_or rfl int_to_unsigned sampleHeap
        (fun _ h0 => ((-1 : Int), h0) : Func Pointee Int Int) 0 validPack = some r ∧
      unsigned_to_int r.value = -1) :=
  ⟨rfl, by decide, by decide, by decide,
    ((call_or_with_unsigned_default rawGuard rfl sampleHeap
        (fun _ h0 => ((-1 : Int), h0) : Func Pointee Int Int) 0 validPack (-1)
        (by decide) (by decide) (by decide) (fun _ _ => rfl)).1
      ⟨by decide, (all_safe_iff sampleHeap validPack 0).mp (by decide)⟩).1⟩

/-- Counterexample to C19 as stated: on the null raw guard, with the default
`4294967295u`, the value received back as an `int` is -1, not 4294967295. -/
theorem call_or_default_reads_back_negative :
    (nullGuard.call_or rfl int_to_unsigned sampleHeap returnOne 4294967295 validPack).map
        (fun r => r.value) = some 4294967295 ∧
    (nullGuard.call_or rfl int_to_unsigned sampleHeap returnOne 4294967295 validPack).map
        (fun r => unsigned_to_int r.value) = some (-1) ∧
    ((-1 : Int) ≠ ((4294967295 : Nat) : Int)) := by
  decide

/-- C20: the const and the non-const overload of `call`, and those of `call_or`, run
alike: for the same guard, store, callable, default and arguments the two runs are
equal, so they invoke the callable under the same condition, on the same
references, and return the same result and store. -/
theorem const_and_mutable_overloads_agree [PlainArg α V] {k : Kind} (g : ptr_guard k)
    (hk : k.dereferenceable = true) (conv : S → R) (h : Heap α) (func : Func α V S)
    (dflt : R) (args : List (Arg V)) :
    g.call hk h func args = g.call_const hk h func args ∧
    g.call_or hk conv h func dflt args = g.call_or_const hk conv h func dflt args :=
  ⟨check_all_then_invoke_binding h func hk g args,
   check_all_then_invoke_or_default_binding conv h func dflt hk g args⟩

/-- Witness of C20: on the raw guard and the pack with a null guard in it, both
overloads of `call_or` return the default. -/
theorem const_and_mutable_overloads_agree_witness :
    Kind.raw.dereferenceable = true ∧
    rawGuard.call_or rfl id sampleHeap returnOne 0 mixedPack
      = rawGuard.call_or_const rfl id sampleHeap returnOne 0 mixedPack :=
  ⟨rfl, (const_and_mutable_overloads_agree rawGuard rfl id sampleHeap returnOne 0 mixedPack).2⟩

/-- C21: whether `call` or `call_or` invokes the callable depends only on the set of
guards involved, the receiver among them: two calls whose packs involve the same
guards invoke equally often. Reordering the arguments, inserting or removing plain
arguments, and passing again a guard that is already involved (the receiver
included) all keep the set of guards. In a run that invokes, every occurrence of
a guard is replaced by a reference to the pointee that guard stores, hence all
occurrences of one guard by the same pointee. -/
theorem decision_depends_on_guards_only [PlainArg α V] {k k2 : Kind} (g : ptr_guard k)
    (hk : k.dereferenceable = true) (g2 : ptr_guard k2) (hk2 : k2.dereferenceable = true)
    (conv : S → R) (h : Heap α) (func func2 : Func α V S) (dflt : R)
    (args args2 : List (Arg V))
    (hsame : SameGuards (Arg.guard false k hk g :: args) (Arg.guard false k2 hk2 g2 :: args2)) :
    (∃ r r2, g.call hk h func args = some r ∧ g2.call hk2 h func2 args2 = some r2 ∧
      invocations r.trace = invocations r2.trace) ∧
    (∃ r r2, g.call_or hk conv h func dflt args = some r ∧
      g2.call_or hk2 conv h func2 dflt args2 = some r2 ∧
      invocations r.trace = invocations r2.trace) ∧
    (∀ args3 : List (Arg V), args.Perm args3 →
      SameGuards (Arg.guard false k hk g :: args) (Arg.guard false k hk g :: args3)) ∧
    (∀ args3 : List (Arg V), args3.filter Arg.isGuard = args.filter Arg.isGuard →
      SameGuards (Arg.guard false k hk g :: args) (Arg.guard false k hk g :: args3)) ∧
    (∀ x : Arg V, x ∈ Arg.guard false k hk g :: args →
      SameGuards (Arg.guard false k hk g :: args) (Arg.guard false k hk g :: x :: args)) ∧
    (∀ (r : Run α V Unit) (vals : List (Val V)), g.call hk h func args = some r →
      Event.invoked vals ∈ r.trace →
      ∀ (i : Nat) (c3 : Bool) (k3 : Kind) (hk3 : k3.dereferenceable = true) (g3 : ptr_guard k3),
        (Arg.guard false k hk g :: args)[i]? = some (Arg.guard c3 k3 hk3 g3) →
        ∃ a, g3.stored = some a ∧ vals[i]? = some (Val.ref a)) ∧
    (∀ (r : Run α V R) (vals : List (Val V)),
      g.call_or hk conv h func dflt args = some r → Event.invoked vals ∈ r.trace →
      ∀ (i : Nat) (c3 : Bool) (k3 : Kind) (hk3 : k3.dereferenceable = true) (g3 : ptr_guard k3),
        (Arg.guard false k hk g :: args)[i]? = some (Arg.guard c3 k3 hk3 g3) →
        ∃ a, g3.stored = some a ∧ vals[i]? = some (Val.ref a)) := by
  have hiff := allGuardsValid_of_sameGuards h _ _ hsame
  refine ⟨?_, ?_, ?_, ?_, ?_, ?_, ?_⟩
  · obtain ⟨r, hr, r1, r0⟩ := check_all_then_invoke_count h func (Arg.guard false k hk g :: args)
    obtain ⟨s, hs, s1, s0⟩ :=
      check_all_then_invoke_count h func2 (Arg.guard false k2 hk2 g2 :: args2)
    refine ⟨r, s, hr, hs, ?_⟩
    by_cases hv : AllGuardsValid h (Arg.guard false k hk g :: args)
    · rw [r1 hv, s1 (hiff.mp hv)]
    · rw [r0 hv, s0 (fun hv2 => hv (hiff.mpr hv2))]
  · obtain ⟨r, hr, r1, r0⟩ :=
      check_all_then_invoke_or_default_count conv h func dflt (Arg.guard false k hk g :: args)
    obtain ⟨s, hs, s1, s0⟩ :=
      check_all_then_invoke_or_default_count conv h func2 dflt
        (Arg.guard false k2 hk2 g2 :: args2)
    refine ⟨r, s, hr, hs, ?_⟩
    by_cases hv : AllGuardsValid h (Arg.guard false k hk g :: args)
    · rw [r1 hv, s1 (hiff.mp hv)]
    · rw [r0 hv, s0 (fun hv2 => hv (hiff.mpr hv2))]
  · intro args3 hperm
    apply sameGuards_of_mem_iff
    intro x _
    simp only [List.mem_cons, hperm.mem_iff]
  · intro args3 hfilter
    apply sameGuards_of_mem_iff
    intro x hx
    have h1 : x ∈ args ↔ x ∈ args.filter Arg.isGuard := by simp [List.mem_filter, hx]
    have h3 : x ∈ args3 ↔ x ∈ args3.filter Arg.isGuard := by simp [List.mem_filter, hx]
    simp only [List.mem_cons, h1, h3, hfilter]
  · intro x hx
    apply sameGuards_of_mem_iff
    intro y _
    simp only [List.mem_cons] at hx ⊢
    constructor
    · rintro (hy | hy)
      · exact Or.inl hy
      · exact Or.inr (Or.inr hy)
    · rintro (hy | hy | hy)
      · exact Or.inl hy
      · rw [hy]; exact hx
      · exact Or.inr hy
  · intro r vals hr hmem
    exact check_all_then_invoke_occurrences h func _ r vals hr hmem
  · intro r vals hr hmem
    exact check_all_then_invoke_or_default_occurrences conv h func dflt _ r vals hr hmem

/-- Witness of C21: the raw guard called with `1, uniqueGuard, 2` and with the same
arguments in reverse order invokes equally often. -/
theorem decision_depends_on_guards_only_witness :
    Kind.raw.dereferenceable = true ∧
    SameGuards (Arg.guard false .raw rfl rawGuard :: validPack)
      (Arg.guard false .raw rfl rawGuard :: validPack.reverse) ∧
    ∃ r r2, rawGuard.call rfl sampleHeap returnOne validPack = some r ∧
      rawGuard.call rfl sampleHeap returnOne validPack.reverse = some r2 ∧
      invocations r.trace = invocations r2.trace :=
  have hsame : SameGuards (Arg.guard false .raw rfl rawGuard :: validPack)
      (Arg.guard false .raw rfl rawGuard :: validPack.reverse) :=
    sameGuards_of_mem_iff _ _ (fun x _ => by simp only [List.mem_cons, List.mem_reverse])
  ⟨rfl, hsame,
    (decision_depends_on_guards_only rawGuard rfl rawGuard rfl id sampleHeap returnOne returnOne
      0 validPack validPack.reverse hsame).1⟩

/-- C22: on a raw guard assignment and reset agree. For every pointer `p` the
assignment `g = p` (the body of `operator=(P)`, and with it the assignment from an
lvalue or an rvalue pointer) leaves the guard and the store exactly as `g.reset(p)`
does, the guard storing `p`; `g = nullptr` leaves them exactly as `g.reset()` does,
the guard being the empty one, invalid in every store. -/
theorem raw_assignment_and_reset_agree (g : ptr_guard .raw) (h : Heap α) (p : Option Addr) :
    g.assign h p = g.reset_to rfl h p ∧
    g.assign_pointer_lvalue rfl h p = g.reset_to rfl h p ∧
    ((g.assign_pointer_rvalue h p).1.1, (g.assign_pointer_rvalue h p).2) = g.reset_to rfl h p ∧
    g.reset_to rfl h p = ({ _ptr := p }, h) ∧
    (g.reset_to rfl h p).1.stored = p ∧
    g.assign_nullptr rfl h = g.reset h ∧
    g.reset h = (ptr_guard.default .raw, h) ∧
    (∀ (β : Type) (h2 : Heap β),
      (g.assign_nullptr rfl h).1.toBool h2 = false ∧ (g.reset h).1.toBool h2 = false) :=
  ⟨rfl, rfl, rfl, rfl, rfl, rfl, rfl, fun _ _ => ⟨rfl, rfl⟩⟩

/-- C23: `call` and `call_or` (either overload) change no guard. The receiver and
the guard-typed arguments are objects of the store, handed to the protocol by
reference; every reference refers to a guard, and passing a plain argument by
value leaves these objects alone. Then every run is defined, and after it,
whether or not the callable was invoked, and provided the callable, on the
arguments it was invoked on, left these objects alone, the receiver and every
guard-typed argument are the objects they were: each holds the pointer it held
and is as valid as it was. -/
theorem call_leaves_guards_unchanged [PlainArg α V] (view : α → Option GuardObject)
    (self : Addr) (conv : S → R) (h : Heap α) (func : Func α V S) (dflt : R)
    (args : List (RefArg V))
    (hrefs : ∀ loc ∈ self :: guardRefs args, (guardAt view h loc).isSome = true)
    (hkept : ∀ loc ∈ self :: guardRefs args, KeptByCopies α V loc) :
    (∃ r, ByReference.call view self h func args = some r) ∧
    (∃ r, ByReference.call_const view self h func args = some r) ∧
    (∃ r, ByReference.call_or view self conv h func dflt args = some r) ∧
    (∃ r, ByReference.call_or_const view self conv h func dflt args = some r) ∧
    (∀ r : Run α V Unit,
      (ByReference.call view self h func args = some r ∨
        ByReference.call_const view self h func args = some r) →
      (∀ vals, Event.invoked vals ∈ r.trace → ∀ loc ∈ self :: guardRefs args,
        ∀ h0, (func vals h0).2.objects loc = h0.objects loc) →
      GuardsUnchanged view (self :: guardRefs args) h r.heap) ∧
    (∀ r : Run α V R,
      (ByReference.call_or view self conv h func dflt args = some r ∨
        ByReference.call_or_const view self conv h func dflt args = some r) →
      (∀ vals, Event.invoked vals ∈ r.trace → ∀ loc ∈ self :: guardRefs args,
        ∀ h0, (func vals h0).2.objects loc = h0.objects loc) →
      GuardsUnchanged view (self :: guardRefs args) h r.heap) := by
  have packs : ∀ c : Bool, ∃ pack,
      resolvePack view h (RefArg.guard c self :: args) = some pack :=
    fun c => resolvePack_defined view h _ hrefs
  have void : ∀ c : Bool,
      (∃ r, ByReference.check_all_then_invoke view h func (.guard c self :: args) = some r) ∧
      ∀ r : Run α V Unit,
        ByReference.check_all_then_invoke view h func (.guard c self :: args) = some r →
        (∀ vals, Event.invoked vals ∈ r.trace → ∀ loc ∈ self :: guardRefs args,
          ∀ h0, (func vals h0).2.objects loc = h0.objects loc) →
        GuardsUnchanged view (self :: guardRefs args) h r.heap := by
    intro c
    obtain ⟨pack, hpack⟩ := packs c
    rw [byref_check_all_then_invoke view h func _ pack hpack hkept]
    obtain ⟨r0, hr0, _⟩ := check_all_then_invoke_count h func pack
    refine ⟨⟨r0, hr0⟩, fun r hr hfunc => ?_⟩
    exact guardsUnchanged_of_objects view _ h r.heap (fun loc hloc =>
      check_all_then_invoke_objects h func pack r hr loc (hkept loc hloc)
        (fun vals hmem h0 => hfunc vals hmem loc hloc h0))
  have valued : ∀ c : Bool,
      (∃ r, ByReference.check_all_then_invoke_or_default view conv h func (.temporary dflt)
        (.guard c self :: args) = some r) ∧
      ∀ r : Run α V R,
        ByReference.check_all_then_invoke_or_default view conv h func (.temporary dflt)
          (.guard c self :: args) = some r →
        (∀ vals, Event.invoked vals ∈ r.trace → ∀ loc ∈ self :: guardRefs args,
          ∀ h0, (func vals h0).2.objects loc = h0.objects loc) →
        GuardsUnchanged view (self :: guardRefs args) h r.heap := by
    intro c
    obtain ⟨pack, hpack⟩ := packs c
    rw [byref_check_all_then_invoke_or_default view conv h func _ _ pack hpack hkept]
    obtain ⟨r0, hr0, _⟩ := check_all_then_invoke_or_default_count conv h func dflt pack
    refine ⟨⟨r0, hr0⟩, fun r hr hfunc => ?_⟩
    exact guardsUnchanged_of_objects view _ h r.heap (fun loc hloc =>
      check_all_then_invoke_or_default_objects conv h func dflt pack r hr loc (hkept loc hloc)
        (fun vals hmem h0 => hfunc vals hmem loc hloc h0))
  refine ⟨(void false).1, (void true).1, (valued false).1, (valued true).1, ?_, ?_⟩
  · intro r hr hfunc
    rcases hr with hr | hr
    · exact (void false).2 r hr hfunc
    · exact (void true).2 r hr hfunc
  · intro r hr hfunc
    rcases hr with hr | hr
    · exact (valued false).2 r hr hfunc
    · exact (valued true).2 r hr hfunc

/-- Witness of C23: the guard object at address 10, a raw guard on the pointee at
address 1, is called with the pack `1, *11, 2` and a callable that overwrites the
pointee. The pointee is overwritten, and the guard objects at 10 and 11 are what
they were. -/
theorem call_leaves_guards_unchanged_witness :
    (∀ loc ∈ 10 :: guardRefs cellPack, (guardAt Cell.view cellHeap loc).isSome = true) ∧
    (∀ loc ∈ 10 :: guardRefs cellPack, KeptByCopies Cell Int loc) ∧
    ∃ r, ByReference.call Cell.view 10 cellHeap
        (assignThrough (.pointee { identifier := 9 }) : Func Cell Int Unit) cellPack = some r ∧
      r.heap.objects 1 = some (.pointee { identifier := 9 }) ∧
      GuardsUnchanged Cell.view (10 :: guardRefs cellPack) cellHeap r.heap := by
  have hrefs : ∀ loc ∈ 10 :: guardRefs cellPack,
      (guardAt Cell.view cellHeap loc).isSome = true := by
    intro loc hloc
    simp only [cellPack, guardRefs, List.mem_cons, List.mem_singleton, List.not_mem_nil,
      or_false] at hloc
    rcases hloc with rfl | rfl <;> rfl
  have hkept : ∀ loc ∈ 10 :: guardRefs cellPack, KeptByCopies Cell Int loc :=
    fun _ _ _ _ => ⟨rfl, rfl⟩
  have hrun : ByReference.call Cell.view 10 cellHeap
      (assignThrough (.pointee { identifier := 9 }) : Func Cell Int Unit) cellPack
      = some { value := (), heap := cellHeap.write 1 (.pointee { identifier := 9 }),
               trace := [.tested 0 true, .tested 2 true, .dereferenced 0, .dereferenced 2,
                         .invoked [.ref 1, .plain 1, .ref 2, .plain 2]] } := rfl
  refine ⟨hrefs, hkept, _, hrun, by simp [Heap.write], ?_⟩
  refine (call_leaves_guards_unchanged (R := Unit) Cell.view 10 id cellHeap
    (assignThrough (.pointee { identifier := 9 }) : Func Cell Int Unit) () cellPack
    hrefs hkept).2.2.2.2.1 _ (Or.inl hrun) ?_
  intro vals hmem loc hloc h0
  simp only [cellPack, guardRefs, List.mem_cons, List.mem_singleton, List.not_mem_nil,
    or_false] at hloc
  simp only [List.mem_cons, List.mem_singleton, List.not_mem_nil, or_false] at hmem
  rcases hmem with hm | hm | hm | hm | hm
  · cases hm
  · cases hm
  · cases hm
  · cases hm
  · cases hm
    rcases hloc with hl | hl
    · subst hl
      simp [assignThrough, Heap.write]
    · subst hl
      simp [assignThrough, Heap.write]

/-- C24: for two guards `a` and `b` of a kind with `swap`, swapping twice restores
both, `a.swap(b)` and `b.swap(a)` leave `a` and `b` in the same final state, and
swapping a guard with itself leaves it unchanged; swapping twice with a bare
pointer restores guard and pointer as well. -/
theorem swap_is_involutive_and_symmetric {k : Kind} (a b : ptr_guard k)
    (hk : ptr_guard.offers k .swap = true) (p : Pointer k) :
    (a.swap hk b).1.swap hk (a.swap hk b).2 = (a, b) ∧
    ((a.swap hk b).1 = (b.swap hk a).2 ∧ (a.swap hk b).2 = (b.swap hk a).1) ∧
    a.swap hk a = (a, a) ∧
    (a.swap_pointer hk p).1.swap_pointer hk (a.swap_pointer hk p).2 = (a, p) := by
  cases k with
  | raw => simp [ptr_guard.offers, Kind.has] at hk
  | unique => exact ⟨rfl, ⟨rfl, rfl⟩, rfl, rfl⟩
  | shared => exact ⟨rfl, ⟨rfl, rfl⟩, rfl, rfl⟩
  | weak => exact ⟨rfl, ⟨rfl, rfl⟩, rfl, rfl⟩

/-- Witness of C24: swapping the unique guard on address 2 with the empty unique
guard, twice, restores both. -/
theorem swap_is_involutive_and_symmetric_witness :
    ptr_guard.offers .unique .swap = true ∧
    (uniqueGuard.swap rfl emptyUniqueGuard).1.swap rfl (uniqueGuard.swap rfl emptyUniqueGuard).2
      = (uniqueGuard, emptyUniqueGuard) :=
  ⟨rfl,
    (swap_is_involutive_and_symmetric uniqueGuard emptyUniqueGuard rfl
      (Pointer.null .unique)).1⟩

end Claims

end PtrGuard
